import Mathlib

/-!
Verification of the woff2 font codec sources against their specification.

Byte buffers are modelled as `List Nat` (each element intended to be a byte,
i.e. `< 256`; where a statement depends on this we carry it as a hypothesis).
Machine integers are modelled as `Nat` with explicit reductions `% 2^16` /
`% 2^32` at the points where the C++ code performs fixed-width arithmetic.
Right shifts on unsigned values are written as division by a power of two and
left shifts as multiplication; a bitwise OR of values occupying disjoint bit
ranges is written as `+`.  These are exact equivalences for the value ranges
involved, noted at each definition.
-/

namespace Woff2

/-- `Round4` from round.h (not included in the source drop; its behaviour is
pinned by the padding computations `(4 - (length & 3)) & 3` in font.cc):
round up to the next multiple of 4. -/
def Round4 (x : Nat) : Nat := (x + 3) / 4 * 4

/-- Big-endian packing of four bytes, `(b0<<24)|(b1<<16)|(b2<<8)|b3`;
for bytes `< 256` the OR has disjoint operands, hence the sum form. -/
def be32 (b0 b1 b2 b3 : Nat) : Nat := b0 * 2 ^ 24 + b1 * 2 ^ 16 + b2 * 2 ^ 8 + b3

/-- Big-endian packing of two bytes. -/
def be16 (b0 b1 : Nat) : Nat := b0 * 2 ^ 8 + b1

/-- The four big-endian bytes of a 32-bit value `x`, as stored by
`StoreU32` (store_bytes.h): `x>>24, x>>16, x>>8, x`, each truncated to 8 bits. -/
def storeU32Bytes (x : Nat) : List Nat :=
  [x / 2 ^ 24 % 256, x / 2 ^ 16 % 256, x / 2 ^ 8 % 256, x % 256]

/-- The two big-endian bytes of a 16-bit store (`Store16`, store_bytes.h). -/
def store16Bytes (x : Nat) : List Nat := [x / 2 ^ 8 % 256, x % 256]

/-- Read the big-endian 32-bit word at byte offset `i` of `l`
(reads of bytes beyond the end of the list yield 0). -/
def word32At (l : List Nat) (i : Nat) : Nat :=
  be32 (l.getD i 0) (l.getD (i + 1) 0) (l.getD (i + 2) 0) (l.getD (i + 3) 0)

/-- Overwrite the bytes of `l` starting at offset `o` with the bytes of `b`
(the model of a `memcpy(dst + o, b, b.len)` that stays in bounds). -/
def writeAt (l : List Nat) (o : Nat) (b : List Nat) : List Nat :=
  l.take o ++ b ++ l.drop (o + b.length)

/-- `StoreU32(dst, offset, x)` on a flat buffer: write the four big-endian
bytes of `x` at `offset`. -/
def storeU32At (l : List Nat) (o : Nat) (x : Nat) : List Nat :=
  writeAt l o (storeU32Bytes x)

/-- Unsigned 32-bit subtraction `a - b` (wrapping), for `a b : Nat`. -/
def sub32 (a b : Nat) : Nat := (a % 2 ^ 32 + (2 ^ 32 - b % 2 ^ 32)) % 2 ^ 32

/-! ### The bounds-checked byte cursor (`Buffer`, buffer.h) -/

/-- `woff2::Buffer`: a read-only view over bytes plus a cursor. -/
structure Buffer where
  data : List Nat
  offset : Nat
deriving DecidableEq, Repr

/-- `Buffer::remaining_length()`. -/
def Buffer.remainingLength (b : Buffer) : Nat := b.data.length - b.offset

/-- `Buffer::Read(data, n_bytes)` (buffer.h lines 70-84): fails when more
than `1024*1024*1024` bytes are requested or fewer remain; otherwise yields
the bytes read and the advanced cursor. -/
def Buffer.read (b : Buffer) (n : Nat) : Option (List Nat × Buffer) :=
  if n > 1024 * 1024 * 1024 then none
  else if n > b.remainingLength then none
  else some ((b.data.drop b.offset).take n, ⟨b.data, b.offset + n⟩)

/-- `Buffer::Skip(n_bytes)` delegates to `Read` with an empty span. -/
def Buffer.skip (b : Buffer) (n : Nat) : Option Buffer :=
  (b.read n).map Prod.snd

/-- `Buffer::ReadU8`. -/
def Buffer.readU8 (b : Buffer) : Option (Nat × Buffer) :=
  if 1 > b.remainingLength then none
  else some (b.data.getD b.offset 0, ⟨b.data, b.offset + 1⟩)

/-- `Buffer::ReadU16` (big-endian). -/
def Buffer.readU16 (b : Buffer) : Option (Nat × Buffer) :=
  if 2 > b.remainingLength then none
  else some (be16 (b.data.getD b.offset 0) (b.data.getD (b.offset + 1) 0),
             ⟨b.data, b.offset + 2⟩)

/-- `Buffer::ReadU32` (big-endian). -/
def Buffer.readU32 (b : Buffer) : Option (Nat × Buffer) :=
  if 4 > b.remainingLength then none
  else some (word32At b.data b.offset, ⟨b.data, b.offset + 4⟩)

/-! ### Variable-length integers: `ReadBase128` -/

/-- Loop body of `ReadBase128` (woff2/woff2.cc lines 155-174).  `fuel`
counts the remaining loop iterations (5 at entry).  The overflow test is the
source's `if (result & 0xe0000000)`; the accumulation `(result << 7) |
(code & 0x7f)` is on `uint32_t`, hence the `% 2^32`. -/
def readBase128Go (b : Buffer) (result : Nat) : Nat → Option (Nat × Buffer)
  | 0 => none
  | fuel + 1 =>
    match b.readU8 with
    | none => none
    | some (code, b') =>
      if result &&& 0xe0000000 ≠ 0 then none
      else
        let result' := (result <<< 7) % 2 ^ 32 ||| (code &&& 0x7f)
        if code &&& 0x80 = 0 then some (result', b')
        else readBase128Go b' result' fuel

/-- `ReadBase128` (woff2/woff2.cc lines 155-174): up to 5 base-128 bytes. -/
def readBase128 (b : Buffer) : Option (Nat × Buffer) :=
  readBase128Go b 0 5

/-- Loop body of the `ReadBase128` variant in cpp/woff2.cc (lines 128-143),
which has no overflow test at all. -/
def cppReadBase128Go (b : Buffer) (result : Nat) : Nat → Option (Nat × Buffer)
  | 0 => none
  | fuel + 1 =>
    match b.readU8 with
    | none => none
    | some (code, b') =>
      let result' := (result <<< 7) % 2 ^ 32 ||| (code &&& 0x7f)
      if code &&& 0x80 = 0 then some (result', b')
      else cppReadBase128Go b' result' fuel

/-- `ReadBase128` from cpp/woff2.cc. -/
def cppReadBase128 (b : Buffer) : Option (Nat × Buffer) :=
  cppReadBase128Go b 0 5

/-! ### Table tags (table_tags.h; the ASCII big-endian packings are pinned by
the known-tags list of the WOFF2 directory format) -/

def kGlyfTableTag : Nat := 0x676c7966

def kHeadTableTag : Nat := 0x68656164

def kLocaTableTag : Nat := 0x6c6f6361

def kDsigTableTag : Nat := 0x44534947

def kCffTableTag : Nat := 0x43464620

def kWoff2Signature : Nat := 0x774f4632

/-! ### The sfnt font model (font.h / font.cc) -/

/-- `Font::Table`: one record of the sfnt table directory.  `data` models
the bytes reachable from the record's data pointer (the table payload,
including any trailing bytes the C++ code may read past `length`). -/
structure FontTable where
  tag : Nat
  checksum : Nat
  offset : Nat
  length : Nat
  data : List Nat
deriving Repr, DecidableEq

/-- `Font`: flavor, table count, and the table map.  `tables` is kept in the
iteration order of the C++ `std::map<uint32_t, Table>`, i.e. ascending tag. -/
structure SfntFont where
  flavor : Nat
  numTables : Nat
  tables : List FontTable
deriving Repr, DecidableEq

/-- `Font::FindTable`: lookup by tag. -/
def findTable (font : SfntFont) (tag : Nat) : Option FontTable :=
  font.tables.find? (·.tag == tag)

/-- Replace the table with the given tag (the model of mutating the record
held in the `std::map`). -/
def updateTable (font : SfntFont) (tag : Nat) (t' : FontTable) : SfntFont :=
  { font with tables := font.tables.map (fun t => if t.tag = tag then t' else t) }

/-- Tag-sorted insertion, mirroring `std::map` insertion (ascending key). -/
def tablesInsert (t : FontTable) : List FontTable → List FontTable
  | [] => [t]
  | t' :: rest =>
    if t.tag < t'.tag then t :: t' :: rest
    else if t.tag = t'.tag then t :: rest
    else t' :: tablesInsert t rest

/-- `intervals[offset] = length` of ReadFont: `std::map` assignment, keyed
by offset, ascending, replacing the entry of an equal key. -/
def mapInsert (k v : Nat) : List (Nat × Nat) → List (Nat × Nat)
  | [] => [(k, v)]
  | (k', v') :: rest =>
    if k < k' then (k, v) :: (k', v') :: rest
    else if k = k' then (k, v) :: rest
    else (k', v') :: mapInsert k v rest

/-- Directory-reading loop of `ReadFont` (font.cc): read `n` 16-byte records,
checking alignment and in-file bounds per record, recording each interval in
the offset-keyed map, and failing on a duplicate tag. -/
def readFontTables (data : List Nat) :
    Buffer → Nat → List FontTable → List (Nat × Nat) →
    Option (List FontTable × List (Nat × Nat))
  | _, 0, acc, intervals => some (acc, intervals)
  | b, n + 1, acc, intervals =>
    match b.readU32 with
    | none => none
    | some (tag, b) =>
    match b.readU32 with
    | none => none
    | some (checksum, b) =>
    match b.readU32 with
    | none => none
    | some (offset, b) =>
    match b.readU32 with
    | none => none
    | some (length, b) =>
      if offset % 4 ≠ 0 then none
      else if length > data.length then none
      else if data.length - length < offset then none
      else
        let intervals := mapInsert offset length intervals
        let table : FontTable :=
          { tag := tag, checksum := checksum, offset := offset, length := length,
            data := data.drop offset }
        if acc.any (·.tag == tag) then none
        else readFontTables data b n (tablesInsert table acc) intervals

/-- Non-overlap pass of `ReadFont`: walk the offset-sorted interval map,
requiring each interval to start at or after the running end (`last_offset`,
a `uint32_t`) and not to wrap in 32-bit arithmetic. -/
def checkIntervals (lastOffset : Nat) : List (Nat × Nat) → Bool
  | [] => true
  | (o, len) :: rest =>
    if o < lastOffset then false
    else if (o + len) % 2 ^ 32 < o then false
    else checkIntervals ((o + len) % 2 ^ 32) rest

/-- `ReadFont` (font.cc lines 38-80). -/
def readFont (data : List Nat) : Option SfntFont :=
  let file : Buffer := ⟨data, 0⟩
  match file.readU32 with
  | none => none
  | some (flavor, b) =>
  match b.readU16 with
  | none => none
  | some (numTables, b) =>
  match b.skip 6 with
  | none => none
  | some b =>
  match readFontTables data b numTables [] [] with
  | none => none
  | some (tables, intervals) =>
    if checkIntervals (12 + 16 * numTables) intervals then
      some ⟨flavor, numTables, tables⟩
    else none

/-- `FontFileSize` (font.cc): directory end or the furthest padded table end. -/
def fontFileSize (font : SfntFont) : Nat :=
  font.tables.foldl
    (fun m t => max m ((4 - t.length % 4) % 4 + t.offset + t.length))
    (12 + 16 * font.numTables)

/-- `searchRange`/`entrySelector`/`rangeShift` derivation shared by
`WriteFont` (font.cc) and `ComputeHeaderChecksum` (normalize.cc); all three
are `uint16_t`, hence the `% 2^16` truncations.  `Log2Floor` (port.h) is
`Nat.log2` on nonzero input. -/
def sfntMaxPow2 (numTables : Nat) : Nat :=
  if numTables ≠ 0 then Nat.log2 numTables else 0

def sfntSearchRange (numTables : Nat) : Nat :=
  if sfntMaxPow2 numTables ≠ 0 then 2 ^ (sfntMaxPow2 numTables + 4) % 2 ^ 16 else 0

def sfntRangeShift (numTables : Nat) : Nat :=
  (numTables * 16 - sfntSearchRange numTables) % 2 ^ 16

/-- Per-table body of `WriteFont`: store the 16-byte directory entry at
`dirOff`, bounds-check, copy the table payload to its offset, and zero the
padding.  `offset + length` additions are 32-bit (`uint32_t` fields). -/
def writeFontTablesGo (dstSize : Nat) :
    List FontTable → Nat → List Nat → Option (List Nat)
  | [], _, dst => some dst
  | t :: rest, dirOff, dst =>
    let dst := storeU32At dst dirOff t.tag
    let dst := storeU32At dst (dirOff + 4) t.checksum
    let dst := storeU32At dst (dirOff + 8) t.offset
    let dst := storeU32At dst (dirOff + 12) t.length
    if (t.offset + t.length) % 2 ^ 32 < t.offset then none
    else if dstSize < (t.offset + t.length) % 2 ^ 32 then none
    else
      let dst := writeAt dst t.offset (t.data.take t.length)
      let padding := (4 - t.length % 4) % 4
      if (t.offset + t.length) % 2 ^ 32 + padding < padding then none
      else if dstSize < (t.offset + t.length) % 2 ^ 32 + padding then none
      else
        let dst := writeAt dst ((t.offset + t.length) % 2 ^ 32)
                     (List.replicate padding 0)
        writeFontTablesGo dstSize rest (dirOff + 16) dst

/-- `WriteFont` (font.cc lines 93-125), writing into a caller-provided
zero-initialised buffer of `dstSize` bytes. -/
def writeFont (font : SfntFont) (dstSize : Nat) : Option (List Nat) :=
  if dstSize < 12 + 16 * font.numTables then none
  else
    let dst := List.replicate dstSize 0
    let dst := storeU32At dst 0 font.flavor
    let dst := writeAt dst 4 (store16Bytes font.numTables)
    let dst := writeAt dst 6 (store16Bytes (sfntSearchRange font.numTables))
    let dst := writeAt dst 8 (store16Bytes (sfntMaxPow2 font.numTables))
    let dst := writeAt dst 10 (store16Bytes (sfntRangeShift font.numTables))
    writeFontTablesGo dstSize font.tables 12 dst

/-- `IndexFormat` (font.cc): head byte 51, or 0 if there is no head table. -/
def indexFormat (font : SfntFont) : Nat :=
  match findTable font kHeadTableTag with
  | none => 0
  | some head => head.data.getD 51 0

/-- `NumGlyphs` (font.cc): `loca.length / entry_size - 1`, or 0 when head or
loca is missing or head is shorter than 52 bytes.  The result is `Int`
because the C++ subtraction can produce -1 for a degenerate loca. -/
def numGlyphs (font : SfntFont) : Int :=
  match findTable font kHeadTableTag, findTable font kLocaTableTag with
  | some head, some loca =>
    if head.length < 52 then 0
    else (loca.length / (if indexFormat font = 0 then 2 else 4) : Int) - 1
  | _, _ => 0

/-- `RemoveDigitalSignature` (font.cc): drop a DSIG table if present and
refresh `num_tables` from the map size. -/
def removeDigitalSignature (font : SfntFont) : SfntFont :=
  if font.tables.any (·.tag == kDsigTableTag) then
    let tables := font.tables.filter (fun t => t.tag ≠ kDsigTableTag)
    { font with tables := tables, numTables := tables.length }
  else font

/-! ### The normalizer (normalize.cc) -/

/-- `MakeEditableBuffer` (normalize.cc): promote the table's payload to an
owned buffer of `Round4(length)` bytes copied from its data pointer. -/
def makeEditableBuffer (font : SfntFont) (tag : Nat) : Option SfntFont :=
  match findTable font tag with
  | none => none
  | some t =>
    some (updateTable font tag { t with data := t.data.take (Round4 t.length) })

/-- `StoreLoca` (normalize.cc): one loca entry, `value >> 1` as a 16-bit word
for index format 0, else the full 32-bit value. -/
def storeLoca (indexFmt : Nat) (value : Nat) : List Nat :=
  if indexFmt = 0 then store16Bytes (value / 2) else storeU32Bytes value

/-- Loop of `WriteNormalizedLoca` (normalize.cc lines 81-102).
`store i` abstracts `GetGlyphData` + `ReadGlyph` +
`NormalizeSimpleGlyphBoundingBox` + `StoreGlyph` for glyph `i` (glyph.cc is
not part of the source drop): `none` when reading or storing the glyph
fails, otherwise the byte size the stored glyph occupies before padding.
The running `glyf_offset` is a `uint32_t`; the loop fails when the stored
size exceeds `uint32` range, when the 32-bit addition would wrap, or — for
16-bit loca only — when the new offset reaches `1 << 17`. -/
def writeNormalizedLocaGo (store : Nat → Option Nat) (indexFmt : Nat) :
    Nat → Nat → List Nat → Nat → Option (Nat × List Nat)
  | _, glyfOffset, locaBytes, 0 =>
    if glyfOffset = 0 then none
    else some (glyfOffset, locaBytes ++ storeLoca indexFmt glyfOffset)
  | i, glyfOffset, locaBytes, remaining + 1 =>
    let locaBytes := locaBytes ++ storeLoca indexFmt glyfOffset
    match store i with
    | none => none
    | some sz =>
      let sz4 := Round4 sz
      if sz4 > 2 ^ 32 - 1 then none
      else if (glyfOffset + sz4 % 2 ^ 32) % 2 ^ 32 < glyfOffset then none
      else if indexFmt = 0 ∧ glyfOffset + sz4 ≥ 2 ^ 17 then none
      else writeNormalizedLocaGo store indexFmt (i + 1) (glyfOffset + sz4)
             locaBytes remaining

/-- `WriteNormalizedLoca` (normalize.cc lines 68-115): rebuild loca (and the
glyf payload, whose byte content is abstracted by `store`; only its length
`glyf_offset` is observable here) for `numGl` glyphs.  Fails when any glyph
fails to convert or when the final `glyf_offset` is zero. -/
def writeNormalizedLoca (store : Nat → Option Nat) (indexFmt : Nat)
    (numGl : Int) (font : SfntFont) : Option SfntFont :=
  match findTable font kGlyfTableTag, findTable font kLocaTableTag with
  | some glyf, some loca =>
    match writeNormalizedLocaGo store indexFmt 0 0 [] numGl.toNat with
    | none => none
    | some (glyfOffset, locaBytes) =>
      let glyphSz := if indexFmt = 0 then 2 else 4
      let bufLen := Round4 (numGl + 1).toNat * glyphSz
      let locaData := locaBytes ++ List.replicate (bufLen - locaBytes.length) 0
      let font := updateTable font kGlyfTableTag
        { glyf with data := List.replicate glyfOffset 0, length := glyfOffset }
      some (updateTable font kLocaTableTag
        { loca with data := locaData, length := (numGl + 1).toNat * glyphSz })
  | _, _ => none

/-- `NormalizeGlyphs` (normalize.cc lines 136-183): skip CFF-only fonts,
require glyf/loca otherwise, rebuild loca with the head's index format, and
on failure of a 16-bit attempt retry once with 32-bit entries, setting head
byte 51 to 1. -/
def normalizeGlyphs (store : Nat → Option Nat) (font : SfntFont) :
    Option SfntFont :=
  let cff := findTable font kCffTableTag
  let glyf := findTable font kGlyfTableTag
  let loca := findTable font kLocaTableTag
  match findTable font kHeadTableTag with
  | none => none
  | some headT =>
    if cff.isSome ∧ loca.isNone ∧ glyf.isNone then some font
    else if loca.isNone ∨ glyf.isNone then none
    else
      let indexFmt := headT.data.getD 51 0
      let n := numGlyphs font
      match writeNormalizedLoca store indexFmt n font with
      | some font' => some font'
      | none =>
        if indexFmt ≠ 0 then none
        else
          match writeNormalizedLoca store 1 n font with
          | none => none
          | some font' =>
            match findTable font' kHeadTableTag with
            | none => none
            | some headT' =>
              some (updateTable font' kHeadTableTag
                { headT' with data := headT'.data.set 51 1 })

/-- `NormalizeOffsets` (normalize.cc): lay the tables out contiguously after
the directory, 4-byte padded; the running offset is a `uint32_t`. -/
def normalizeOffsetsGo (offset : Nat) : List FontTable → List FontTable
  | [] => []
  | t :: rest =>
    { t with offset := offset } ::
      normalizeOffsetsGo ((offset + Round4 t.length) % 2 ^ 32) rest

def normalizeOffsets (font : SfntFont) : SfntFont :=
  { font with
    tables := normalizeOffsetsGo ((12 + 16 * font.numTables) % 2 ^ 32) font.tables }

/-- `ComputeChecksum` (normalize.cc lines 196-205): mod-2^32 sum of the
big-endian 32-bit words starting at the table payload, read in steps of 4
while the step base is `< size` (so a non-multiple-of-4 `size` reads up to 3
trailing bytes beyond it, which is why callers keep payloads padded). -/
def computeChecksum (buf : List Nat) (size : Nat) : Nat :=
  if 0 < size then
    (word32At buf 0 + computeChecksum (buf.drop 4) (size - 4)) % 2 ^ 32
  else 0
termination_by size
decreasing_by omega

/-- `ComputeHeaderChecksum` (normalize.cc lines 207-221): mod-2^32 sum of
the sfnt header words and all directory-entry words. -/
def computeHeaderChecksum (font : SfntFont) : Nat :=
  let s := (font.flavor
    + (font.numTables * 2 ^ 16 + sfntSearchRange font.numTables)
    + (sfntMaxPow2 font.numTables * 2 ^ 16 + sfntRangeShift font.numTables))
    % 2 ^ 32
  font.tables.foldl
    (fun acc t => (acc + t.tag + t.checksum + t.offset + t.length) % 2 ^ 32) s

/-- `FixChecksums` (normalize.cc lines 225-243): zero head's
`checkSumAdjustment`, recompute every directory checksum, and store
`0xb1b0afba - (sum of table checksums + header checksum)` (32-bit wrapping)
back at head offset 8. -/
def fixChecksums (font : SfntFont) : Option SfntFont :=
  match findTable font kHeadTableTag with
  | none => none
  | some head =>
    if head.length < 12 then none
    else
      let font1 := updateTable font kHeadTableTag
        { head with data := storeU32At head.data 8 0 }
      let font2 := { font1 with
        tables := font1.tables.map
          (fun t => { t with checksum := computeChecksum t.data t.length }) }
      let fileChecksum :=
        (font2.tables.foldl (fun acc t => (acc + t.checksum) % 2 ^ 32) 0
          + computeHeaderChecksum font2) % 2 ^ 32
      let adj := sub32 0xb1b0afba fileChecksum
      match findTable font2 kHeadTableTag with
      | none => none
      | some head2 =>
        some (updateTable font2 kHeadTableTag
          { head2 with data := storeU32At head2.data 8 adj })

/-- `NormalizeFont` (normalize.cc lines 245-251). -/
def normalizeFont (store : Nat → Option Nat) (font : SfntFont) :
    Option SfntFont :=
  match makeEditableBuffer font kHeadTableTag with
  | none => none
  | some f1 =>
    match normalizeGlyphs store (removeDigitalSignature f1) with
    | none => none
    | some f2 => fixChecksums (normalizeOffsets f2)

/-! ### The WOFF2 container decoder (woff2_dec.cc) -/

/-- Modelled from the spec: `ComputeULongSum` (woff2_common.cc, not part of
the source drop) — the mod-2^32 sum of big-endian u32s over a payload of
`size` bytes, a non-multiple-of-4 tail being treated as zero-padded to a
full word (spec §4.D step 5: "per-table checksum is the sum (mod 2^32) of
big-endian u32s over the padded table payload"). -/
def computeULongSum (buf : List Nat) (size : Nat) : Nat :=
  computeChecksum (buf.take size) size

/-- `woff2::Table` (woff2_common.h): a WOFF2 directory record. -/
structure DecTable where
  tag : Nat
  flags : Nat
  srcOffset : Nat
  srcLength : Nat
  transformLength : Nat
  dstOffset : Nat
  dstLength : Nat
deriving Repr, DecidableEq

/-- `ComputeChecksum(table, dst)` (woff2_dec.cc line 587): checksum of the
table's reconstructed region of the output buffer. -/
def decComputeChecksum (t : DecTable) (dst : List Nat) : Nat :=
  computeULongSum (dst.drop t.dstOffset) t.dstLength

/-- Per-table loop of the decoder's `FixChecksums` (woff2_dec.cc lines
661-667): compute each table's checksum, write it into directory entry `i`
at byte `12 + 16*i + 4`, and accumulate the 32-bit file checksum. -/
def decFixChecksumsGo :
    List DecTable → Nat → List Nat → Nat → List Nat × Nat
  | [], _, dst, acc => (dst, acc)
  | t :: rest, i, dst, acc =>
    let chk := decComputeChecksum t dst
    decFixChecksumsGo rest (i + 1) (storeU32At dst (12 + 16 * i + 4) chk)
      ((acc + chk) % 2 ^ 32)

/-- `FixChecksums` (woff2_dec.cc lines 653-673), on the flat reconstructed
sfnt `dst`. -/
def decFixChecksums (tables : List DecTable) (dst : List Nat) :
    Option (List Nat) :=
  match tables.find? (·.tag == kHeadTableTag) with
  | none => none
  | some head =>
    if head.dstLength < 8 + 4 then none
    else
      let adjOffset := head.dstOffset + 8
      let dst := storeU32At dst adjOffset 0
      let r := decFixChecksumsGo tables 0 dst 0
      let fileChecksum :=
        (r.2 + computeULongSum r.1 (12 + 16 * tables.length)) % 2 ^ 32
      some (storeU32At r.1 adjOffset (sub32 0xb1b0afba fileChecksum))

/-- The header fields `ConvertWOFF2ToTTF` has parsed when it reaches the
table directory. -/
structure Woff2Header where
  cursor : Buffer
  flavor : Nat
  numTables : Nat
  compressedLength : Nat
  metaOffset : Nat
  metaLength : Nat
  privOffset : Nat
  privLength : Nat

/-- Header portion of `ConvertWOFF2ToTTF` (woff2_dec.cc lines 790-849):
signature, flavor, total length, table count, compressed length, metadata
and private-block ranges, each check as in the source.  `rest` abstracts
the remainder of the conversion (directory parse through checksum fixup),
which only runs when every header check has passed. -/
def woff2Decode (rest : Woff2Header → Option Unit) (data : List Nat) :
    Option Unit :=
  match Buffer.readU32 ⟨data, 0⟩ with
  | none => none
  | some (signature, b) =>
  if signature ≠ kWoff2Signature then none else
  match b.readU32 with
  | none => none
  | some (flavor, b) =>
  match b.readU32 with
  | none => none
  | some (reportedLength, b) =>
  if data.length ≠ reportedLength then none else
  match b.readU16 with
  | none => none
  | some (numTables, b) =>
  if numTables = 0 then none else
  match b.skip 6 with
  | none => none
  | some b =>
  match b.readU32 with
  | none => none
  | some (compressedLength, b) =>
  match b.skip 4 with
  | none => none
  | some b =>
  match b.readU32 with
  | none => none
  | some (metaOffset, b) =>
  match b.readU32 with
  | none => none
  | some (metaLength, b) =>
  match b.readU32 with
  | none => none
  | some (_metaLengthOrig, b) =>
  if metaOffset ≠ 0 ∧
      (metaOffset ≥ data.length ∨ data.length - metaOffset < metaLength) then
    none else
  match b.readU32 with
  | none => none
  | some (privOffset, b) =>
  match b.readU32 with
  | none => none
  | some (privLength, b) =>
  if privOffset ≠ 0 ∧
      (privOffset ≥ data.length ∨ data.length - privOffset < privLength) then
    none else
  rest ⟨b, flavor, numTables, compressedLength,
        metaOffset, metaLength, privOffset, privLength⟩

/-- Offset/size-assignment loop of `ConvertWOFF2ToTTF` (woff2_dec.cc lines
928-949): per table, `src_length` is the whole compressed stream for the
first table and 0 afterwards; running `src_offset`, `dst_offset` (4-byte
rounded) and `uncompressed_sum` are checked against the `uint32` ceiling. -/
def woff2TableLayoutGo (compressedLength : Nat) :
    List DecTable → Nat → Nat → Nat → Nat →
    Option (List DecTable × Nat × Nat × Nat)
  | [], _, srcOffset, dstOffset, uncompressedSum =>
    some ([], srcOffset, dstOffset, uncompressedSum)
  | t :: rest, i, srcOffset, dstOffset, uncompressedSum =>
    let srcLength := if i = 0 then compressedLength else 0
    let t' := { t with srcOffset := srcOffset, srcLength := srcLength,
                       dstOffset := dstOffset }
    let srcOffset := srcOffset + srcLength
    if srcOffset > 2 ^ 32 - 1 then none
    else
      let srcOffset := Round4 srcOffset
      let dstOffset := dstOffset + t.dstLength
      if dstOffset > 2 ^ 32 - 1 then none
      else
        let dstOffset := Round4 dstOffset
        let uncompressedSum := uncompressedSum + srcLength
        if uncompressedSum > 2 ^ 32 - 1 then none
        else
          match woff2TableLayoutGo compressedLength rest (i + 1) srcOffset
              dstOffset uncompressedSum with
          | none => none
          | some (ts, so, d2, us) => some (t' :: ts, so, d2, us)

/-- Layout stage of `ConvertWOFF2ToTTF` (woff2_dec.cc lines 917-959 minus
the TTC branch): assign offsets, then reject when `uncompressed_sum`
exceeds 30 MiB, when the source cursor ran past the input, or when the
computed output size disagrees with `result_length`. -/
def woff2TableLayout (tables : List DecTable)
    (compressedLength srcStart firstTableOffset dataLength resultLength : Nat) :
    Option (List DecTable) :=
  match woff2TableLayoutGo compressedLength tables 0 srcStart
      firstTableOffset 0 with
  | none => none
  | some (ts, srcOffset, dstOffset, uncompressedSum) =>
    if uncompressedSum > 30 * 1024 * 1024 then none
    else if srcOffset > dataLength then none
    else if dstOffset ≠ resultLength then none
    else some ts

/-! ### Concrete inputs used by individual claims -/

/-- A 52-byte sfnt: TrueType flavor, two tables `AAAA` (offset 44, length 8)
and `BBBB` (offset 44, length 4) — distinct tags, overlapping byte ranges. -/
def overlapFontBytes : List Nat :=
  [0x00, 0x01, 0x00, 0x00,
   0x00, 0x02, 0, 0, 0, 0, 0, 0,
   0x41, 0x41, 0x41, 0x41, 0, 0, 0, 0, 0, 0, 0, 44, 0, 0, 0, 8,
   0x42, 0x42, 0x42, 0x42, 0, 0, 0, 0, 0, 0, 0, 44, 0, 0, 0, 4,
   0, 0, 0, 0, 0, 0, 0, 0]

/-- A 32-byte sfnt with a single table `AAAA` (offset 28, length 4) that
passes every `ReadFont` check. -/
def validFontBytes : List Nat :=
  [0x00, 0x01, 0x00, 0x00,
   0x00, 0x01, 0, 0, 0, 0, 0, 0,
   0x41, 0x41, 0x41, 0x41, 0, 0, 0, 0, 0, 0, 0, 28, 0, 0, 0, 4,
   0, 0, 0, 0]

/-- A 32-byte WOFF2 file: correct signature, `totalLength` = 32 and
`num_tables` = 0 (spec scenario S1). -/
def s1Woff2Bytes : List Nat :=
  [0x77, 0x4F, 0x46, 0x32,
   0x00, 0x01, 0x00, 0x00,
   0x00, 0x00, 0x00, 0x20,
   0x00, 0x00,
   0, 0, 0, 0, 0, 0, 0, 0, 0, 0, 0, 0, 0, 0, 0, 0, 0, 0]

/-- A small TrueType font with head (54 bytes, zero-filled, so head byte 51
requests 16-bit loca), a glyf table and a 4-byte loca (one glyph). -/
def tinyFont : SfntFont :=
  ⟨0x00010000, 3,
   [⟨kGlyfTableTag, 0, 44, 0, []⟩,
    ⟨kHeadTableTag, 0, 44, 54, List.replicate 56 0⟩,
    ⟨kLocaTableTag, 0, 100, 4, [0, 0, 0, 0]⟩]⟩

/-- Partial sums of the padded stored-glyph sizes: the values the running
`glyf_offset` of `WriteNormalizedLoca` takes (when no failure interrupts),
i.e. the normalized loca offsets. -/
def glyfOffsetFrom (sizes : Nat → Nat) (i : Nat) : Nat → Nat
  | 0 => 0
  | k + 1 => Round4 (sizes i) + glyfOffsetFrom sizes (i + 1) k

/-! ### Byte-level layout descriptions used by the checksum-law proofs -/

/-- The 12 sfnt header bytes `WriteFont` emits. -/
def hdrBytes (font : SfntFont) : List Nat :=
  storeU32Bytes font.flavor ++ store16Bytes font.numTables ++
    store16Bytes (sfntSearchRange font.numTables) ++
    store16Bytes (sfntMaxPow2 font.numTables) ++
    store16Bytes (sfntRangeShift font.numTables)

/-- The 16 directory bytes `WriteFont` emits for one table record. -/
def entryBytes (t : FontTable) : List Nat :=
  storeU32Bytes t.tag ++ storeU32Bytes t.checksum ++
    storeU32Bytes t.offset ++ storeU32Bytes t.length

/-- The padded payload region `WriteFont` emits for one table. -/
def regionBytes (t : FontTable) : List Nat :=
  t.data.take t.length ++ List.replicate ((4 - t.length % 4) % 4) 0

/-- The table offsets run consecutively from `base`, each table occupying
`Round4 length` bytes — the layout `NormalizeOffsets` produces. -/
def layoutFrom (base : Nat) : List FontTable → Prop
  | [] => True
  | t :: rest => t.offset = base ∧ layoutFrom (base + Round4 t.length) rest

/-- The same consecutive layout for the decoder's directory records
(`dstOffset`/`dstLength`), as the decoder's reconstruction loop lays the
output buffer out. -/
def decLayoutFrom (base : Nat) : List DecTable → Prop
  | [] => True
  | t :: rest => t.dstOffset = base ∧ decLayoutFrom (base + Round4 t.dstLength) rest

/-- Fuel-based evaluator for `computeChecksum` (structurally recursive, so
concrete instances reduce in the kernel); proven equal to `computeChecksum`
whenever the fuel covers the size. -/
def computeChecksumFuel : Nat → List Nat → Nat → Nat
  | 0, _, _ => 0
  | fuel + 1, buf, size =>
    if 0 < size then
      (word32At buf 0 + computeChecksumFuel fuel (buf.drop 4) (size - 4))
        % 2 ^ 32
    else 0

end Woff2

namespace Woff2

/-! ## Theorems -/

/-- Structural twin of `Nat.log2` (which is well-founded, so concrete
instances would not reduce in the kernel). -/
def log2Fuel : Nat → Nat → Nat
  | 0, _ => 0
  | f + 1, n => if 2 ≤ n then log2Fuel f (n / 2) + 1 else 0

/-- Fuel twin of `sfntMaxPow2`. -/
def sfntMaxPow2Fuel (fuel numTables : Nat) : Nat :=
  if numTables ≠ 0 then log2Fuel fuel numTables else 0

/-- Fuel twin of `sfntSearchRange`. -/
def sfntSearchRangeFuel (fuel numTables : Nat) : Nat :=
  if sfntMaxPow2Fuel fuel numTables ≠ 0 then
    2 ^ (sfntMaxPow2Fuel fuel numTables + 4) % 2 ^ 16
  else 0

/-- Fuel twin of `sfntRangeShift`. -/
def sfntRangeShiftFuel (fuel numTables : Nat) : Nat :=
  (numTables * 16 - sfntSearchRangeFuel fuel numTables) % 2 ^ 16

/-- Fuel twin of `computeHeaderChecksum`. -/
def computeHeaderChecksumFuel (fuel : Nat) (font : SfntFont) : Nat :=
  let s := (font.flavor
    + (font.numTables * 2 ^ 16 + sfntSearchRangeFuel fuel font.numTables)
    + (sfntMaxPow2Fuel fuel font.numTables * 2 ^ 16
      + sfntRangeShiftFuel fuel font.numTables))
    % 2 ^ 32
  font.tables.foldl
    (fun acc t => (acc + t.tag + t.checksum + t.offset + t.length) % 2 ^ 32) s

/-- Fuel twin of `writeFont`. -/
def writeFontFuel (fuel : Nat) (font : SfntFont) (dstSize : Nat) :
    Option (List Nat) :=
  if dstSize < 12 + 16 * font.numTables then none
  else
    let dst := List.replicate dstSize 0
    let dst := storeU32At dst 0 font.flavor
    let dst := writeAt dst 4 (store16Bytes font.numTables)
    let dst := writeAt dst 6
      (store16Bytes (sfntSearchRangeFuel fuel font.numTables))
    let dst := writeAt dst 8
      (store16Bytes (sfntMaxPow2Fuel fuel font.numTables))
    let dst := writeAt dst 10
      (store16Bytes (sfntRangeShiftFuel fuel font.numTables))
    writeFontTablesGo dstSize font.tables 12 dst

/-- Fuel-based twin of `fixChecksums` (`computeChecksumFuel` in place of
`computeChecksum`), so concrete instances reduce in the kernel; equal to
`fixChecksums` whenever the fuel covers every table length. -/
def fixChecksumsFuel (fuel : Nat) (font : SfntFont) : Option SfntFont :=
  match findTable font kHeadTableTag with
  | none => none
  | some head =>
    if head.length < 12 then none
    else
      let font1 := updateTable font kHeadTableTag
        { head with data := storeU32At head.data 8 0 }
      let font2 := { font1 with
        tables := font1.tables.map
          (fun t => { t with checksum :=
            computeChecksumFuel fuel t.data t.length }) }
      let fileChecksum :=
        (font2.tables.foldl (fun acc t => (acc + t.checksum) % 2 ^ 32) 0
          + computeHeaderChecksumFuel fuel font2) % 2 ^ 32
      let adj := sub32 0xb1b0afba fileChecksum
      match findTable font2 kHeadTableTag with
      | none => none
      | some head2 =>
        some (updateTable font2 kHeadTableTag
          { head2 with data := storeU32At head2.data 8 adj })

/-- C10: `Buffer::Read` — and `Buffer::Skip`, which delegates to it —
fails for every requested size greater than 2^30 bytes, whatever the
buffer state (in particular even when at least that many bytes remain);
hence no single read or skip of more than 1 GiB ever succeeds. -/
theorem c10_buffer_read_cap (b : Buffer) (n : Nat) (h : n > 2 ^ 30) :
    b.read n = none ∧ b.skip n = none := by
  have h' : n > 1024 * 1024 * 1024 := by norm_num; omega
  exact ⟨by simp [Buffer.read, h'], by simp [Buffer.skip, Buffer.read, h']⟩

/-- Witness for C10 at a concrete oversize request on a buffer with more
than enough bytes remaining. -/
theorem c10_buffer_read_cap_witness :
    2 ^ 30 + 1 > 2 ^ 30 ∧
    (Buffer.mk (List.replicate (2 ^ 30 + 2) 0) 0).remainingLength ≥ 2 ^ 30 + 1 ∧
    (Buffer.mk (List.replicate (2 ^ 30 + 2) 0) 0).read (2 ^ 30 + 1) = none ∧
    (Buffer.mk (List.replicate (2 ^ 30 + 2) 0) 0).skip (2 ^ 30 + 1) = none := by
  refine ⟨by norm_num, ?_,
    (c10_buffer_read_cap _ _ (by norm_num)).1,
    (c10_buffer_read_cap _ _ (by norm_num)).2⟩
  rw [Buffer.remainingLength]
  rw [show (Buffer.mk (List.replicate (2 ^ 30 + 2) 0) 0).data
        = List.replicate (2 ^ 30 + 2) 0 from rfl,
      List.length_replicate]
  norm_num

/-- C6 (code slip): on input `FF FF FF FF 7F` — whose accumulated value
before the final shift-in, `0xFFFFFFF`, has bits among the top seven of a
32-bit word set, i.e. a value overflow in the claim's sense — both in-tree
`ReadBase128` variants succeed, returning the truncated value `0xFFFFFFFF`
instead of failing: the overflow test masks with `0xe0000000` (top three
bits), which the accumulator (always `< 2^28`) can never reach. -/
theorem c6_readBase128_overflow_undetected :
    readBase128 ⟨[0xFF, 0xFF, 0xFF, 0xFF, 0x7F], 0⟩
      = some (0xFFFFFFFF, ⟨[0xFF, 0xFF, 0xFF, 0xFF, 0x7F], 5⟩) ∧
    cppReadBase128 ⟨[0xFF, 0xFF, 0xFF, 0xFF, 0x7F], 0⟩
      = some (0xFFFFFFFF, ⟨[0xFF, 0xFF, 0xFF, 0xFF, 0x7F], 5⟩) ∧
    (((0x7F <<< 7 ||| 0x7F) <<< 7 ||| 0x7F) <<< 7 ||| 0x7F) &&& 0xFE000000 ≠ 0 ∧
    (((0x7F <<< 7 ||| 0x7F) <<< 7 ||| 0x7F) <<< 7 ||| 0x7F) &&& 0xe0000000 = 0 := by
  decide

/-- C5 (code slip): the "30 MiB uncompressed" rejection of
`ConvertWOFF2ToTTF` sums the tables' `src_length` — which is the single
compressed-stream length — not their uncompressed sizes.  A directory whose
uncompressed sizes total over 30 MiB (12 + 31457280 bytes) passes the size
check when the compressed stream is small (100 bytes), while a small font
with a compressed stream of 30 MiB + 1 is rejected. -/
theorem c5_size_check_uses_compressed_length :
    (woff2TableLayout
        [⟨kHeadTableTag, 0, 0, 0, 12, 0, 12⟩,
         ⟨0x636d6170, 0, 0, 0, 31457280, 0, 31457280⟩]
        100 53 44 156 31457336).isSome = true ∧
    12 + 31457280 > 30 * 1024 * 1024 ∧
    woff2TableLayout [⟨kHeadTableTag, 0, 0, 0, 12, 0, 12⟩]
        31457281 53 28 31457440 40 = none ∧
    12 ≤ 30 * 1024 * 1024 := by
  decide

/-- C8 counterexample: `ReadFont` accepts this 52-byte sfnt although its two
tables (distinct tags `AAAA`, `BBBB`) occupy overlapping byte ranges
[44,52) and [44,48) — the interval map keyed by offset retains only the
last record per distinct offset, so the two are never checked against each
other. -/
theorem c8_overlapping_tables_accepted :
    readFont overlapFontBytes =
      some ⟨0x00010000, 2,
        [⟨0x41414141, 0, 44, 8, [0, 0, 0, 0, 0, 0, 0, 0]⟩,
         ⟨0x42424242, 0, 44, 4, [0, 0, 0, 0, 0, 0, 0, 0]⟩]⟩ ∧
    (0x41414141 : Nat) ≠ 0x42424242 ∧ 44 < 44 + 4 ∧ 44 < 44 + 8 := by
  decide

theorem mapInsert_mem {k v : Nat} {m : List (Nat × Nat)} {p : Nat × Nat}
    (h : p ∈ mapInsert k v m) : p.1 = k ∨ p ∈ m := by
  induction m with
  | nil =>
    simp only [mapInsert, List.mem_singleton] at h
    subst h; left; rfl
  | cons q rest ih =>
    rcases q with ⟨k', v'⟩
    simp only [mapInsert] at h
    split at h
    · rcases List.mem_cons.mp h with rfl | h2
      · left; rfl
      · right; exact h2
    · split at h
      · rcases List.mem_cons.mp h with rfl | h2
        · left; rfl
        · right; exact List.mem_cons_of_mem _ h2
      · rcases List.mem_cons.mp h with rfl | h2
        · right; exact List.mem_cons_self _ _
        · rcases ih h2 with h3 | h3
          · left; exact h3
          · right; exact List.mem_cons_of_mem _ h3

theorem mapInsert_self (k v : Nat) (m : List (Nat × Nat)) :
    ∃ v0, (k, v0) ∈ mapInsert k v m := by
  induction m with
  | nil => exact ⟨v, List.mem_singleton.mpr rfl⟩
  | cons q rest ih =>
    rcases q with ⟨k', v'⟩
    simp only [mapInsert]
    split
    · exact ⟨v, List.mem_cons_self _ _⟩
    · split
      · exact ⟨v, List.mem_cons_self _ _⟩
      · rcases ih with ⟨v0, hv0⟩
        exact ⟨v0, List.mem_cons_of_mem _ hv0⟩

theorem mapInsert_keeps {k v k0 : Nat} {m : List (Nat × Nat)}
    (h : ∃ v0, (k0, v0) ∈ m) : ∃ v0, (k0, v0) ∈ mapInsert k v m := by
  induction m with
  | nil => simp at h
  | cons q rest ih =>
    rcases q with ⟨k', v'⟩
    rcases h with ⟨v0, hv0⟩
    simp only [mapInsert]
    split
    · exact ⟨v0, List.mem_cons_of_mem _ hv0⟩
    · split
      · rename_i hk1 hk2
        rcases List.mem_cons.mp hv0 with heq | hmem
        · have h1 : k0 = k' := (Prod.mk.injEq ..).mp heq |>.1
          exact ⟨v, by rw [h1, ← hk2]; exact List.mem_cons_self _ _⟩
        · exact ⟨v0, List.mem_cons_of_mem _ hmem⟩
      · rcases List.mem_cons.mp hv0 with heq | hmem
        · exact ⟨v0, heq ▸ List.mem_cons_self _ _⟩
        · rcases ih ⟨v0, hmem⟩ with ⟨v1, hv1⟩
          exact ⟨v1, List.mem_cons_of_mem _ hv1⟩

theorem checkIntervals_lower {L : Nat} {m : List (Nat × Nat)}
    (h : checkIntervals L m = true) : ∀ p ∈ m, L ≤ p.1 := by
  induction m generalizing L with
  | nil => simp
  | cons q rest ih =>
    rcases q with ⟨o, len⟩
    simp only [checkIntervals] at h
    split at h
    · exact absurd h (by simp)
    · split at h
      · exact absurd h (by simp)
      · intro p hp
        rename_i h3 h4
        rcases List.mem_cons.mp hp with rfl | hp2
        · exact by omega
        · have h2 := ih h p hp2
          omega

theorem tablesInsert_mem {t0 t : FontTable} {acc : List FontTable}
    (h : t ∈ tablesInsert t0 acc) : t = t0 ∨ t ∈ acc := by
  induction acc with
  | nil =>
    simp only [tablesInsert, List.mem_singleton] at h
    left; exact h
  | cons t' rest ih =>
    simp only [tablesInsert] at h
    split at h
    · rcases List.mem_cons.mp h with rfl | h2
      · left; rfl
      · right; exact h2
    · split at h
      · rcases List.mem_cons.mp h with rfl | h2
        · left; rfl
        · right; exact List.mem_cons_of_mem _ h2
      · rcases List.mem_cons.mp h with rfl | h2
        · right; exact List.mem_cons_self _ _
        · rcases ih h2 with h3 | h3
          · left; exact h3
          · right; exact List.mem_cons_of_mem _ h3

theorem tablesInsert_tags_perm {t0 : FontTable} {acc : List FontTable}
    (hnot : t0.tag ∉ acc.map FontTable.tag) :
    ((tablesInsert t0 acc).map FontTable.tag).Perm
      (t0.tag :: acc.map FontTable.tag) := by
  induction acc with
  | nil => simp [tablesInsert]
  | cons t' rest ih =>
    simp only [tablesInsert]
    split
    · simp
    · split
      · rename_i hlt heq
        exact absurd (by simp [heq]) hnot
      · have hnot' : t0.tag ∉ rest.map FontTable.tag := by
          intro hmem
          exact hnot (by simp [hmem])
        simp only [List.map_cons]
        exact ((ih hnot').cons t'.tag).trans (List.Perm.swap _ _ _)

theorem readFontTables_post {data : List Nat} :
    ∀ {n : Nat} {b : Buffer} {acc : List FontTable} {ivs : List (Nat × Nat)}
      {tables : List FontTable} {ivs2 : List (Nat × Nat)},
    readFontTables data b n acc ivs = some (tables, ivs2) →
    (∀ t ∈ tables, t ∈ acc ∨
      (t.offset % 4 = 0 ∧ t.length ≤ data.length ∧
        t.offset ≤ data.length - t.length ∧ ∃ v, (t.offset, v) ∈ ivs2)) ∧
    (∀ k, (∃ v, (k, v) ∈ ivs) → ∃ v, (k, v) ∈ ivs2) ∧
    ((acc.map FontTable.tag).Nodup → (tables.map FontTable.tag).Nodup) := by
  intro n
  induction n with
  | zero =>
    intro b acc ivs tables ivs2 h
    simp only [readFontTables, Option.some.injEq, Prod.mk.injEq] at h
    rcases h with ⟨rfl, rfl⟩
    exact ⟨fun t ht => Or.inl ht, fun k hk => hk, fun h => h⟩
  | succ n ih =>
    intro b acc ivs tables ivs2 h
    simp only [readFontTables] at h
    split at h
    · simp at h
    rename_i tag b1 _
    split at h
    · simp at h
    rename_i checksum b2 _
    split at h
    · simp at h
    rename_i offset b3 _
    split at h
    · simp at h
    rename_i length b4 _
    split at h
    · simp at h
    rename_i halign
    split at h
    · simp at h
    rename_i hlen
    split at h
    · simp at h
    rename_i hbound
    split at h
    · simp at h
    rename_i hdup
    have hmain := ih h
    have hguard : ∀ t ∈ acc, t.tag ≠ tag := by
      intro t ht heq
      exact hdup (List.any_eq_true.mpr ⟨t, ht, by simp [heq]⟩)
    refine ⟨?_, ?_, ?_⟩
    · intro t ht
      rcases hmain.1 t ht with hmem | hprop
      · rcases tablesInsert_mem hmem with rfl | hacc
        · right
          dsimp only
          refine ⟨by omega, by omega, by omega, ?_⟩
          exact hmain.2.1 offset (mapInsert_self offset length ivs)
        · left; exact hacc
      · right; exact hprop
    · intro k hk
      exact hmain.2.1 k (mapInsert_keeps hk)
    · intro hnodup
      refine hmain.2.2 ?_
      have hnomem : tag ∉ acc.map FontTable.tag := by
        intro hmem
        rcases List.mem_map.mp hmem with ⟨t, ht, htag⟩
        exact hguard t ht htag
      have hperm := @tablesInsert_tags_perm
        { tag := tag, checksum := checksum, offset := offset,
          length := length, data := data.drop offset } acc hnomem
      exact hperm.symm.nodup (List.nodup_cons.mpr ⟨hnomem, hnodup⟩)

/-- C8 amended: `ReadFont` fails unless every table record is 4-byte
aligned, lies within the input without overflow, starts at or after the
end of the directory, and carries a tag distinct from every other table's;
the per-pair non-overlap of the original claim, however, is only enforced
between the intervals retained in the offset-keyed map (one per distinct
start offset), as the counterexample shows. -/
theorem c8_readFont_parse_checks {data : List Nat} {font : SfntFont}
    (h : readFont data = some font) :
    (∀ t ∈ font.tables,
      t.offset % 4 = 0 ∧ t.length ≤ data.length ∧
      t.offset + t.length ≤ data.length ∧
      12 + 16 * font.numTables ≤ t.offset) ∧
    (font.tables.map FontTable.tag).Nodup := by
  rw [readFont] at h
  split at h
  · exact absurd h (by simp)
  rename_i flavor b1 _
  split at h
  · exact absurd h (by simp)
  rename_i numTables b2 _
  split at h
  · exact absurd h (by simp)
  rename_i b3 _
  split at h
  · exact absurd h (by simp)
  rename_i tables ivs hrft
  split at h
  case isFalse => exact absurd h (by simp)
  rename_i hck
  have hfont : font = ⟨flavor, numTables, tables⟩ := by
    exact (Option.some.injEq .. ▸ h).symm
  subst hfont
  have hpost := readFontTables_post hrft
  constructor
  · intro t ht
    rcases hpost.1 t ht with hmem | hprop
    · simp at hmem
    · rcases hprop with ⟨h1, h2, h3, v, hv⟩
      have h5 := checkIntervals_lower hck _ hv
      exact ⟨h1, h2, by omega, h5⟩
  · exact hpost.2.2 (by simp)

/-- Witness for C8 (amended) at a concrete well-formed one-table font. -/
theorem c8_readFont_parse_checks_witness :
    ∃ font, readFont validFontBytes = some font ∧
      ((∀ t ∈ font.tables,
        t.offset % 4 = 0 ∧ t.length ≤ validFontBytes.length ∧
        t.offset + t.length ≤ validFontBytes.length ∧
        12 + 16 * font.numTables ≤ t.offset) ∧
      (font.tables.map FontTable.tag).Nodup) := by
  have hparse : readFont validFontBytes =
      some ⟨0x00010000, 1, [⟨0x41414141, 0, 28, 4, [0, 0, 0, 0]⟩]⟩ := by decide
  exact ⟨_, hparse, c8_readFont_parse_checks hparse⟩

theorem readU32_inv {b : Buffer} {v : Nat} {b2 : Buffer}
    (h : b.readU32 = some (v, b2)) :
    v = word32At b.data b.offset ∧ b2 = ⟨b.data, b.offset + 4⟩ ∧
      b.offset + 4 ≤ b.data.length := by
  rw [Buffer.readU32] at h
  split at h
  · simp at h
  · rename_i hrem
    rw [Buffer.remainingLength] at hrem
    rcases Option.some.injEq .. ▸ h with h2
    have h3 := (Prod.mk.injEq ..).mp h2
    exact ⟨h3.1.symm, h3.2.symm, by omega⟩

theorem readU16_inv {b : Buffer} {v : Nat} {b2 : Buffer}
    (h : b.readU16 = some (v, b2)) :
    v = be16 (b.data.getD b.offset 0) (b.data.getD (b.offset + 1) 0) ∧
      b2 = ⟨b.data, b.offset + 2⟩ ∧ b.offset + 2 ≤ b.data.length := by
  rw [Buffer.readU16] at h
  split at h
  · simp at h
  · rename_i hrem
    rw [Buffer.remainingLength] at hrem
    rcases Option.some.injEq .. ▸ h with h2
    have h3 := (Prod.mk.injEq ..).mp h2
    exact ⟨h3.1.symm, h3.2.symm, by omega⟩

theorem skip_inv {b : Buffer} {n : Nat} {b2 : Buffer}
    (h : b.skip n = some b2) : b2 = ⟨b.data, b.offset + n⟩ := by
  rw [Buffer.skip, Buffer.read] at h
  split at h
  · simp at h
  · split at h
    · simp at h
    · simpa using h.symm

/-- C4: `ConvertWOFF2ToTTF` fails on every input whose first four bytes are
not the `wOF2` signature, whose `totalLength` field (the big-endian word at
offset 8) differs from the input's byte length, or whose `num_tables` field
(the big-endian 16-bit word at offset 12) is zero — whatever the remainder
of the conversion would do. -/
theorem c4_decoder_rejects (rest : Woff2Header → Option Unit)
    (data : List Nat) (hbytes : ∀ x ∈ data, x < 256) :
    (data.take 4 ≠ [0x77, 0x4F, 0x46, 0x32] → woff2Decode rest data = none) ∧
    (word32At data 8 ≠ data.length → woff2Decode rest data = none) ∧
    (be16 (data.getD 12 0) (data.getD 13 0) = 0 → woff2Decode rest data = none) := by
  have main : ∀ u, woff2Decode rest data = some u →
      data.take 4 = [0x77, 0x4F, 0x46, 0x32] ∧
      word32At data 8 = data.length ∧
      be16 (data.getD 12 0) (data.getD 13 0) ≠ 0 := by
    intro u h
    rw [woff2Decode] at h
    split at h
    · simp at h
    rename_i signature b hr1
    split at h
    · simp at h
    rename_i hsig
    split at h
    · simp at h
    rename_i flavor bb hr2
    split at h
    · simp at h
    rename_i reportedLength bc hr3
    split at h
    · simp at h
    rename_i hTL
    split at h
    · simp at h
    rename_i numTables bd hr4
    split at h
    · simp at h
    rename_i hNT
    rcases readU32_inv hr1 with ⟨hv1, hb1, hlen1⟩
    subst hb1
    rcases readU32_inv hr2 with ⟨hv2, hb2, hlen2⟩
    subst hb2
    rcases readU32_inv hr3 with ⟨hv3, hb3, hlen3⟩
    subst hb3
    rcases readU16_inv hr4 with ⟨hv4, hb4, hlen4⟩
    simp only [] at hv1 hv2 hv3 hv4 hlen1 hlen2 hlen3 hlen4
    norm_num at hv3 hv4 hlen1 hlen2 hlen3 hlen4
    have hsig2 : word32At data 0 = kWoff2Signature := by
      rcases Decidable.not_not.mp hsig with h2
      rw [← hv1]; exact h2
    refine ⟨?_, ?_, ?_⟩
    · rcases data with _ | ⟨b0, _ | ⟨b1, _ | ⟨b2, _ | ⟨b3, tl⟩⟩⟩⟩
      · simp at hlen1
      · simp at hlen1
      · simp at hlen1
      · simp at hlen1
      · have h0 : b0 < 256 := hbytes _ (by simp)
        have h1 : b1 < 256 := hbytes _ (by simp)
        have h2 : b2 < 256 := hbytes _ (by simp)
        have h3 : b3 < 256 := hbytes _ (by simp)
        simp only [word32At, be32, List.getD_cons_zero, List.getD_cons_succ,
          kWoff2Signature] at hsig2
        have hb : b0 = 0x77 ∧ b1 = 0x4F ∧ b2 = 0x46 ∧ b3 = 0x32 := by omega
        simp [hb.1, hb.2.1, hb.2.2.1, hb.2.2.2]
    · rw [← hv3]
      exact (Decidable.not_not.mp hTL).symm
    · simp only [List.getD_eq_getElem?_getD]
      rw [← hv4]
      exact hNT
  refine ⟨?_, ?_, ?_⟩ <;> intro hc <;>
    rcases heq : woff2Decode rest data with _ | u
  · rfl
  · exact absurd (main u heq).1 hc
  · rfl
  · exact absurd (main u heq).2.1 hc
  · rfl
  · exact absurd (main u heq).2.2 (by simpa using hc)

/-- Witness for C4: the 32-byte WOFF2 file of scenario S1 (correct
signature, `totalLength` = 32, `num_tables` = 0) is rejected whatever the
remainder of the conversion would do. -/
theorem c4_decoder_rejects_witness :
    (∀ x ∈ s1Woff2Bytes, x < 256) ∧
    be16 (s1Woff2Bytes.getD 12 0) (s1Woff2Bytes.getD 13 0) = 0 ∧
    woff2Decode (fun _ => some ()) s1Woff2Bytes = none := by
  refine ⟨by decide, by decide, ?_⟩
  exact (c4_decoder_rejects (fun _ => some ()) s1Woff2Bytes (by decide)).2.2
    (by decide)

theorem getD_take_of_lt {l : List Nat} {n i : Nat} (h : i < n) (d : Nat) :
    (l.take n).getD i d = l.getD i d := by
  rw [List.getD_eq_getElem?_getD, List.getD_eq_getElem?_getD,
    List.getElem?_take, if_pos h]

theorem find?_tables_map {tables : List FontTable} {tag : Nat}
    {f : FontTable → FontTable} (hf : ∀ t, (f t).tag = t.tag) :
    (tables.map f).find? (·.tag == tag) =
      (tables.find? (·.tag == tag)).map f := by
  rw [List.find?_map]
  have hpred : ((fun x : FontTable => x.tag == tag) ∘ f)
      = (fun x : FontTable => x.tag == tag) := by
    funext t
    simp [Function.comp, hf t]
  rw [hpred]

theorem findTable_update_other {font : SfntFont} {tag tag2 : Nat}
    {t' : FontTable} (htag : t'.tag = tag) (hne : tag2 ≠ tag) :
    findTable (updateTable font tag t') tag2 = findTable font tag2 := by
  rw [updateTable, findTable, findTable]
  simp only []
  rw [List.find?_map]
  have hpred : ((fun t : FontTable => t.tag == tag2) ∘
      (fun t => if t.tag = tag then t' else t))
      = (fun t : FontTable => t.tag == tag2) := by
    funext t
    by_cases ht : t.tag = tag
    · simp [Function.comp, ht, htag, Ne.symm hne]
    · simp [Function.comp, ht]
  rw [hpred]
  rcases hf : font.tables.find? (fun t => t.tag == tag2) with _ | y
  · rw [hf]; rfl
  · rw [hf]
    have hy : y.tag = tag2 := by simpa using List.find?_some hf
    have hne2 : ¬ y.tag = tag := by rw [hy]; exact hne
    simp [hne2]

theorem findTable_update_self {font : SfntFont} {tag : Nat} {t t' : FontTable}
    (htag : t'.tag = tag) (h : findTable font tag = some t) :
    findTable (updateTable font tag t') tag = some t' := by
  rw [updateTable, findTable]
  rw [findTable] at h
  simp only []
  rw [List.find?_map]
  have hpred : ((fun tt : FontTable => tt.tag == tag) ∘
      (fun tt => if tt.tag = tag then t' else tt))
      = (fun tt : FontTable => tt.tag == tag) := by
    funext tt
    by_cases ht : tt.tag = tag
    · simp [Function.comp, ht, htag]
    · simp [Function.comp, ht]
  rw [hpred, h]
  have ht : t.tag = tag := by simpa using List.find?_some h
  simp [Option.map_some, ht]

theorem findTable_removeDSIG {font : SfntFont} {tag2 : Nat}
    (hne : tag2 ≠ kDsigTableTag) :
    findTable (removeDigitalSignature font) tag2 = findTable font tag2 := by
  rw [removeDigitalSignature]
  split
  · rw [findTable, findTable]
    simp only []
    rw [List.find?_filter]
    congr 1
    funext t
    by_cases ht : t.tag = tag2
    · simp [ht, hne]
    · simp [ht]
  · rfl

theorem glyfOffsetFrom_mono (sizes : Nat → Nat) :
    ∀ {m k : Nat} (i : Nat), k ≤ m →
      glyfOffsetFrom sizes i k ≤ glyfOffsetFrom sizes i m := by
  intro m
  induction m with
  | zero =>
    intro k i hk
    have hz : k = 0 := by omega
    subst hz
    exact Nat.le_refl _
  | succ m ih =>
    intro k i hk
    cases k with
    | zero =>
      rw [show glyfOffsetFrom sizes i 0 = 0 from rfl]
      exact Nat.zero_le _
    | succ k2 =>
      rw [glyfOffsetFrom, glyfOffsetFrom]
      exact Nat.add_le_add_left (ih (i + 1) (by omega)) _

theorem writeNormalizedLocaGo_zero {store : Nat → Option Nat}
    (hstore : ∀ i, store i = some 0) (fmt : Nat) :
    ∀ m i lb, writeNormalizedLocaGo store fmt i 0 lb m = none := by
  intro m
  induction m with
  | zero => intro i lb; rw [writeNormalizedLocaGo]; simp
  | succ m ih =>
    intro i lb
    rw [writeNormalizedLocaGo, hstore i]
    dsimp only
    rw [if_neg (by norm_num [Round4]), if_neg (by norm_num [Round4]),
      if_neg (by norm_num [Round4])]
    have : 0 + Round4 0 = 0 := by norm_num [Round4]
    rw [this]
    exact ih (i + 1) _

theorem writeNormalizedLocaGo_fmt0_overflow {store : Nat → Option Nat}
    {sizes : Nat → Nat} (hstore : ∀ i, store i = some (sizes i)) :
    ∀ m i off lb, off < 2 ^ 17 → off + glyfOffsetFrom sizes i m > 2 ^ 17 →
      writeNormalizedLocaGo store 0 i off lb m = none := by
  intro m
  induction m with
  | zero =>
    intro i off lb h1 h2
    rw [show glyfOffsetFrom sizes i 0 = 0 from rfl] at h2
    omega
  | succ m ih =>
    intro i off lb h1 h2
    rw [writeNormalizedLocaGo, hstore i]
    dsimp only
    by_cases hbig : Round4 (sizes i) > 2 ^ 32 - 1
    · rw [if_pos hbig]
    · rw [if_neg hbig]
      by_cases hwrap : (off + Round4 (sizes i) % 2 ^ 32) % 2 ^ 32 < off
      · rw [if_pos hwrap]
      · rw [if_neg hwrap]
        by_cases hover : off + Round4 (sizes i) ≥ 2 ^ 17
        · rw [if_pos ⟨rfl, hover⟩]
        · rw [if_neg (fun hx => hover hx.2)]
          rw [glyfOffsetFrom] at h2
          exact ih (i + 1) (off + Round4 (sizes i)) _ (by omega) (by omega)

theorem writeNormalizedLoca_none_of_go {store : Nat → Option Nat}
    {fmt : Nat} {n : Int} (font : SfntFont)
    (hgo : writeNormalizedLocaGo store fmt 0 0 [] n.toNat = none) :
    writeNormalizedLoca store fmt n font = none := by
  rw [writeNormalizedLoca]
  rcases h1 : findTable font kGlyfTableTag with _ | glyf <;>
    rcases h2 : findTable font kLocaTableTag with _ | loca
  all_goals first | rfl | rw [hgo]

theorem writeNormalizedLoca_isSome_go {store : Nat → Option Nat}
    {fmt : Nat} {n : Int} {font : SfntFont}
    (hglyf : (findTable font kGlyfTableTag).isSome = true)
    (hloca : (findTable font kLocaTableTag).isSome = true) :
    (writeNormalizedLoca store fmt n font).isSome =
      (writeNormalizedLocaGo store fmt 0 0 [] n.toNat).isSome := by
  rw [writeNormalizedLoca]
  rcases h1 : findTable font kGlyfTableTag with _ | glyf
  · rw [h1] at hglyf; simp at hglyf
  rcases h2 : findTable font kLocaTableTag with _ | loca
  · rw [h2] at hloca; simp at hloca
  rcases hgo : writeNormalizedLocaGo store fmt 0 0 [] n.toNat with _ | r <;>
    rfl

theorem writeNormalizedLoca_head {store : Nat → Option Nat}
    {fmt : Nat} {n : Int} {font f2 : SfntFont}
    (h : writeNormalizedLoca store fmt n font = some f2) :
    findTable f2 kHeadTableTag = findTable font kHeadTableTag := by
  rw [writeNormalizedLoca] at h
  split at h
  case h_2 => simp at h
  rename_i glyf loca hglyf hloca
  split at h
  · simp at h
  rename_i r hgo
  rcases Option.some.injEq .. ▸ h with h3
  have hgt : glyf.tag = kGlyfTableTag := by
    rw [findTable] at hglyf
    simpa using List.find?_some hglyf
  have hlt : loca.tag = kLocaTableTag := by
    rw [findTable] at hloca
    simpa using List.find?_some hloca
  rw [← h3]
  rw [findTable_update_other (by exact hlt) (by decide),
    findTable_update_other (by exact hgt) (by decide)]

/-- C9: when every glyph of a glyf/loca font reads and stores successfully
but stores as zero bytes (all glyphs empty), the final `glyf_offset == 0`
test makes `WriteNormalizedLoca` fail for every index format, so
`NormalizeGlyphs` (including its 32-bit retry) and `NormalizeFont` fail. -/
theorem c9_all_empty_glyphs_fail (store : Nat → Option Nat) (font : SfntFont)
    (hstore : ∀ i, store i = some 0)
    (_hglyf : (findTable font kGlyfTableTag).isSome = true)
    (hloca : (findTable font kLocaTableTag).isSome = true) :
    (∀ fmt n, writeNormalizedLoca store fmt n font = none) ∧
    normalizeGlyphs store font = none ∧
    normalizeFont store font = none := by
  have hWNL : ∀ (f2 : SfntFont) fmt (n : Int),
      writeNormalizedLoca store fmt n f2 = none := by
    intro f2 fmt n
    exact writeNormalizedLoca_none_of_go f2
      (writeNormalizedLocaGo_zero hstore fmt n.toNat 0 [])
  have hNG : ∀ f2 : SfntFont, (findTable f2 kLocaTableTag).isSome = true →
      normalizeGlyphs store f2 = none := by
    intro f2 hl
    rw [normalizeGlyphs]
    rcases hh : findTable f2 kHeadTableTag with _ | headT
    · rfl
    · dsimp only
      have hl2 : (findTable f2 kLocaTableTag).isNone = false := by
        rcases hx : findTable f2 kLocaTableTag with _ | y
        · rw [hx] at hl; simp at hl
        · rfl
      rw [if_neg (by simp [hl2])]
      by_cases hg : (findTable f2 kGlyfTableTag).isNone = true
      · rw [if_pos (Or.inr hg)]
      · rw [if_neg (by simp [hl2, hg])]
        rw [hWNL f2 _ _]
        dsimp only
        by_cases hfmt : headT.data.getD 51 0 ≠ 0
        · rw [if_pos hfmt]
        · rw [if_neg hfmt, hWNL f2 1 _]
  refine ⟨fun fmt n => hWNL font fmt n, hNG font hloca, ?_⟩
  rw [normalizeFont]
  rcases hme : makeEditableBuffer font kHeadTableTag with _ | f1
  · rfl
  · dsimp only
    have hf1 : (findTable f1 kLocaTableTag).isSome = true := by
      rw [makeEditableBuffer] at hme
      rcases hh : findTable font kHeadTableTag with _ | headT
      · rw [hh] at hme; simp at hme
      · rw [hh] at hme
        dsimp only at hme
        rcases Option.some.injEq .. ▸ hme with h2
        rw [← h2]
        have hht : headT.tag = kHeadTableTag := by
          rw [findTable] at hh
          simpa using List.find?_some hh
        rw [@findTable_update_other font kHeadTableTag kLocaTableTag
            { headT with data := headT.data.take (Round4 headT.length) }
            (by exact hht) (by decide)]
        exact hloca
    have hrem : (findTable (removeDigitalSignature f1) kLocaTableTag).isSome
        = true := by
      rw [findTable_removeDSIG (by decide)]
      exact hf1
    rw [hNG (removeDigitalSignature f1) hrem]

/-- Witness for C9 at a concrete one-glyph font and the all-empty store. -/
theorem c9_all_empty_glyphs_fail_witness :
    writeNormalizedLoca (fun _ => some 0) 0 1 tinyFont = none ∧
    writeNormalizedLoca (fun _ => some 0) 1 1 tinyFont = none ∧
    normalizeGlyphs (fun _ => some 0) tinyFont = none ∧
    normalizeFont (fun _ => some 0) tinyFont = none := by
  have h := c9_all_empty_glyphs_fail (fun _ => some 0) tinyFont (fun i => rfl)
    (by decide) (by decide)
  exact ⟨h.1 0 1, h.1 1 1, h.2.1, h.2.2⟩

theorem Round4_ge (x : Nat) : x ≤ Round4 x := by
  rw [Round4]; omega

theorem findTable_normalizeOffsets {font : SfntFont} {tag : Nat}
    {t : FontTable} (h : findTable font tag = some t) :
    ∃ t2, findTable (normalizeOffsets font) tag = some t2 ∧
      t2.tag = t.tag ∧ t2.checksum = t.checksum ∧ t2.length = t.length ∧
      t2.data = t.data := by
  rw [normalizeOffsets, findTable]
  rw [findTable] at h
  simp only []
  suffices hs : ∀ (off : Nat) (l : List FontTable),
      l.find? (·.tag == tag) = some t →
      ∃ t2, (normalizeOffsetsGo off l).find? (·.tag == tag) = some t2 ∧
        t2.tag = t.tag ∧ t2.checksum = t.checksum ∧ t2.length = t.length ∧
        t2.data = t.data by
    exact hs _ _ h
  intro off l
  induction l generalizing off with
  | nil => intro h2; simp at h2
  | cons t0 rest ih =>
    intro h2
    rw [normalizeOffsetsGo]
    by_cases hp : (t0.tag == tag) = true
    · have h5 : List.find? (fun x : FontTable => x.tag == tag) (t0 :: rest)
          = some t0 := List.find?_cons_of_pos _ hp
      rw [h5] at h2
      rcases Option.some.injEq .. ▸ h2 with h3
      subst h3
      refine ⟨{ t0 with offset := off }, ?_, rfl, rfl, rfl, rfl⟩
      exact List.find?_cons_of_pos _ (by simpa using hp)
    · have h5 : List.find? (fun x : FontTable => x.tag == tag) (t0 :: rest)
          = List.find? (fun x : FontTable => x.tag == tag) rest :=
        List.find?_cons_of_neg _ (by simpa using hp)
      rw [h5] at h2
      rcases ih ((off + Round4 t0.length) % 2 ^ 32) h2 with ⟨t2, h4, h5b⟩
      refine ⟨t2, ?_, h5b⟩
      have h7 : List.find? (fun x : FontTable => x.tag == tag)
          ({ t0 with offset := off } ::
            normalizeOffsetsGo ((off + Round4 t0.length) % 2 ^ 32) rest)
          = List.find? (fun x : FontTable => x.tag == tag)
            (normalizeOffsetsGo ((off + Round4 t0.length) % 2 ^ 32) rest) :=
        List.find?_cons_of_neg _ (by simpa using hp)
      rw [h7]
      exact h4

theorem fixChecksums_some {font : SfntFont} {headT : FontTable}
    (h : findTable font kHeadTableTag = some headT)
    (hlen : ¬ headT.length < 12) :
    ∃ f2, fixChecksums font = some f2 := by
  rw [fixChecksums, h]
  dsimp only
  rw [if_neg hlen]
  have hht : headT.tag = kHeadTableTag := by
    rw [findTable] at h; simpa using List.find?_some h
  have h1 : findTable (updateTable font kHeadTableTag
      { headT with data := storeU32At headT.data 8 0 }) kHeadTableTag
      = some { headT with data := storeU32At headT.data 8 0 } :=
    findTable_update_self (by exact hht) h
  have h2 : findTable { updateTable font kHeadTableTag
        { headT with data := storeU32At headT.data 8 0 } with
      tables := (updateTable font kHeadTableTag
        { headT with data := storeU32At headT.data 8 0 }).tables.map
        (fun t => { t with checksum := computeChecksum t.data t.length }) }
      kHeadTableTag
      = some { headT with data := storeU32At headT.data 8 0, checksum := computeChecksum (storeU32At headT.data 8 0) headT.length } := by
    rw [findTable]
    show ((updateTable font kHeadTableTag
        { headT with data := storeU32At headT.data 8 0 }).tables.map
        (fun t => { t with checksum := computeChecksum t.data t.length })).find?
        (·.tag == kHeadTableTag) = _
    have hmap : ((updateTable font kHeadTableTag
        { headT with data := storeU32At headT.data 8 0 }).tables.map
        (fun t => { t with checksum := computeChecksum t.data t.length })).find?
        (·.tag == kHeadTableTag)
        = ((updateTable font kHeadTableTag
            { headT with data := storeU32At headT.data 8 0 }).tables.find?
            (·.tag == kHeadTableTag)).map
          (fun t => { t with checksum := computeChecksum t.data t.length }) :=
      find?_tables_map (fun t => rfl)
    rw [hmap]
    rw [findTable] at h1
    rw [h1]
    rfl
  rw [h2]
  exact ⟨_, rfl⟩

/-- C7: for a font whose head byte 51 requests 16-bit loca, if any
normalized glyph offset exceeds `1 << 17` the 16-bit `WriteNormalizedLoca`
pass fails and `NormalizeGlyphs` retries with 32-bit indices, setting head
byte 51 to 1; the retry's outcome decides `NormalizeGlyphs` and
`NormalizeFont` alike (success is invisible to the caller, failure is
final); and when head requests any other index format a
`WriteNormalizedLoca` failure is fatal with no retry. -/
theorem c7_loca_16bit_retry (store : Nat → Option Nat) (sizes : Nat → Nat)
    (font : SfntFont) (headT : FontTable)
    (hstore : ∀ i, store i = some (sizes i))
    (hhead : findTable font kHeadTableTag = some headT)
    (hfmt : headT.data.getD 51 0 = 0)
    (hlen : 52 ≤ headT.length)
    (hdata : 52 ≤ headT.data.length)
    (hglyf : (findTable font kGlyfTableTag).isSome = true)
    (hloca : (findTable font kLocaTableTag).isSome = true)
    (hexceed : ∃ k, k ≤ (numGlyphs font).toNat ∧
        glyfOffsetFrom sizes 0 k > 2 ^ 17) :
    writeNormalizedLoca store 0 (numGlyphs font) font = none ∧
    (∀ f2, writeNormalizedLoca store 1 (numGlyphs font) font = some f2 →
      ∃ h3, normalizeGlyphs store font
          = some (updateTable f2 kHeadTableTag h3) ∧ h3.data.getD 51 0 = 1) ∧
    (writeNormalizedLoca store 1 (numGlyphs font) font = none →
      normalizeGlyphs store font = none ∧ normalizeFont store font = none) ∧
    (writeNormalizedLoca store 1 (numGlyphs font) font ≠ none →
      normalizeFont store font ≠ none) ∧
    (∀ (font2 : SfntFont) (headT2 : FontTable),
      findTable font2 kHeadTableTag = some headT2 →
      (findTable font2 kLocaTableTag).isSome = true →
      headT2.data.getD 51 0 ≠ 0 →
      writeNormalizedLoca store (headT2.data.getD 51 0) (numGlyphs font2)
        font2 = none →
      normalizeGlyphs store font2 = none) := by
  rcases hL : findTable font kLocaTableTag with _ | locaT
  · rw [hL] at hloca; simp at hloca
  rcases hG : findTable font kGlyfTableTag with _ | glyfT
  · rw [hG] at hglyf; simp at hglyf
  have hht : headT.tag = kHeadTableTag := by
    rw [findTable] at hhead; simpa using List.find?_some hhead
  have hgo0 : writeNormalizedLocaGo store 0 0 0 [] (numGlyphs font).toNat
      = none := by
    obtain ⟨k, hk, hkval⟩ := hexceed
    have hmono := glyfOffsetFrom_mono sizes 0 hk
    exact writeNormalizedLocaGo_fmt0_overflow hstore _ 0 0 []
      (by norm_num) (by omega)
  have part1 : writeNormalizedLoca store 0 (numGlyphs font) font = none :=
    writeNormalizedLoca_none_of_go font hgo0
  have hshape : ∀ (f0 : SfntFont) (h0 : FontTable),
      findTable f0 kHeadTableTag = some h0 →
      (findTable f0 kLocaTableTag).isSome = true →
      (findTable f0 kGlyfTableTag).isSome = true →
      h0.data.getD 51 0 = 0 →
      writeNormalizedLoca store 0 (numGlyphs f0) f0 = none →
      normalizeGlyphs store f0 =
        match writeNormalizedLoca store 1 (numGlyphs f0) f0 with
        | none => none
        | some f2 =>
          match findTable f2 kHeadTableTag with
          | none => none
          | some h2 => some (updateTable f2 kHeadTableTag
              { h2 with data := h2.data.set 51 1 }) := by
    intro f0 h0 hh0 hl0 hg0 hfmt0 hw0
    have hl0' : (findTable f0 kLocaTableTag).isNone = false := by
      rcases hx : findTable f0 kLocaTableTag with _ | y
      · rw [hx] at hl0; simp at hl0
      · rfl
    have hg0' : (findTable f0 kGlyfTableTag).isNone = false := by
      rcases hx : findTable f0 kGlyfTableTag with _ | y
      · rw [hx] at hg0; simp at hg0
      · rfl
    rw [normalizeGlyphs, hh0]
    dsimp only
    rw [if_neg (by simp [hl0'])]
    rw [if_neg (by simp [hl0', hg0'])]
    rw [hfmt0, hw0]
    dsimp only
    rw [if_neg (by norm_num)]
  have hEt : ({ headT with
      data := headT.data.take (Round4 headT.length) } : FontTable).tag
      = kHeadTableTag := hht
  have hME : makeEditableBuffer font kHeadTableTag
      = some (updateTable font kHeadTableTag
        { headT with data := headT.data.take (Round4 headT.length) }) := by
    rw [makeEditableBuffer, hhead]
  have hf2'head : findTable (removeDigitalSignature (updateTable font
      kHeadTableTag { headT with
        data := headT.data.take (Round4 headT.length) })) kHeadTableTag
      = some { headT with data := headT.data.take (Round4 headT.length) } := by
    rw [findTable_removeDSIG (by decide)]
    exact findTable_update_self hEt hhead
  have hf2'loca : findTable (removeDigitalSignature (updateTable font
      kHeadTableTag { headT with
        data := headT.data.take (Round4 headT.length) })) kLocaTableTag
      = some locaT := by
    rw [findTable_removeDSIG (by decide)]
    rw [@findTable_update_other font kHeadTableTag kLocaTableTag
      { headT with data := headT.data.take (Round4 headT.length) }
      hEt (by decide)]
    exact hL
  have hf2'glyf : findTable (removeDigitalSignature (updateTable font
      kHeadTableTag { headT with
        data := headT.data.take (Round4 headT.length) })) kGlyfTableTag
      = some glyfT := by
    rw [findTable_removeDSIG (by decide)]
    rw [@findTable_update_other font kHeadTableTag kGlyfTableTag
      { headT with data := headT.data.take (Round4 headT.length) }
      hEt (by decide)]
    exact hG
  have hE51 : ({ headT with
      data := headT.data.take (Round4 headT.length) } : FontTable).data.getD
      51 0 = 0 := by
    show (headT.data.take (Round4 headT.length)).getD 51 0 = 0
    rw [getD_take_of_lt (by have := Round4_ge headT.length; omega) 0]
    exact hfmt
  have hnum : numGlyphs (removeDigitalSignature (updateTable font
      kHeadTableTag { headT with
        data := headT.data.take (Round4 headT.length) }))
      = numGlyphs font := by
    have hif2 : indexFormat (removeDigitalSignature (updateTable font
        kHeadTableTag { headT with
          data := headT.data.take (Round4 headT.length) })) = 0 := by
      rw [indexFormat, hf2'head]; exact hE51
    have hif : indexFormat font = 0 := by
      rw [indexFormat, hhead]; exact hfmt
    rw [numGlyphs, numGlyphs, hf2'head, hf2'loca, hhead, hL]
    dsimp only
    rw [hif2, hif]
  have hw0' : writeNormalizedLoca store 0 (numGlyphs
      (removeDigitalSignature (updateTable font kHeadTableTag
        { headT with data := headT.data.take (Round4 headT.length) })))
      (removeDigitalSignature (updateTable font kHeadTableTag
        { headT with data := headT.data.take (Round4 headT.length) }))
      = none := by
    rw [hnum]
    exact writeNormalizedLoca_none_of_go _ hgo0
  refine ⟨part1, ?_, ?_, ?_, ?_⟩
  · intro f2 hw2
    have hW : findTable f2 kHeadTableTag = some headT := by
      rw [writeNormalizedLoca_head hw2, hhead]
    rw [hshape font headT hhead hloca hglyf hfmt part1, hw2]
    dsimp only
    rw [hW]
    dsimp only
    refine ⟨{ headT with data := headT.data.set 51 1 }, rfl, ?_⟩
    show (headT.data.set 51 1).getD 51 0 = 1
    rw [List.getD_eq_getElem?_getD, List.getElem?_set_self (by omega)]
    rfl
  · intro hw1
    constructor
    · rw [hshape font headT hhead hloca hglyf hfmt part1, hw1]
    · have hGo1 : writeNormalizedLocaGo store 1 0 0 []
          (numGlyphs font).toNat = none := by
        have h5 := @writeNormalizedLoca_isSome_go store 1 (numGlyphs font)
          font hglyf hloca
        rw [hw1] at h5
        rcases hg2 : writeNormalizedLocaGo store 1 0 0 []
            (numGlyphs font).toNat with _ | r
        · rfl
        · rw [hg2] at h5; simp at h5
      have hw1' : writeNormalizedLoca store 1 (numGlyphs
          (removeDigitalSignature (updateTable font kHeadTableTag
            { headT with data := headT.data.take (Round4 headT.length) })))
          (removeDigitalSignature (updateTable font kHeadTableTag
            { headT with data := headT.data.take (Round4 headT.length) }))
          = none := by
        rw [hnum]
        exact writeNormalizedLoca_none_of_go _ hGo1
      have hNG2 : normalizeGlyphs store (removeDigitalSignature
          (updateTable font kHeadTableTag { headT with
            data := headT.data.take (Round4 headT.length) })) = none := by
        rw [hshape _ _ hf2'head (by rw [hf2'loca]; rfl)
          (by rw [hf2'glyf]; rfl) hE51 hw0', hw1']
      rw [normalizeFont, hME]
      dsimp only
      rw [hNG2]
  · intro hw1ne
    rcases hw1 : writeNormalizedLoca store 1 (numGlyphs font) font with _ | f2
    · exact absurd hw1 hw1ne
    have hGo1s : (writeNormalizedLocaGo store 1 0 0 []
        (numGlyphs font).toNat).isSome = true := by
      have h5 := @writeNormalizedLoca_isSome_go store 1 (numGlyphs font)
        font hglyf hloca
      rw [hw1] at h5
      exact h5.symm
    have hw1's : Option.isSome (writeNormalizedLoca store 1 (numGlyphs
        (removeDigitalSignature (updateTable font kHeadTableTag
          { headT with data := headT.data.take (Round4 headT.length) })))
        (removeDigitalSignature (updateTable font kHeadTableTag
          { headT with data := headT.data.take (Round4 headT.length) })))
        = true := by
      rw [hnum]
      rw [@writeNormalizedLoca_isSome_go store 1 (numGlyphs font) _
        (by rw [hf2'glyf]; rfl) (by rw [hf2'loca]; rfl)]
      exact hGo1s
    rcases hx : writeNormalizedLoca store 1 (numGlyphs
        (removeDigitalSignature (updateTable font kHeadTableTag
          { headT with data := headT.data.take (Round4 headT.length) })))
        (removeDigitalSignature (updateTable font kHeadTableTag
          { headT with data := headT.data.take (Round4 headT.length) }))
        with _ | f3
    · rw [hx] at hw1's; simp at hw1's
    have hf3head : findTable f3 kHeadTableTag = some { headT with
        data := headT.data.take (Round4 headT.length) } := by
      rw [writeNormalizedLoca_head hx, hf2'head]
    have hNG2 : normalizeGlyphs store (removeDigitalSignature
        (updateTable font kHeadTableTag { headT with
          data := headT.data.take (Round4 headT.length) }))
        = some (updateTable f3 kHeadTableTag { headT with
            data := (headT.data.take (Round4 headT.length)).set 51 1 }) := by
      rw [hshape _ _ hf2'head (by rw [hf2'loca]; rfl)
        (by rw [hf2'glyf]; rfl) hE51 hw0', hx]
      dsimp only
      rw [hf3head]
    have hf4head : findTable (updateTable f3 kHeadTableTag { headT with
        data := (headT.data.take (Round4 headT.length)).set 51 1 })
        kHeadTableTag = some { headT with
        data := (headT.data.take (Round4 headT.length)).set 51 1 } :=
      findTable_update_self hht hf3head
    rcases findTable_normalizeOffsets hf4head with
      ⟨t2, ht2, ht2tag, ht2chk, ht2len, ht2data⟩
    have ht2len12 : ¬ t2.length < 12 := by
      rw [ht2len]
      show ¬ headT.length < 12
      omega
    rcases fixChecksums_some ht2 ht2len12 with ⟨ffinal, hfinal⟩
    rw [normalizeFont, hME]
    dsimp only
    rw [hNG2]
    dsimp only
    rw [hfinal]
    simp
  · intro font2 headT2 hh2 hl2 hfmt2 hw2
    have hl2' : (findTable font2 kLocaTableTag).isNone = false := by
      rcases hx : findTable font2 kLocaTableTag with _ | y
      · rw [hx] at hl2; simp at hl2
      · rfl
    rw [normalizeGlyphs, hh2]
    dsimp only
    rw [if_neg (by simp [hl2'])]
    by_cases hg2 : (findTable font2 kGlyfTableTag).isNone = true
    · rw [if_pos (Or.inr hg2)]
    · rw [if_neg (by simp [hl2', hg2])]
      rw [hw2]
      dsimp only
      rw [if_pos hfmt2]

/-! ### Checksum toolkit: arithmetic of `computeChecksum` -/

theorem computeChecksum_lt (l : List Nat) (s : Nat) :
    computeChecksum l s < 2 ^ 32 := by
  rw [computeChecksum]
  split
  · exact Nat.mod_lt _ (by norm_num)
  · norm_num

theorem computeChecksum_mod (l : List Nat) (s : Nat) :
    computeChecksum l s % 2 ^ 32 = computeChecksum l s :=
  Nat.mod_eq_of_lt (computeChecksum_lt l s)

theorem computeChecksum_zero (l : List Nat) : computeChecksum l 0 = 0 := by
  rw [computeChecksum]
  simp

theorem computeChecksum_append_aux :
    ∀ (m : Nat) (a : List Nat), a.length = 4 * m → ∀ (c : List Nat) (s : Nat),
      computeChecksum (a ++ c) (a.length + s)
        = (computeChecksum a a.length + computeChecksum c s) % 2 ^ 32 := by
  intro m
  induction m with
  | zero =>
    intro a hm c s
    have ha : a = [] := List.eq_nil_of_length_eq_zero (by omega)
    subst ha
    simp only [List.nil_append, List.length_nil, Nat.zero_add,
      computeChecksum_zero, computeChecksum_mod]
  | succ m ih =>
    intro a hm c s
    rcases a with _ | ⟨b0, a1⟩
    · simp at hm
    rcases a1 with _ | ⟨b1, a2⟩
    · simp at hm; omega
    rcases a2 with _ | ⟨b2, a3⟩
    · simp at hm; omega
    rcases a3 with _ | ⟨b3, a'⟩
    · simp at hm; omega
    have hlen : a'.length = 4 * m := by
      simp only [List.length_cons] at hm; omega
    have e1 : computeChecksum ((b0 :: b1 :: b2 :: b3 :: a') ++ c)
        ((b0 :: b1 :: b2 :: b3 :: a').length + s)
        = (be32 b0 b1 b2 b3 + computeChecksum (a' ++ c) (a'.length + s))
          % 2 ^ 32 := by
      rw [computeChecksum, if_pos (by simp)]
      have hd : ((b0 :: b1 :: b2 :: b3 :: a') ++ c).drop 4 = a' ++ c := rfl
      have hw : word32At ((b0 :: b1 :: b2 :: b3 :: a') ++ c) 0
          = be32 b0 b1 b2 b3 := rfl
      have hsz : (b0 :: b1 :: b2 :: b3 :: a').length + s - 4
          = a'.length + s := by
        simp only [List.length_cons]; omega
      rw [hd, hw, hsz]
    have e2 : computeChecksum (b0 :: b1 :: b2 :: b3 :: a')
        (b0 :: b1 :: b2 :: b3 :: a').length
        = (be32 b0 b1 b2 b3 + computeChecksum a' a'.length) % 2 ^ 32 := by
      rw [computeChecksum, if_pos (by simp)]
      have hd : (b0 :: b1 :: b2 :: b3 :: a').drop 4 = a' := rfl
      have hw : word32At (b0 :: b1 :: b2 :: b3 :: a') 0
          = be32 b0 b1 b2 b3 := rfl
      have hsz : (b0 :: b1 :: b2 :: b3 :: a').length - 4 = a'.length := by
        simp only [List.length_cons]; omega
      rw [hd, hw, hsz]
    rw [e1, e2, ih a' hlen c s]
    have h1 := computeChecksum_lt a' a'.length
    have h2 := computeChecksum_lt c s
    omega

theorem computeChecksum_append (a c : List Nat) (s : Nat)
    (hdvd : 4 ∣ a.length) :
    computeChecksum (a ++ c) (a.length + s)
      = (computeChecksum a a.length + computeChecksum c s) % 2 ^ 32 := by
  obtain ⟨m, hm⟩ := hdvd
  exact computeChecksum_append_aux m a hm c s

theorem computeChecksum_flatten :
    ∀ (blocks : List (List Nat)), (∀ b ∈ blocks, 4 ∣ b.length) →
      computeChecksum blocks.flatten blocks.flatten.length
        = (blocks.map (fun b => computeChecksum b b.length)).sum % 2 ^ 32 := by
  intro blocks
  induction blocks with
  | nil =>
    intro _
    simp [computeChecksum_zero]
  | cons b bs ih =>
    intro hdvd
    have hb : 4 ∣ b.length := hdvd b (by simp)
    have hbs : ∀ x ∈ bs, 4 ∣ x.length := fun x hx => hdvd x (by simp [hx])
    rw [List.flatten_cons]
    have hlen : (b ++ bs.flatten).length = b.length + bs.flatten.length :=
      List.length_append _ _
    rw [hlen, computeChecksum_append b bs.flatten bs.flatten.length hb,
      ih hbs]
    simp only [List.map_cons, List.sum_cons]
    have h1 := computeChecksum_lt b b.length
    omega

theorem computeChecksum_Round4 :
    ∀ (s : Nat) (l : List Nat),
      computeChecksum l (Round4 s) = computeChecksum l s := by
  intro s
  induction s using Nat.strong_induction_on with
  | _ s ih =>
    intro l
    by_cases hs : 0 < s
    · have eL : computeChecksum l (Round4 s)
          = (word32At l 0 + computeChecksum (l.drop 4) (Round4 s - 4))
            % 2 ^ 32 := by
        rw [computeChecksum, if_pos (by have := Round4_ge s; omega)]
      have eR : computeChecksum l s
          = (word32At l 0 + computeChecksum (l.drop 4) (s - 4)) % 2 ^ 32 := by
        rw [computeChecksum, if_pos hs]
      have h4 : Round4 s - 4 = Round4 (s - 4) := by
        rw [Round4, Round4]; omega
      rw [eL, eR, h4, ih (s - 4) (by omega) (l.drop 4)]
    · have hz : s = 0 := by omega
      subst hz
      rw [show Round4 0 = 0 from rfl]

theorem computeChecksum_congr :
    ∀ (s : Nat) (X Y : List Nat),
      (∀ i, i < Round4 s → X.getD i 0 = Y.getD i 0) →
      computeChecksum X s = computeChecksum Y s := by
  intro s
  induction s using Nat.strong_induction_on with
  | _ s ih =>
    intro X Y h
    by_cases hs : 0 < s
    · have eX : computeChecksum X s
          = (word32At X 0 + computeChecksum (X.drop 4) (s - 4)) % 2 ^ 32 := by
        rw [computeChecksum, if_pos hs]
      have eY : computeChecksum Y s
          = (word32At Y 0 + computeChecksum (Y.drop 4) (s - 4)) % 2 ^ 32 := by
        rw [computeChecksum, if_pos hs]
      have hR : 4 ≤ Round4 s := by rw [Round4]; omega
      have hw : word32At X 0 = word32At Y 0 := by
        simp only [word32At, Nat.zero_add]
        rw [h 0 (by omega), h 1 (by omega), h 2 (by omega), h 3 (by omega)]
      have hdrop : ∀ i, i < Round4 (s - 4) →
          (X.drop 4).getD i 0 = (Y.drop 4).getD i 0 := by
        intro i hi
        have h4 : 4 + i < Round4 s := by
          rw [Round4] at hi ⊢; omega
        rw [List.getD_eq_getElem?_getD, List.getD_eq_getElem?_getD,
          List.getElem?_drop, List.getElem?_drop]
        have h5 := h (4 + i) h4
        rw [List.getD_eq_getElem?_getD, List.getD_eq_getElem?_getD] at h5
        exact h5
      rw [eX, eY, hw, ih (s - 4) (by omega) _ _ hdrop]
    · have hz : s = 0 := by omega
      subst hz
      rw [computeChecksum_zero, computeChecksum_zero]

theorem computeChecksum_storeU32Bytes (x : Nat) :
    computeChecksum (storeU32Bytes x) 4 = x % 2 ^ 32 := by
  have e : computeChecksum (storeU32Bytes x) 4
      = (word32At (storeU32Bytes x) 0
        + computeChecksum ((storeU32Bytes x).drop 4) 0) % 2 ^ 32 := by
    rw [computeChecksum, if_pos (by norm_num : (0:Nat) < 4)]
  have hw : word32At (storeU32Bytes x) 0
      = be32 (x / 2 ^ 24 % 256) (x / 2 ^ 16 % 256) (x / 2 ^ 8 % 256)
          (x % 256) := rfl
  rw [e, hw, computeChecksum_zero]
  simp only [be32]
  omega

theorem computeChecksum_store16Pair (a b : Nat) :
    computeChecksum (store16Bytes a ++ store16Bytes b) 4
      = (a % 2 ^ 16 * 2 ^ 16 + b % 2 ^ 16) % 2 ^ 32 := by
  have e : computeChecksum (store16Bytes a ++ store16Bytes b) 4
      = (word32At (store16Bytes a ++ store16Bytes b) 0
        + computeChecksum ((store16Bytes a ++ store16Bytes b).drop 4) 0)
        % 2 ^ 32 := by
    rw [computeChecksum, if_pos (by norm_num : (0:Nat) < 4)]
  have hw : word32At (store16Bytes a ++ store16Bytes b) 0
      = be32 (a / 2 ^ 8 % 256) (a % 256) (b / 2 ^ 8 % 256) (b % 256) := rfl
  rw [e, hw, computeChecksum_zero]
  simp only [be32]
  omega

theorem computeChecksum_u32_prepend (x : Nat) (c : List Nat) (s : Nat) :
    computeChecksum (storeU32Bytes x ++ c) (4 + s)
      = (x % 2 ^ 32 + computeChecksum c s) % 2 ^ 32 := by
  have h := computeChecksum_append (storeU32Bytes x) c s ⟨1, rfl⟩
  rw [show (storeU32Bytes x).length = 4 from rfl] at h
  rw [h, computeChecksum_storeU32Bytes]

theorem computeChecksum_u16pair_prepend (a b : Nat) (c : List Nat) (s : Nat) :
    computeChecksum (store16Bytes a ++ (store16Bytes b ++ c)) (4 + s)
      = (a % 2 ^ 16 * 2 ^ 16 + b % 2 ^ 16 + computeChecksum c s) % 2 ^ 32 := by
  have hassoc : store16Bytes a ++ (store16Bytes b ++ c)
      = (store16Bytes a ++ store16Bytes b) ++ c :=
    (List.append_assoc _ _ _).symm
  rw [hassoc]
  have h := computeChecksum_append (store16Bytes a ++ store16Bytes b) c s
    ⟨1, rfl⟩
  rw [show (store16Bytes a ++ store16Bytes b).length = 4 from rfl] at h
  rw [h, computeChecksum_store16Pair]
  have h2 := computeChecksum_lt c s
  omega

theorem computeChecksum_entryBytes (t : FontTable) :
    computeChecksum (entryBytes t) 16
      = (t.tag + t.checksum + t.offset + t.length) % 2 ^ 32 := by
  rw [entryBytes]
  simp only [List.append_assoc]
  rw [show (16:Nat) = 4 + (4 + (4 + 4)) from rfl,
    computeChecksum_u32_prepend, computeChecksum_u32_prepend,
    computeChecksum_u32_prepend, computeChecksum_storeU32Bytes]
  omega

theorem sfntSearchRange_lt (n : Nat) : sfntSearchRange n < 2 ^ 16 := by
  rw [sfntSearchRange]
  split
  · exact Nat.mod_lt _ (by norm_num)
  · norm_num

theorem sfntRangeShift_lt (n : Nat) : sfntRangeShift n < 2 ^ 16 := by
  rw [sfntRangeShift]
  exact Nat.mod_lt _ (by norm_num)

theorem sfntMaxPow2_lt (n : Nat) (hn : n < 2 ^ 16) :
    sfntMaxPow2 n < 2 ^ 16 := by
  rw [sfntMaxPow2]
  split
  · have := Nat.log2_le_self n
    omega
  · norm_num

theorem computeChecksum_hdrBytes (font : SfntFont)
    (hnt : font.numTables < 2 ^ 16) :
    computeChecksum (hdrBytes font) 12
      = (font.flavor
        + (font.numTables * 2 ^ 16 + sfntSearchRange font.numTables)
        + (sfntMaxPow2 font.numTables * 2 ^ 16
          + sfntRangeShift font.numTables)) % 2 ^ 32 := by
  rw [hdrBytes]
  simp only [List.append_assoc]
  rw [show (12:Nat) = 4 + (4 + 4) from rfl,
    computeChecksum_u32_prepend, computeChecksum_u16pair_prepend,
    computeChecksum_store16Pair]
  have hsr := sfntSearchRange_lt font.numTables
  have hrs := sfntRangeShift_lt font.numTables
  have hmp := sfntMaxPow2_lt font.numTables hnt
  omega

/-! ### Toolkit: `writeAt` on structured buffers -/

theorem length_writeAt {l : List Nat} {o : Nat} {b : List Nat}
    (h : o + b.length ≤ l.length) :
    (writeAt l o b).length = l.length := by
  rw [writeAt]
  simp only [List.length_append, List.length_take, List.length_drop]
  omega

theorem writeAt_boundary (A c b : List Nat) :
    writeAt (A ++ c) A.length b = A ++ (b ++ c.drop b.length) := by
  rw [writeAt, List.take_left, List.drop_append_eq_append_drop,
    List.drop_eq_nil_of_le (by omega : A.length ≤ A.length + b.length)]
  have e : A.length + b.length - A.length = b.length := by omega
  rw [e]
  simp

theorem drop_writeAt {l : List Nat} {o : Nat} {b : List Nat} {d : Nat}
    (h1 : o + b.length ≤ d) (h2 : o + b.length ≤ l.length) :
    (writeAt l o b).drop d = l.drop d := by
  rw [writeAt]
  have hlb : (l.take o ++ b).length = o + b.length := by
    simp only [List.length_append, List.length_take]; omega
  rw [List.drop_append_eq_append_drop,
    List.drop_eq_nil_of_le (by rw [hlb]; omega), hlb, List.drop_drop,
    show o + b.length + (d - (o + b.length)) = d from by omega]
  simp

theorem getD_writeAt_outside {l : List Nat} {o : Nat} {b : List Nat} {i : Nat}
    (h2 : o + b.length ≤ l.length) (hout : i < o ∨ o + b.length ≤ i) :
    (writeAt l o b).getD i 0 = l.getD i 0 := by
  rw [writeAt]
  have hto : (l.take o).length = o := by rw [List.length_take]; omega
  have hlb : (l.take o ++ b).length = o + b.length := by
    simp only [List.length_append, List.length_take]; omega
  rcases hout with hlt | hge
  · rw [List.getD_append _ _ _ _ (by rw [hlb]; omega),
      List.getD_append _ _ _ _ (by rw [hto]; omega)]
    exact getD_take_of_lt hlt 0
  · rw [List.getD_append_right _ _ _ _ (by rw [hlb]; omega), hlb,
      List.getD_eq_getElem?_getD, List.getD_eq_getElem?_getD,
      List.getElem?_drop,
      show o + b.length + (i - (o + b.length)) = i from by omega]

/-! ### Toolkit: folds with 32-bit reduction -/

theorem foldl_addmod (g : FontTable → Nat) :
    ∀ (l : List FontTable) (s : Nat), s < 2 ^ 32 →
      l.foldl (fun acc t => (acc + g t) % 2 ^ 32) s
        = (s + (l.map g).sum) % 2 ^ 32 := by
  intro l
  induction l with
  | nil =>
    intro s hs
    simp only [List.foldl_nil, List.map_nil, List.sum_nil, Nat.add_zero]
    omega
  | cons t rest ih =>
    intro s hs
    simp only [List.foldl_cons, List.map_cons, List.sum_cons]
    rw [ih _ (Nat.mod_lt _ (by norm_num))]
    omega

theorem foldl_hdr_aux :
    ∀ (l : List FontTable) (s : Nat), s < 2 ^ 32 →
      l.foldl
        (fun acc t => (acc + t.tag + t.checksum + t.offset + t.length)
          % 2 ^ 32) s
        = (s + (l.map (fun t => t.tag + t.checksum + t.offset + t.length)).sum)
          % 2 ^ 32 := by
  intro l
  induction l with
  | nil =>
    intro s hs
    simp only [List.foldl_nil, List.map_nil, List.sum_nil, Nat.add_zero]
    omega
  | cons t rest ih =>
    intro s hs
    simp only [List.foldl_cons, List.map_cons, List.sum_cons]
    rw [ih _ (Nat.mod_lt _ (by norm_num))]
    omega

theorem computeHeaderChecksum_eq (font : SfntFont) :
    computeHeaderChecksum font
      = (font.flavor
        + (font.numTables * 2 ^ 16 + sfntSearchRange font.numTables)
        + (sfntMaxPow2 font.numTables * 2 ^ 16
          + sfntRangeShift font.numTables)
        + (font.tables.map
            (fun t => t.tag + t.checksum + t.offset + t.length)).sum)
        % 2 ^ 32 := by
  rw [computeHeaderChecksum]
  rw [foldl_hdr_aux font.tables _ (Nat.mod_lt _ (by norm_num))]
  omega

theorem sum_map_mod (f : FontTable → Nat) :
    ∀ (l : List FontTable),
      (l.map (fun t => f t % 2 ^ 32)).sum % 2 ^ 32
        = (l.map f).sum % 2 ^ 32 := by
  intro l
  induction l with
  | nil => rfl
  | cons t rest ih =>
    simp only [List.map_cons, List.sum_cons]
    omega

theorem length_storeU32Bytes (x : Nat) : (storeU32Bytes x).length = 4 := rfl

theorem length_store16Bytes (x : Nat) : (store16Bytes x).length = 2 := rfl

theorem length_entryBytes (t : FontTable) : (entryBytes t).length = 16 := by
  rw [entryBytes]
  simp only [List.length_append, length_storeU32Bytes]

theorem length_hdrBytes (font : SfntFont) : (hdrBytes font).length = 12 := by
  rw [hdrBytes]
  simp only [List.length_append, length_storeU32Bytes, length_store16Bytes]

theorem Round4_dvd (x : Nat) : 4 ∣ Round4 x :=
  ⟨(x + 3) / 4, Nat.mul_comm _ _⟩

theorem Round4_pad (x : Nat) : Round4 x = x + (4 - x % 4) % 4 := by
  rw [Round4]; omega

theorem length_regionBytes (t : FontTable) (hlen : t.length ≤ t.data.length) :
    (regionBytes t).length = Round4 t.length := by
  rw [regionBytes]
  simp only [List.length_append, List.length_take, List.length_replicate]
  rw [Round4]
  omega

theorem computeChecksum_regionBytes (t : FontTable)
    (hlen : t.length ≤ t.data.length)
    (hpad : ∀ i, t.length ≤ i → i < Round4 t.length → t.data.getD i 0 = 0) :
    computeChecksum (regionBytes t) (Round4 t.length)
      = computeChecksum t.data t.length := by
  rw [computeChecksum_Round4]
  apply computeChecksum_congr
  intro i hi
  by_cases hil : i < t.length
  · rw [regionBytes]
    have hlt : i < (t.data.take t.length).length := by
      rw [List.length_take]; omega
    rw [List.getD_append _ _ _ _ hlt]
    exact getD_take_of_lt hil 0
  · rw [regionBytes]
    have hta : (t.data.take t.length).length = t.length := by
      rw [List.length_take]; omega
    rw [List.getD_append_right _ _ _ _ (by rw [hta]; omega), hta,
      hpad i (by omega) hi, List.getD_eq_getElem?_getD,
      List.getElem?_replicate]
    split
    · rfl
    · rfl

/-! ### Toolkit: the consecutive layout `NormalizeOffsets` produces -/

theorem normalizeOffsetsGo_map_inv {α : Type} (f : FontTable → α)
    (hf : ∀ (t : FontTable) (b : Nat), f { t with offset := b } = f t) :
    ∀ (ts : List FontTable) (b : Nat),
      (normalizeOffsetsGo b ts).map f = ts.map f := by
  intro ts
  induction ts with
  | nil => intro b; rfl
  | cons t rest ih =>
    intro b
    rw [normalizeOffsetsGo]
    simp only [List.map_cons]
    rw [ih, hf]

theorem normalizeOffsetsGo_mem :
    ∀ (ts : List FontTable) (b : Nat) (t' : FontTable),
      t' ∈ normalizeOffsetsGo b ts →
      ∃ t, t ∈ ts ∧ t'.tag = t.tag ∧ t'.checksum = t.checksum
        ∧ t'.length = t.length ∧ t'.data = t.data := by
  intro ts
  induction ts with
  | nil =>
    intro b t' h
    rw [normalizeOffsetsGo] at h
    simp at h
  | cons t rest ih =>
    intro b t' h
    rw [normalizeOffsetsGo] at h
    rcases List.mem_cons.mp h with h1 | h2
    · subst h1
      exact ⟨t, by simp, rfl, rfl, rfl, rfl⟩
    · rcases ih _ t' h2 with ⟨t0, hm, hrest⟩
      exact ⟨t0, by simp [hm], hrest⟩

theorem layoutFrom_normalizeOffsetsGo :
    ∀ (ts : List FontTable) (base : Nat),
      base + (ts.map (fun t => Round4 t.length)).sum < 2 ^ 32 →
      layoutFrom base (normalizeOffsetsGo base ts) := by
  intro ts
  induction ts with
  | nil =>
    intro base _
    rw [normalizeOffsetsGo, layoutFrom]
    trivial
  | cons t rest ih =>
    intro base hb
    simp only [List.map_cons, List.sum_cons] at hb
    rw [normalizeOffsetsGo, layoutFrom]
    dsimp only
    have hsz : (base + Round4 t.length) % 2 ^ 32 = base + Round4 t.length :=
      Nat.mod_eq_of_lt (by omega)
    rw [hsz]
    exact ⟨rfl, ih _ (by omega)⟩

theorem layoutFrom_map :
    ∀ (ts : List FontTable) (base : Nat) (f : FontTable → FontTable),
      (∀ t ∈ ts, (f t).offset = t.offset ∧ (f t).length = t.length) →
      layoutFrom base ts → layoutFrom base (ts.map f) := by
  intro ts
  induction ts with
  | nil =>
    intro base f _ h
    rw [List.map_nil]
    exact h
  | cons t rest ih =>
    intro base f hf h
    rw [List.map_cons]
    rw [layoutFrom] at h ⊢
    obtain ⟨h1, h2⟩ := h
    obtain ⟨hfo, hfl⟩ := hf t (by simp)
    refine ⟨by rw [hfo, h1], ?_⟩
    rw [hfl]
    exact ih _ f (fun x hx => hf x (by simp [hx])) h2

theorem tags_map_eq :
    ∀ (ts : List FontTable) (f : FontTable → FontTable),
      (∀ t ∈ ts, (f t).tag = t.tag) →
      (ts.map f).map (fun t : FontTable => t.tag)
        = ts.map (fun t : FontTable => t.tag) := by
  intro ts
  induction ts with
  | nil => intro f _; rfl
  | cons t rest ih =>
    intro f hf
    simp only [List.map_cons]
    rw [hf t (by simp), ih f (fun x hx => hf x (by simp [hx]))]

theorem find?_unique_of_nodup :
    ∀ (ts : List FontTable) (tag : Nat) (h1 : FontTable),
      (ts.map (fun t : FontTable => t.tag)).Nodup →
      ts.find? (·.tag == tag) = some h1 →
      ∀ t ∈ ts, t.tag = tag → t = h1 := by
  intro ts
  induction ts with
  | nil =>
    intro tag h1 _ hf
    simp at hf
  | cons t0 rest ih =>
    intro tag h1 hnd hf t ht htag
    rw [List.map_cons, List.nodup_cons] at hnd
    obtain ⟨hnotin, hnd'⟩ := hnd
    by_cases h0 : t0.tag = tag
    · have hf0 : (t0 :: rest).find? (·.tag == tag) = some t0 :=
        List.find?_cons_of_pos _ (by simpa using h0)
      rw [hf0] at hf
      injection hf with hh
      subst hh
      rcases List.mem_cons.mp ht with rfl | hin
      · rfl
      · exfalso
        apply hnotin
        have h2 : t.tag ∈ rest.map (fun t : FontTable => t.tag) :=
          List.mem_map_of_mem _ hin
        rw [htag] at h2
        rw [h0]
        exact h2
    · have hf1 : (t0 :: rest).find? (·.tag == tag)
          = rest.find? (·.tag == tag) :=
        List.find?_cons_of_neg _ (by simpa using h0)
      rw [hf1] at hf
      rcases List.mem_cons.mp ht with rfl | hin
      · exact absurd htag h0
      · exact ih tag h1 hnd' hf t hin htag

/-! ### Toolkit: boundary writes -/

theorem writeAt_at (A c b : List Nat) (o : Nat) (ho : o = A.length) :
    writeAt (A ++ c) o b = (A ++ b) ++ c.drop b.length := by
  subst ho
  rw [writeAt_boundary, List.append_assoc]

theorem storeU32At_at (A c : List Nat) (x : Nat) (o : Nat)
    (ho : o = A.length) :
    storeU32At (A ++ c) o x = (A ++ storeU32Bytes x) ++ c.drop 4 := by
  subst ho
  rw [storeU32At, writeAt_boundary,
    show (storeU32Bytes x).length = 4 from rfl, List.append_assoc]

theorem drop4_replicate_block (k : Nat) (X : List Nat) (hk : 4 <= k) :
    (List.replicate k 0 ++ X).drop 4 = List.replicate (k - 4) 0 ++ X := by
  rw [List.drop_append_eq_append_drop, List.drop_replicate,
    List.length_replicate, show 4 - k = 0 from by omega, List.drop_zero]

/-- The per-table loop of `WriteFont`, run on a buffer whose directory area
beyond `D` is still zero and whose payload area holds `R` followed by
zeros, writes each directory entry at its slot and each padded payload at
its laid-out offset, producing the concatenation of entries and regions. -/
theorem writeFontTablesGo_layout :
    ∀ (ts : List FontTable) (D R : List Nat) (dstSize : Nat),
      (∀ t ∈ ts, t.length ≤ t.data.length) →
      layoutFrom (D.length + 16 * ts.length + R.length) ts →
      dstSize = D.length + 16 * ts.length + R.length
        + (ts.map (fun t => Round4 t.length)).sum →
      dstSize < 2 ^ 32 →
      writeFontTablesGo dstSize ts D.length
          (D ++ (List.replicate (16 * ts.length) 0
            ++ (R ++ List.replicate
              ((ts.map (fun t => Round4 t.length)).sum) 0)))
        = some (D ++ ((ts.map entryBytes).flatten
            ++ (R ++ (ts.map regionBytes).flatten))) := by
  intro ts
  induction ts with
  | nil =>
    intro D R dstSize _ _ _ _
    rw [writeFontTablesGo]
    simp
  | cons t rest ih =>
    intro D R dstSize hdata hlay hsz hM
    rw [layoutFrom] at hlay
    obtain ⟨hoff, hlay'⟩ := hlay
    simp only [List.length_cons, List.map_cons, List.sum_cons]
      at hoff hlay' hsz
    simp only [List.length_cons, List.map_cons, List.sum_cons,
      List.flatten_cons]
    have hdt : t.length ≤ t.data.length := hdata t (by simp)
    have hr4 := Round4_ge t.length
    have hp4 := Round4_pad t.length
    rw [writeFontTablesGo]
    dsimp only
    have hmod : (t.offset + t.length) % 2 ^ 32 = t.offset + t.length :=
      Nat.mod_eq_of_lt (by omega)
    rw [hmod,
      if_neg (show ¬(t.offset + t.length < t.offset) from by omega),
      if_neg (show ¬(dstSize < t.offset + t.length) from by omega),
      if_neg (show ¬(t.offset + t.length + (4 - t.length % 4) % 4
        < (4 - t.length % 4) % 4) from by omega),
      if_neg (show ¬(dstSize < t.offset + t.length + (4 - t.length % 4) % 4)
        from by omega)]
    have e1 : storeU32At
        (D ++ (List.replicate (16 * (rest.length + 1)) 0
          ++ (R ++ List.replicate (Round4 t.length
            + (rest.map (fun t => Round4 t.length)).sum) 0)))
        D.length t.tag
        = (D ++ storeU32Bytes t.tag)
          ++ (List.replicate (16 * rest.length + 12) 0
            ++ (R ++ List.replicate (Round4 t.length
              + (rest.map (fun t => Round4 t.length)).sum) 0)) := by
      rw [storeU32At_at _ _ _ _ rfl,
        drop4_replicate_block _ _ (by omega),
        show 16 * (rest.length + 1) - 4 = 16 * rest.length + 12
          from by omega]
    have e2 : storeU32At
        ((D ++ storeU32Bytes t.tag)
          ++ (List.replicate (16 * rest.length + 12) 0
            ++ (R ++ List.replicate (Round4 t.length
              + (rest.map (fun t => Round4 t.length)).sum) 0)))
        (D.length + 4) t.checksum
        = ((D ++ storeU32Bytes t.tag) ++ storeU32Bytes t.checksum)
          ++ (List.replicate (16 * rest.length + 8) 0
            ++ (R ++ List.replicate (Round4 t.length
              + (rest.map (fun t => Round4 t.length)).sum) 0)) := by
      rw [storeU32At_at _ _ _ _
        (by simp only [List.length_append, length_storeU32Bytes]),
        drop4_replicate_block _ _ (by omega),
        show 16 * rest.length + 12 - 4 = 16 * rest.length + 8 from by omega]
    have e3 : storeU32At
        (((D ++ storeU32Bytes t.tag) ++ storeU32Bytes t.checksum)
          ++ (List.replicate (16 * rest.length + 8) 0
            ++ (R ++ List.replicate (Round4 t.length
              + (rest.map (fun t => Round4 t.length)).sum) 0)))
        (D.length + 8) t.offset
        = (((D ++ storeU32Bytes t.tag) ++ storeU32Bytes t.checksum)
            ++ storeU32Bytes t.offset)
          ++ (List.replicate (16 * rest.length + 4) 0
            ++ (R ++ List.replicate (Round4 t.length
              + (rest.map (fun t => Round4 t.length)).sum) 0)) := by
      rw [storeU32At_at _ _ _ _
        (by simp only [List.length_append, length_storeU32Bytes]),
        drop4_replicate_block _ _ (by omega),
        show 16 * rest.length + 8 - 4 = 16 * rest.length + 4 from by omega]
    have e4 : storeU32At
        ((((D ++ storeU32Bytes t.tag) ++ storeU32Bytes t.checksum)
            ++ storeU32Bytes t.offset)
          ++ (List.replicate (16 * rest.length + 4) 0
            ++ (R ++ List.replicate (Round4 t.length
              + (rest.map (fun t => Round4 t.length)).sum) 0)))
        (D.length + 12) t.length
        = ((((D ++ storeU32Bytes t.tag) ++ storeU32Bytes t.checksum)
              ++ storeU32Bytes t.offset) ++ storeU32Bytes t.length)
          ++ (List.replicate (16 * rest.length) 0
            ++ (R ++ List.replicate (Round4 t.length
              + (rest.map (fun t => Round4 t.length)).sum) 0)) := by
      rw [storeU32At_at _ _ _ _
        (by simp only [List.length_append, length_storeU32Bytes]),
        drop4_replicate_block _ _ (by omega),
        show 16 * rest.length + 4 - 4 = 16 * rest.length from by omega]
    have e5 : writeAt
        (((((D ++ storeU32Bytes t.tag) ++ storeU32Bytes t.checksum)
              ++ storeU32Bytes t.offset) ++ storeU32Bytes t.length)
          ++ (List.replicate (16 * rest.length) 0
            ++ (R ++ List.replicate (Round4 t.length
              + (rest.map (fun t => Round4 t.length)).sum) 0)))
        t.offset (t.data.take t.length)
        = (((((((D ++ storeU32Bytes t.tag) ++ storeU32Bytes t.checksum)
                ++ storeU32Bytes t.offset) ++ storeU32Bytes t.length)
              ++ List.replicate (16 * rest.length) 0) ++ R)
            ++ t.data.take t.length)
          ++ List.replicate (Round4 t.length
            + (rest.map (fun t => Round4 t.length)).sum - t.length) 0 := by
      rw [show ((((D ++ storeU32Bytes t.tag) ++ storeU32Bytes t.checksum)
              ++ storeU32Bytes t.offset) ++ storeU32Bytes t.length)
          ++ (List.replicate (16 * rest.length) 0
            ++ (R ++ List.replicate (Round4 t.length
              + (rest.map (fun t => Round4 t.length)).sum) 0))
          = ((((((D ++ storeU32Bytes t.tag) ++ storeU32Bytes t.checksum)
                ++ storeU32Bytes t.offset) ++ storeU32Bytes t.length)
              ++ List.replicate (16 * rest.length) 0) ++ R)
            ++ List.replicate (Round4 t.length
              + (rest.map (fun t => Round4 t.length)).sum) 0
        from by simp only [List.append_assoc]]
      rw [writeAt_at _ _ _ _
        (by simp only [List.length_append, length_storeU32Bytes,
          List.length_replicate]; omega)]
      rw [show (t.data.take t.length).length = t.length
        from by rw [List.length_take]; omega]
      rw [List.drop_replicate]
    have e6 : writeAt
        ((((((((D ++ storeU32Bytes t.tag) ++ storeU32Bytes t.checksum)
                ++ storeU32Bytes t.offset) ++ storeU32Bytes t.length)
              ++ List.replicate (16 * rest.length) 0) ++ R)
            ++ t.data.take t.length)
          ++ List.replicate (Round4 t.length
            + (rest.map (fun t => Round4 t.length)).sum - t.length) 0)
        (t.offset + t.length) (List.replicate ((4 - t.length % 4) % 4) 0)
        = ((((((((D ++ storeU32Bytes t.tag) ++ storeU32Bytes t.checksum)
                  ++ storeU32Bytes t.offset) ++ storeU32Bytes t.length)
                ++ List.replicate (16 * rest.length) 0) ++ R)
              ++ t.data.take t.length)
            ++ List.replicate ((4 - t.length % 4) % 4) 0)
          ++ List.replicate
            ((rest.map (fun t => Round4 t.length)).sum) 0 := by
      rw [writeAt_at _ _ _ _
        (by simp only [List.length_append, length_storeU32Bytes,
          List.length_replicate, List.length_take]; omega)]
      rw [List.length_replicate, List.drop_replicate,
        show Round4 t.length + (rest.map (fun t => Round4 t.length)).sum
            - t.length - (4 - t.length % 4) % 4
          = (rest.map (fun t => Round4 t.length)).sum from by omega]
    rw [e1, e2, e3, e4, e5, e6]
    have hDl : (D ++ entryBytes t).length = D.length + 16 := by
      rw [List.length_append, length_entryBytes]
    have hRl : (R ++ regionBytes t).length = R.length + Round4 t.length := by
      rw [List.length_append, length_regionBytes t hdt]
    have hlay2 : layoutFrom ((D ++ entryBytes t).length + 16 * rest.length
        + (R ++ regionBytes t).length) rest := by
      rw [show (D ++ entryBytes t).length + 16 * rest.length
          + (R ++ regionBytes t).length
          = D.length + 16 * (rest.length + 1) + R.length + Round4 t.length
        from by rw [hDl, hRl]; omega]
      exact hlay'
    have hsz2 : dstSize = (D ++ entryBytes t).length + 16 * rest.length
        + (R ++ regionBytes t).length
        + (rest.map (fun t => Round4 t.length)).sum := by
      rw [hDl, hRl]; omega
    have key := ih (D ++ entryBytes t) (R ++ regionBytes t) dstSize
      (fun x hx => hdata x (by simp [hx])) hlay2 hsz2 hM
    rw [hDl] at key
    rw [show ((((((((D ++ storeU32Bytes t.tag) ++ storeU32Bytes t.checksum)
                  ++ storeU32Bytes t.offset) ++ storeU32Bytes t.length)
                ++ List.replicate (16 * rest.length) 0) ++ R)
              ++ t.data.take t.length)
            ++ List.replicate ((4 - t.length % 4) % 4) 0)
          ++ List.replicate ((rest.map (fun t => Round4 t.length)).sum) 0
        = (D ++ entryBytes t) ++ (List.replicate (16 * rest.length) 0
            ++ ((R ++ regionBytes t) ++ List.replicate
              ((rest.map (fun t => Round4 t.length)).sum) 0))
      from by simp only [entryBytes, regionBytes, List.append_assoc]]
    rw [key]
    simp only [List.append_assoc]

/-- `WriteFont` on a font in normalized layout emits exactly the header,
the directory entries, and the padded table regions, in order. -/
theorem writeFont_layout (font : SfntFont) (T : Nat)
    (hnum : font.numTables = font.tables.length)
    (hdata : ∀ t ∈ font.tables, t.length ≤ t.data.length)
    (hlay : layoutFrom (12 + 16 * font.numTables) font.tables)
    (hT : T = 12 + 16 * font.numTables
      + (font.tables.map (fun t => Round4 t.length)).sum)
    (hM : T < 2 ^ 32) :
    writeFont font T
      = some (hdrBytes font ++ ((font.tables.map entryBytes).flatten
          ++ (font.tables.map regionBytes).flatten)) := by
  have f1 : storeU32At (List.replicate T 0) 0 font.flavor
      = storeU32Bytes font.flavor ++ List.replicate (T - 4) 0 := by
    rw [storeU32At, writeAt]
    simp only [List.take_zero, List.nil_append, length_storeU32Bytes,
      Nat.zero_add, List.drop_replicate]
  have f2 : writeAt (storeU32Bytes font.flavor ++ List.replicate (T - 4) 0)
        4 (store16Bytes font.numTables)
      = (storeU32Bytes font.flavor ++ store16Bytes font.numTables)
        ++ List.replicate (T - 6) 0 := by
    rw [writeAt_at _ _ _ _ (length_storeU32Bytes font.flavor).symm,
      length_store16Bytes, List.drop_replicate,
      show T - 4 - 2 = T - 6 from by omega]
  have f3 : writeAt
        ((storeU32Bytes font.flavor ++ store16Bytes font.numTables)
          ++ List.replicate (T - 6) 0) 6
        (store16Bytes (sfntSearchRange font.numTables))
      = ((storeU32Bytes font.flavor ++ store16Bytes font.numTables)
          ++ store16Bytes (sfntSearchRange font.numTables))
        ++ List.replicate (T - 8) 0 := by
    rw [writeAt_at _ _ _ _ (by simp only [List.length_append,
        length_storeU32Bytes, length_store16Bytes]),
      length_store16Bytes, List.drop_replicate,
      show T - 6 - 2 = T - 8 from by omega]
  have f4 : writeAt
        (((storeU32Bytes font.flavor ++ store16Bytes font.numTables)
            ++ store16Bytes (sfntSearchRange font.numTables))
          ++ List.replicate (T - 8) 0) 8
        (store16Bytes (sfntMaxPow2 font.numTables))
      = (((storeU32Bytes font.flavor ++ store16Bytes font.numTables)
            ++ store16Bytes (sfntSearchRange font.numTables))
          ++ store16Bytes (sfntMaxPow2 font.numTables))
        ++ List.replicate (T - 10) 0 := by
    rw [writeAt_at _ _ _ _ (by simp only [List.length_append,
        length_storeU32Bytes, length_store16Bytes]),
      length_store16Bytes, List.drop_replicate,
      show T - 8 - 2 = T - 10 from by omega]
  have f5 : writeAt
        ((((storeU32Bytes font.flavor ++ store16Bytes font.numTables)
              ++ store16Bytes (sfntSearchRange font.numTables))
            ++ store16Bytes (sfntMaxPow2 font.numTables))
          ++ List.replicate (T - 10) 0) 10
        (store16Bytes (sfntRangeShift font.numTables))
      = ((((storeU32Bytes font.flavor ++ store16Bytes font.numTables)
              ++ store16Bytes (sfntSearchRange font.numTables))
            ++ store16Bytes (sfntMaxPow2 font.numTables))
          ++ store16Bytes (sfntRangeShift font.numTables))
        ++ List.replicate (T - 12) 0 := by
    rw [writeAt_at _ _ _ _ (by simp only [List.length_append,
        length_storeU32Bytes, length_store16Bytes]),
      length_store16Bytes, List.drop_replicate,
      show T - 10 - 2 = T - 12 from by omega]
  have hlay2 : layoutFrom ((hdrBytes font).length + 16 * font.tables.length
      + ([] : List Nat).length) font.tables := by
    rw [show (hdrBytes font).length + 16 * font.tables.length
        + ([] : List Nat).length = 12 + 16 * font.numTables from by
      rw [length_hdrBytes]; simp only [List.length_nil]; omega]
    exact hlay
  have hsz2 : T = (hdrBytes font).length + 16 * font.tables.length
      + ([] : List Nat).length
      + (font.tables.map (fun t => Round4 t.length)).sum := by
    rw [length_hdrBytes]; simp only [List.length_nil]; omega
  have key := writeFontTablesGo_layout font.tables (hdrBytes font) [] T
    hdata hlay2 hsz2 hM
  rw [length_hdrBytes] at key
  rw [writeFont, if_neg (by omega)]
  dsimp only
  rw [f1, f2, f3, f4, f5]
  rw [show ((((storeU32Bytes font.flavor ++ store16Bytes font.numTables)
            ++ store16Bytes (sfntSearchRange font.numTables))
          ++ store16Bytes (sfntMaxPow2 font.numTables))
        ++ store16Bytes (sfntRangeShift font.numTables))
        ++ List.replicate (T - 12) 0
      = hdrBytes font ++ (List.replicate (16 * font.tables.length) 0
          ++ ([] ++ List.replicate
            ((font.tables.map (fun t => Round4 t.length)).sum) 0))
    from by
      rw [show T - 12 = 16 * font.tables.length
          + (font.tables.map (fun t => Round4 t.length)).sum from by omega,
        List.replicate_add]
      simp only [hdrBytes, List.append_assoc, List.nil_append]]
  rw [key]
  simp only [List.nil_append]

/-- `FontFileSize` of a font in normalized layout is exactly directory end
plus the padded sizes of all tables. -/
theorem fontFileSize_layout (font : SfntFont)
    (hlay : layoutFrom (12 + 16 * font.numTables) font.tables) :
    fontFileSize font = 12 + 16 * font.numTables
      + (font.tables.map (fun t => Round4 t.length)).sum := by
  rw [fontFileSize]
  suffices haux : ∀ (ts : List FontTable) (base : Nat), layoutFrom base ts →
      ts.foldl (fun m t => max m ((4 - t.length % 4) % 4 + t.offset
        + t.length)) base
        = base + (ts.map (fun t => Round4 t.length)).sum by
    exact haux font.tables _ hlay
  intro ts
  induction ts with
  | nil =>
    intro base _
    simp
  | cons t rest ih =>
    intro base hl
    rw [layoutFrom] at hl
    obtain ⟨h1, h2⟩ := hl
    simp only [List.foldl_cons, List.map_cons, List.sum_cons]
    have hmax : max base ((4 - t.length % 4) % 4 + t.offset + t.length)
        = base + Round4 t.length := by
      have := Round4_pad t.length
      omega
    rw [hmax, ih _ h2]
    omega

theorem sum_lengths_entry :
    ∀ ts : List FontTable,
      ((ts.map entryBytes).map List.length).sum = 16 * ts.length := by
  intro ts
  induction ts with
  | nil => rfl
  | cons t rest ih =>
    simp only [List.map_cons, List.sum_cons, List.length_cons]
    rw [length_entryBytes, ih]
    omega

theorem sum_lengths_region :
    ∀ ts : List FontTable, (∀ t ∈ ts, t.length ≤ t.data.length) →
      ((ts.map regionBytes).map List.length).sum
        = (ts.map (fun t => Round4 t.length)).sum := by
  intro ts
  induction ts with
  | nil => intro _; rfl
  | cons t rest ih =>
    intro hdata
    simp only [List.map_cons, List.sum_cons]
    rw [length_regionBytes t (hdata t (by simp)),
      ih (fun x hx => hdata x (by simp [hx]))]

/-- Whole-file checksum law for `WriteFont`: the mod-2^32 word sum of the
emitted file is the header-and-directory checksum plus the per-table
payload checksums. -/
theorem writeFont_checksum (font : SfntFont) (T : Nat)
    (hnum : font.numTables = font.tables.length)
    (hnt : font.numTables < 2 ^ 16)
    (hdata : ∀ t ∈ font.tables, t.length ≤ t.data.length)
    (hpad : ∀ t ∈ font.tables, ∀ i, t.length ≤ i → i < Round4 t.length →
      t.data.getD i 0 = 0)
    (hlay : layoutFrom (12 + 16 * font.numTables) font.tables)
    (hT : T = 12 + 16 * font.numTables
      + (font.tables.map (fun t => Round4 t.length)).sum)
    (hM : T < 2 ^ 32) :
    ∃ out, writeFont font T = some out ∧
      computeChecksum out T
        = (computeHeaderChecksum font
          + (font.tables.map
              (fun t => computeChecksum t.data t.length)).sum) % 2 ^ 32 := by
  refine ⟨_, writeFont_layout font T hnum hdata hlay hT hM, ?_⟩
  have hout : hdrBytes font ++ ((font.tables.map entryBytes).flatten
      ++ (font.tables.map regionBytes).flatten)
      = (hdrBytes font :: (font.tables.map entryBytes
          ++ font.tables.map regionBytes)).flatten := by
    rw [List.flatten_cons, List.flatten_append]
  have hTlen : (hdrBytes font :: (font.tables.map entryBytes
      ++ font.tables.map regionBytes)).flatten.length = T := by
    rw [List.length_flatten]
    simp only [List.map_cons, List.map_append, List.sum_cons,
      List.sum_append]
    rw [length_hdrBytes, sum_lengths_entry, sum_lengths_region _ hdata]
    omega
  have hdvd : ∀ b ∈ (hdrBytes font :: (font.tables.map entryBytes
      ++ font.tables.map regionBytes)), 4 ∣ b.length := by
    intro b hb
    rcases List.mem_cons.mp hb with rfl | hb2
    · rw [length_hdrBytes]
      exact ⟨3, rfl⟩
    · rcases List.mem_append.mp hb2 with hbe | hbr
      · rcases List.mem_map.mp hbe with ⟨t, _, rfl⟩
        rw [length_entryBytes]
        exact ⟨4, rfl⟩
      · rcases List.mem_map.mp hbr with ⟨t, ht, rfl⟩
        rw [length_regionBytes t (hdata t ht)]
        exact Round4_dvd _
  rw [hout, show T = (hdrBytes font :: (font.tables.map entryBytes
      ++ font.tables.map regionBytes)).flatten.length from hTlen.symm,
    computeChecksum_flatten _ hdvd]
  simp only [List.map_cons, List.map_append, List.sum_cons,
    List.sum_append]
  have hHdr : computeChecksum (hdrBytes font) (hdrBytes font).length
      = (font.flavor
        + (font.numTables * 2 ^ 16 + sfntSearchRange font.numTables)
        + (sfntMaxPow2 font.numTables * 2 ^ 16
          + sfntRangeShift font.numTables)) % 2 ^ 32 := by
    rw [length_hdrBytes]
    exact computeChecksum_hdrBytes font hnt
  have hE : (font.tables.map entryBytes).map
        (fun b => computeChecksum b b.length)
      = font.tables.map
        (fun t => (t.tag + t.checksum + t.offset + t.length) % 2 ^ 32) := by
    rw [List.map_map]
    apply List.map_congr_left
    intro t _
    simp only [Function.comp]
    rw [length_entryBytes, computeChecksum_entryBytes]
  have hR : (font.tables.map regionBytes).map
        (fun b => computeChecksum b b.length)
      = font.tables.map (fun t => computeChecksum t.data t.length) := by
    rw [List.map_map]
    apply List.map_congr_left
    intro t ht
    simp only [Function.comp]
    rw [length_regionBytes t (hdata t ht),
      computeChecksum_regionBytes t (hdata t ht) (hpad t ht)]
  rw [hHdr, hE, hR, computeHeaderChecksum_eq]
  have hsmm := sum_map_mod
    (fun t => t.tag + t.checksum + t.offset + t.length) font.tables
  omega

theorem computeChecksum_eq_fuel :
    ∀ (fuel : Nat) (l : List Nat) (s : Nat), s ≤ fuel →
      computeChecksum l s = computeChecksumFuel fuel l s := by
  intro fuel
  induction fuel with
  | zero =>
    intro l s hs
    have hz : s = 0 := by omega
    subst hz
    rw [computeChecksum_zero]
    rfl
  | succ f ih =>
    intro l s hs
    by_cases h : 0 < s
    · rw [computeChecksum, if_pos h, computeChecksumFuel, if_pos h,
        ih (l.drop 4) (s - 4) (by omega)]
    · rw [computeChecksum, if_neg h, computeChecksumFuel, if_neg h]

theorem take_writeAt {l : List Nat} {o : Nat} {b : List Nat}
    (h : o ≤ l.length) : (writeAt l o b).take o = l.take o := by
  have h1 : (l.take o).length = o := by rw [List.length_take]; omega
  have h2 : (l.take o ++ b).length = o + b.length := by
    rw [List.length_append, h1]
  rw [writeAt, List.take_append_eq_append_take,
    List.take_append_eq_append_take,
    List.take_of_length_le (by omega : (l.take o).length ≤ o),
    h1, show o - o = 0 from by omega, List.take_zero, h2,
    show o - (o + b.length) = 0 from by omega, List.take_zero,
    List.append_nil, List.append_nil]

theorem writeAt_writeAt {l : List Nat} {o : Nat} {b c : List Nat}
    (hbc : b.length = c.length) (h : o + b.length ≤ l.length) :
    writeAt (writeAt l o b) o c = writeAt l o c := by
  have e1 : writeAt (writeAt l o b) o c
      = (writeAt l o b).take o ++ c
        ++ (writeAt l o b).drop (o + c.length) := rfl
  rw [e1, take_writeAt (by omega),
    drop_writeAt (by omega : o + b.length ≤ o + c.length) h]
  rfl

theorem storeU32At_storeU32At (l : List Nat) (o x y : Nat)
    (h : o + 4 ≤ l.length) :
    storeU32At (storeU32At l o x) o y = storeU32At l o y := by
  rw [storeU32At, storeU32At, storeU32At]
  exact writeAt_writeAt
    (by rw [length_storeU32Bytes, length_storeU32Bytes])
    (by rw [length_storeU32Bytes]; omega)

theorem length_storeU32At (l : List Nat) (o x : Nat)
    (h : o + 4 ≤ l.length) : (storeU32At l o x).length = l.length := by
  rw [storeU32At]
  exact length_writeAt (by rw [length_storeU32Bytes]; omega)

theorem getD_storeU32At_outside {l : List Nat} {o x i : Nat}
    (h : o + 4 ≤ l.length) (hout : i < o ∨ o + 4 ≤ i) :
    (storeU32At l o x).getD i 0 = l.getD i 0 := by
  rw [storeU32At]
  exact getD_writeAt_outside (by rw [length_storeU32Bytes]; omega)
    (by rw [length_storeU32Bytes]; omega)

/-- The delta a `StoreU32` at head offset 8 makes to the table checksum:
overwriting the (zeroed) word with `v` adds `v` mod 2^32. -/
theorem computeChecksum_store_delta (D : List Nat) (len v : Nat)
    (h12 : 12 ≤ len) (hlen : len ≤ D.length) :
    computeChecksum (storeU32At D 8 v) len
      = (computeChecksum (storeU32At D 8 0) len + v) % 2 ^ 32 := by
  have hsplit : ∀ w : Nat, storeU32At D 8 w
      = D.take 8 ++ (storeU32Bytes w ++ D.drop 12) := by
    intro w
    rw [storeU32At, writeAt, length_storeU32Bytes,
      show (8:Nat) + 4 = 12 from rfl, List.append_assoc]
  have h8 : (D.take 8).length = 8 := by rw [List.length_take]; omega
  have hchk : ∀ w : Nat,
      computeChecksum (D.take 8 ++ (storeU32Bytes w ++ D.drop 12)) len
        = (computeChecksum (D.take 8) (D.take 8).length
          + (w % 2 ^ 32 + computeChecksum (D.drop 12) (len - 12)) % 2 ^ 32)
          % 2 ^ 32 := by
    intro w
    nth_rewrite 1 [show len = (D.take 8).length + (4 + (len - 12))
      from by rw [h8]; omega]
    rw [computeChecksum_append _ _ _ (by rw [h8]; exact ⟨2, rfl⟩),
      computeChecksum_u32_prepend]
  rw [hsplit v, hsplit 0, hchk v, hchk 0]
  omega

/-- Summing an `if tag = head` map over a nodup-tagged list containing the
head exactly once: the two branch values contribute once and the rest is
shared. -/
theorem sum_map_if_unique :
    ∀ (ts : List FontTable) (h1 : FontTable) (a b : Nat)
      (c : FontTable → Nat),
      (ts.map (fun t : FontTable => t.tag)).Nodup →
      ts.find? (·.tag == kHeadTableTag) = some h1 →
      ∃ S, (ts.map (fun t =>
          if t.tag = kHeadTableTag then a else c t)).sum = S + a
        ∧ (ts.map (fun t =>
          if t.tag = kHeadTableTag then b else c t)).sum = S + b := by
  intro ts
  induction ts with
  | nil =>
    intro h1 a b c _ hf
    simp at hf
  | cons t0 rest ih =>
    intro h1 a b c hnd hf
    rw [List.map_cons, List.nodup_cons] at hnd
    obtain ⟨hnotin, hnd'⟩ := hnd
    by_cases h0 : t0.tag = kHeadTableTag
    · have hnohead : ∀ t ∈ rest, ¬ t.tag = kHeadTableTag := by
        intro t ht htag
        apply hnotin
        have h2 : t.tag ∈ rest.map (fun t : FontTable => t.tag) :=
          List.mem_map_of_mem _ ht
        rw [htag] at h2
        rw [h0]
        exact h2
      have hca : rest.map (fun t =>
          if t.tag = kHeadTableTag then a else c t) = rest.map c :=
        List.map_congr_left (fun t ht => by rw [if_neg (hnohead t ht)])
      have hcb : rest.map (fun t =>
          if t.tag = kHeadTableTag then b else c t) = rest.map c :=
        List.map_congr_left (fun t ht => by rw [if_neg (hnohead t ht)])
      refine ⟨(rest.map c).sum, ?_, ?_⟩
      · simp only [List.map_cons, List.sum_cons, if_pos h0, hca]
        omega
      · simp only [List.map_cons, List.sum_cons, if_pos h0, hcb]
        omega
    · have hf1 : (t0 :: rest).find? (·.tag == kHeadTableTag)
          = rest.find? (·.tag == kHeadTableTag) :=
        List.find?_cons_of_neg _ (by simpa using h0)
      rw [hf1] at hf
      rcases ih h1 a b c hnd' hf with ⟨S, hS1, hS2⟩
      refine ⟨c t0 + S, ?_, ?_⟩
      · simp only [List.map_cons, List.sum_cons, if_neg h0, hS1]
        omega
      · simp only [List.map_cons, List.sum_cons, if_neg h0, hS2]
        omega

/-- Full characterization of `FixChecksums`: on success the head table's
data gets `checkSumAdjustment = 0xB1B0AFBA - (sum of all recomputed table
checksums + header checksum)` stored over its zeroed word at offset 8, and
every directory checksum is the recomputed one. -/
theorem fixChecksums_spec (font : SfntFont) (headT : FontTable)
    (hfind : findTable font kHeadTableTag = some headT)
    (hlen : ¬ headT.length < 12) :
    fixChecksums font = some { font with tables := font.tables.map (fun t =>
      if t.tag = kHeadTableTag then
        { headT with
          data := storeU32At (storeU32At headT.data 8 0) 8
            (sub32 0xb1b0afba
              (((font.tables.map (fun t =>
                  if t.tag = kHeadTableTag then
                    computeChecksum (storeU32At headT.data 8 0) headT.length
                  else computeChecksum t.data t.length)).sum
                + computeHeaderChecksum { font with
                    tables := font.tables.map (fun t =>
                      if t.tag = kHeadTableTag then
                        { headT with
                          data := storeU32At headT.data 8 0,
                          checksum := computeChecksum
                            (storeU32At headT.data 8 0) headT.length }
                      else { t with checksum :=
                        computeChecksum t.data t.length }) })
              % 2 ^ 32)),
          checksum := computeChecksum (storeU32At headT.data 8 0)
            headT.length }
      else { t with checksum := computeChecksum t.data t.length }) } := by
  have hht : headT.tag = kHeadTableTag := by
    rw [findTable] at hfind
    simpa using List.find?_some hfind
  have h1 : findTable (updateTable font kHeadTableTag
      { headT with data := storeU32At headT.data 8 0 }) kHeadTableTag
      = some { headT with data := storeU32At headT.data 8 0 } :=
    findTable_update_self (by exact hht) hfind
  have h2 : findTable { updateTable font kHeadTableTag
        { headT with data := storeU32At headT.data 8 0 } with
      tables := (updateTable font kHeadTableTag
        { headT with data := storeU32At headT.data 8 0 }).tables.map
        (fun t => { t with checksum := computeChecksum t.data t.length }) }
      kHeadTableTag
      = some { headT with data := storeU32At headT.data 8 0, checksum := computeChecksum (storeU32At headT.data 8 0) headT.length } := by
    rw [findTable]
    show ((updateTable font kHeadTableTag
        { headT with data := storeU32At headT.data 8 0 }).tables.map
        (fun t => { t with checksum := computeChecksum t.data t.length })).find?
        (·.tag == kHeadTableTag) = _
    have hmap : ((updateTable font kHeadTableTag
        { headT with data := storeU32At headT.data 8 0 }).tables.map
        (fun t => { t with checksum := computeChecksum t.data t.length })).find?
        (·.tag == kHeadTableTag)
        = ((updateTable font kHeadTableTag
            { headT with data := storeU32At headT.data 8 0 }).tables.find?
            (·.tag == kHeadTableTag)).map
          (fun t => { t with checksum := computeChecksum t.data t.length }) :=
      find?_tables_map (fun t => rfl)
    rw [hmap]
    rw [findTable] at h1
    rw [h1]
    rfl
  rw [fixChecksums, hfind]
  dsimp only
  rw [if_neg hlen, h2]
  dsimp only
  have hupd : (updateTable font kHeadTableTag
      { headT with data := storeU32At headT.data 8 0 }).tables
      = font.tables.map (fun t => if t.tag = kHeadTableTag then
          { headT with data := storeU32At headT.data 8 0 } else t) := rfl
  have hfl : (updateTable font kHeadTableTag
      { headT with data := storeU32At headT.data 8 0 }).flavor
      = font.flavor := rfl
  have hnumt : (updateTable font kHeadTableTag
      { headT with data := storeU32At headT.data 8 0 }).numTables
      = font.numTables := rfl
  rw [hupd, hfl, hnumt, List.map_map]
  have hcomp : font.tables.map ((fun t =>
        { t with checksum := computeChecksum t.data t.length })
      ∘ (fun t => if t.tag = kHeadTableTag then
          { headT with data := storeU32At headT.data 8 0 } else t))
      = font.tables.map (fun t => if t.tag = kHeadTableTag then
          { headT with
            data := storeU32At headT.data 8 0,
            checksum := computeChecksum (storeU32At headT.data 8 0)
              headT.length }
        else { t with checksum := computeChecksum t.data t.length }) := by
    apply List.map_congr_left
    intro t _
    simp only [Function.comp]
    by_cases h : t.tag = kHeadTableTag
    · rw [if_pos h, if_pos h]
    · rw [if_neg h, if_neg h]
  rw [hcomp]
  have hfold := foldl_addmod (fun t : FontTable => t.checksum)
    (font.tables.map (fun t => if t.tag = kHeadTableTag then
        { headT with
          data := storeU32At headT.data 8 0,
          checksum := computeChecksum (storeU32At headT.data 8 0)
            headT.length }
      else { t with checksum := computeChecksum t.data t.length })) 0
    (by norm_num)
  rw [hfold, List.map_map]
  have hchkmap : font.tables.map ((fun t : FontTable => t.checksum)
      ∘ (fun t => if t.tag = kHeadTableTag then
          { headT with
            data := storeU32At headT.data 8 0,
            checksum := computeChecksum (storeU32At headT.data 8 0)
              headT.length }
        else { t with checksum := computeChecksum t.data t.length }))
      = font.tables.map (fun t =>
          if t.tag = kHeadTableTag then
            computeChecksum (storeU32At headT.data 8 0) headT.length
          else computeChecksum t.data t.length) := by
    apply List.map_congr_left
    intro t _
    simp only [Function.comp]
    by_cases h : t.tag = kHeadTableTag
    · rw [if_pos h, if_pos h]
    · rw [if_neg h, if_neg h]
  rw [hchkmap]
  have hmodeq : ∀ H : Nat, ((0 + (font.tables.map (fun t =>
        if t.tag = kHeadTableTag then
          computeChecksum (storeU32At headT.data 8 0) headT.length
        else computeChecksum t.data t.length)).sum) % 2 ^ 32 + H) % 2 ^ 32
      = ((font.tables.map (fun t =>
        if t.tag = kHeadTableTag then
          computeChecksum (storeU32At headT.data 8 0) headT.length
        else computeChecksum t.data t.length)).sum + H) % 2 ^ 32 := by
    intro H
    omega
  rw [hmodeq]
  have hfinal : (font.tables.map (fun t => if t.tag = kHeadTableTag then
        { headT with
          data := storeU32At headT.data 8 0,
          checksum := computeChecksum (storeU32At headT.data 8 0)
            headT.length }
      else { t with checksum := computeChecksum t.data t.length })).map
      (fun t => if t.tag = kHeadTableTag then
          { headT with
            data := storeU32At (storeU32At headT.data 8 0) 8
              (sub32 0xb1b0afba
                (((font.tables.map (fun t =>
                    if t.tag = kHeadTableTag then
                      computeChecksum (storeU32At headT.data 8 0)
                        headT.length
                    else computeChecksum t.data t.length)).sum
                  + computeHeaderChecksum { font with
                      tables := font.tables.map (fun t =>
                        if t.tag = kHeadTableTag then
                          { headT with
                            data := storeU32At headT.data 8 0,
                            checksum := computeChecksum
                              (storeU32At headT.data 8 0) headT.length }
                        else { t with checksum :=
                          computeChecksum t.data t.length }) })
                % 2 ^ 32)),
            checksum := computeChecksum (storeU32At headT.data 8 0)
              headT.length }
        else t)
      = font.tables.map (fun t =>
        if t.tag = kHeadTableTag then
          { headT with
            data := storeU32At (storeU32At headT.data 8 0) 8
              (sub32 0xb1b0afba
                (((font.tables.map (fun t =>
                    if t.tag = kHeadTableTag then
                      computeChecksum (storeU32At headT.data 8 0)
                        headT.length
                    else computeChecksum t.data t.length)).sum
                  + computeHeaderChecksum { font with
                      tables := font.tables.map (fun t =>
                        if t.tag = kHeadTableTag then
                          { headT with
                            data := storeU32At headT.data 8 0,
                            checksum := computeChecksum
                              (storeU32At headT.data 8 0) headT.length }
                        else { t with checksum :=
                          computeChecksum t.data t.length }) })
                % 2 ^ 32)),
            checksum := computeChecksum (storeU32At headT.data 8 0)
              headT.length }
        else { t with checksum := computeChecksum t.data t.length }) := by
    rw [List.map_map]
    apply List.map_congr_left
    intro t _
    simp only [Function.comp]
    by_cases h : t.tag = kHeadTableTag
    · rw [if_pos h]
      dsimp only
      rw [if_pos hht, if_pos h]
    · rw [if_neg h]
  exact congrArg (fun ts => some
    (SfntFont.mk font.flavor font.numTables ts)) hfinal

/-- Core of the encoder law: for a font in normalized layout whose head
checksum adjustment has been set to `0xB1B0AFBA` minus the recomputed
checksums plus header checksum, `WriteFont` emits a file whose word sum is
exactly `0xB1B0AFBA`. -/
theorem fixed_font_checksum (font : SfntFont) (ts : List FontTable)
    (h1 : FontTable) (adjv : Nat)
    (hnum : font.numTables = ts.length)
    (hnt : font.numTables < 2 ^ 16)
    (hnd : (ts.map (fun t : FontTable => t.tag)).Nodup)
    (hfind : ts.find? (·.tag == kHeadTableTag) = some h1)
    (h1len12 : 12 ≤ h1.length)
    (hdata : ∀ t ∈ ts, t.length ≤ t.data.length)
    (hpad : ∀ t ∈ ts, ∀ i, t.length ≤ i → i < Round4 t.length →
      t.data.getD i 0 = 0)
    (hlay : layoutFrom (12 + 16 * font.numTables) ts)
    (hM : 12 + 16 * font.numTables
      + (ts.map (fun t => Round4 t.length)).sum < 2 ^ 32)
    (hadj : adjv = sub32 0xb1b0afba
      (((ts.map (fun t => if t.tag = kHeadTableTag then
          computeChecksum (storeU32At h1.data 8 0) h1.length
        else computeChecksum t.data t.length)).sum
        + computeHeaderChecksum { font with tables := ts.map (fun t => if t.tag = kHeadTableTag then
              { h1 with
                data := storeU32At h1.data 8 0,
                checksum := computeChecksum (storeU32At h1.data 8 0)
                  h1.length }
            else { t with checksum := computeChecksum t.data t.length }) })
      % 2 ^ 32)) :
    ∃ out,
      writeFont { font with tables := ts.map (fun t => if t.tag = kHeadTableTag then
            { h1 with
              data := storeU32At (storeU32At h1.data 8 0) 8 adjv,
              checksum := computeChecksum (storeU32At h1.data 8 0)
                h1.length }
          else { t with checksum := computeChecksum t.data t.length }) }
        (fontFileSize { font with tables := ts.map (fun t => if t.tag = kHeadTableTag then
            { h1 with
              data := storeU32At (storeU32At h1.data 8 0) 8 adjv,
              checksum := computeChecksum (storeU32At h1.data 8 0)
                h1.length }
          else { t with checksum := computeChecksum t.data t.length }) })
        = some out ∧
      computeChecksum out (fontFileSize { font with tables := ts.map (fun t => if t.tag = kHeadTableTag then
            { h1 with
              data := storeU32At (storeU32At h1.data 8 0) 8 adjv,
              checksum := computeChecksum (storeU32At h1.data 8 0)
                h1.length }
          else { t with checksum := computeChecksum t.data t.length }) })
        = 0xB1B0AFBA := by
  have hmem : h1 ∈ ts := List.mem_of_find?_eq_some hfind
  have huniq := find?_unique_of_nodup ts kHeadTableTag h1 hnd hfind
  have h1dlen : h1.length ≤ h1.data.length := hdata h1 hmem
  have h1tag : h1.tag = kHeadTableTag := by
    simpa using List.find?_some hfind
  have hdata2 : ∀ t2 ∈ ts.map
      (fun t => if t.tag = kHeadTableTag then
        { h1 with
          data := storeU32At (storeU32At h1.data 8 0) 8 adjv,
          checksum := computeChecksum (storeU32At h1.data 8 0) h1.length }
      else { t with checksum := computeChecksum t.data t.length }),
      t2.length ≤ t2.data.length := by
    intro t2 ht2
    obtain ⟨t, ht, rfl⟩ := List.mem_map.mp ht2
    by_cases h : t.tag = kHeadTableTag
    · rw [if_pos h]
      dsimp only
      rw [length_storeU32At _ _ _ (by
          rw [length_storeU32At _ _ _ (by omega)]; omega),
        length_storeU32At _ _ _ (by omega)]
      omega
    · rw [if_neg h]
      exact hdata t ht
  have hpad2 : ∀ t2 ∈ ts.map
      (fun t => if t.tag = kHeadTableTag then
        { h1 with
          data := storeU32At (storeU32At h1.data 8 0) 8 adjv,
          checksum := computeChecksum (storeU32At h1.data 8 0) h1.length }
      else { t with checksum := computeChecksum t.data t.length }),
      ∀ i, t2.length ≤ i → i < Round4 t2.length → t2.data.getD i 0 = 0 := by
    intro t2 ht2 i hi1 hi2
    obtain ⟨t, ht, rfl⟩ := List.mem_map.mp ht2
    by_cases h : t.tag = kHeadTableTag
    · rw [if_pos h] at hi1 hi2 ⊢
      dsimp only at hi1 hi2 ⊢
      rw [getD_storeU32At_outside
          (by rw [length_storeU32At _ _ _ (by omega)]; omega)
          (Or.inr (by omega)),
        getD_storeU32At_outside (by omega) (Or.inr (by omega))]
      exact hpad h1 hmem i hi1 hi2
    · rw [if_neg h] at hi1 hi2 ⊢
      dsimp only at hi1 hi2 ⊢
      exact hpad t ht i hi1 hi2
  have hlay2 : layoutFrom (12 + 16 * font.numTables) (ts.map
      (fun t => if t.tag = kHeadTableTag then
        { h1 with
          data := storeU32At (storeU32At h1.data 8 0) 8 adjv,
          checksum := computeChecksum (storeU32At h1.data 8 0) h1.length }
      else { t with checksum := computeChecksum t.data t.length })) := by
    apply layoutFrom_map ts _ _ ?_ hlay
    intro t ht
    by_cases h : t.tag = kHeadTableTag
    · rw [if_pos h, huniq t ht h]
      exact ⟨rfl, rfl⟩
    · rw [if_neg h]
      exact ⟨rfl, rfl⟩
  have hr4mapM : (ts.map
      (fun t => if t.tag = kHeadTableTag then
        { h1 with
          data := storeU32At (storeU32At h1.data 8 0) 8 adjv,
          checksum := computeChecksum (storeU32At h1.data 8 0) h1.length }
      else { t with checksum := computeChecksum t.data t.length })).map
      (fun t => Round4 t.length)
      = ts.map (fun t => Round4 t.length) := by
    rw [List.map_map]
    apply List.map_congr_left
    intro t ht
    simp only [Function.comp]
    by_cases h : t.tag = kHeadTableTag
    · rw [if_pos h, huniq t ht h]
    · rw [if_neg h]
  have hnum2 : font.numTables = (ts.map
      (fun t => if t.tag = kHeadTableTag then
        { h1 with
          data := storeU32At (storeU32At h1.data 8 0) 8 adjv,
          checksum := computeChecksum (storeU32At h1.data 8 0) h1.length }
      else { t with checksum := computeChecksum t.data t.length })).length := by
    rw [List.length_map]
    exact hnum
  obtain ⟨out, hwf, hchk⟩ := writeFont_checksum
    { font with tables := ts.map (fun t => if t.tag = kHeadTableTag then
        { h1 with
          data := storeU32At (storeU32At h1.data 8 0) 8 adjv,
          checksum := computeChecksum (storeU32At h1.data 8 0) h1.length }
      else { t with checksum := computeChecksum t.data t.length }) }
    (12 + 16 * font.numTables + (ts.map (fun t => Round4 t.length)).sum)
    hnum2 hnt hdata2 hpad2 hlay2
    (by dsimp only; rw [hr4mapM]) hM
  have hffs : fontFileSize { font with tables := ts.map (fun t => if t.tag = kHeadTableTag then
        { h1 with
          data := storeU32At (storeU32At h1.data 8 0) 8 adjv,
          checksum := computeChecksum (storeU32At h1.data 8 0) h1.length }
      else { t with checksum := computeChecksum t.data t.length }) }
      = 12 + 16 * font.numTables
        + (ts.map (fun t => Round4 t.length)).sum := by
    rw [fontFileSize_layout { font with tables := ts.map (fun t => if t.tag = kHeadTableTag then
        { h1 with
          data := storeU32At (storeU32At h1.data 8 0) 8 adjv,
          checksum := computeChecksum (storeU32At h1.data 8 0) h1.length }
      else { t with checksum := computeChecksum t.data t.length }) } hlay2]
    dsimp only
    rw [hr4mapM]
  refine ⟨out, ?_, ?_⟩
  · rw [hffs]
    exact hwf
  · rw [hffs]
    dsimp only at hchk
    have hchkmapM : (ts.map
        (fun t => if t.tag = kHeadTableTag then
          { h1 with
            data := storeU32At (storeU32At h1.data 8 0) 8 adjv,
            checksum := computeChecksum (storeU32At h1.data 8 0)
              h1.length }
        else { t with checksum := computeChecksum t.data t.length })).map
        (fun t => computeChecksum t.data t.length)
        = ts.map (fun t => if t.tag = kHeadTableTag then
            (computeChecksum (storeU32At h1.data 8 0) h1.length + adjv)
              % 2 ^ 32
          else computeChecksum t.data t.length) := by
      rw [List.map_map]
      apply List.map_congr_left
      intro t ht
      simp only [Function.comp]
      by_cases h : t.tag = kHeadTableTag
      · rw [if_pos h, if_pos h]
        dsimp only
        rw [computeChecksum_store_delta _ _ _ h1len12
            (by rw [length_storeU32At _ _ _ (by omega)]; omega),
          storeU32At_storeU32At _ _ _ _ (by omega)]
      · rw [if_neg h, if_neg h]
    have hHH : computeHeaderChecksum { font with tables := ts.map (fun t => if t.tag = kHeadTableTag then
            { h1 with
              data := storeU32At h1.data 8 0,
              checksum := computeChecksum (storeU32At h1.data 8 0)
                h1.length }
          else { t with checksum := computeChecksum t.data t.length }) }
        = computeHeaderChecksum { font with tables := ts.map (fun t => if t.tag = kHeadTableTag then
            { h1 with
              data := storeU32At (storeU32At h1.data 8 0) 8 adjv,
              checksum := computeChecksum (storeU32At h1.data 8 0)
                h1.length }
          else { t with checksum :=
            computeChecksum t.data t.length }) } := by
      rw [computeHeaderChecksum_eq, computeHeaderChecksum_eq]
      dsimp only
      have hg : (ts.map
          (fun t => if t.tag = kHeadTableTag then
            { h1 with
              data := storeU32At h1.data 8 0,
              checksum := computeChecksum (storeU32At h1.data 8 0)
                h1.length }
          else { t with checksum := computeChecksum t.data t.length })).map
          (fun t => t.tag + t.checksum + t.offset + t.length)
          = (ts.map
          (fun t => if t.tag = kHeadTableTag then
            { h1 with
              data := storeU32At (storeU32At h1.data 8 0) 8 adjv,
              checksum := computeChecksum (storeU32At h1.data 8 0)
                h1.length }
          else { t with checksum := computeChecksum t.data t.length })).map
          (fun t => t.tag + t.checksum + t.offset + t.length) := by
        rw [List.map_map, List.map_map]
        apply List.map_congr_left
        intro t ht
        simp only [Function.comp]
        by_cases h : t.tag = kHeadTableTag
        · rw [if_pos h, if_pos h]
        · rw [if_neg h, if_neg h]
      rw [hg]
    obtain ⟨S, hSa, hSb⟩ := sum_map_if_unique ts h1
      ((computeChecksum (storeU32At h1.data 8 0) h1.length + adjv) % 2 ^ 32)
      (computeChecksum (storeU32At h1.data 8 0) h1.length)
      (fun t => computeChecksum t.data t.length) hnd hfind
    simp only [] at hSa hSb
    rw [hchkmapM, hSa] at hchk
    rw [hSb, hHH] at hadj
    rw [sub32] at hadj
    rw [hchk]
    omega

/-- The encoder's whole-file checksum law: after `NormalizeOffsets` and
`FixChecksums`, `WriteFont` emits a file whose mod-2^32 big-endian word sum
is exactly 0xB1B0AFBA — provided each table's payload bytes from `length`
up to the next 4-byte boundary are zero (`ComputeChecksum` sums
`Round4 length` payload bytes while `WriteFont` zeroes the file padding,
so nonzero payload padding breaks the law; see the counterexample). -/
theorem encoder_checksum_law (font : SfntFont) (headT : FontTable)
    (hnum : font.numTables = font.tables.length)
    (hnt : font.numTables < 2 ^ 16)
    (hnd : (font.tables.map (fun t : FontTable => t.tag)).Nodup)
    (hfind : findTable font kHeadTableTag = some headT)
    (hhlen : 12 ≤ headT.length)
    (hdata : ∀ t ∈ font.tables, t.length ≤ t.data.length)
    (hpad : ∀ t ∈ font.tables, ∀ i, t.length ≤ i → i < Round4 t.length →
      t.data.getD i 0 = 0)
    (hM : 12 + 16 * font.numTables
      + (font.tables.map (fun t => Round4 t.length)).sum < 2 ^ 32) :
    ∃ f2 out,
      fixChecksums (normalizeOffsets font) = some f2 ∧
      writeFont f2 (fontFileSize f2) = some out ∧
      computeChecksum out (fontFileSize f2) = 0xB1B0AFBA := by
  have hbase : (12 + 16 * font.numTables) % 2 ^ 32
      = 12 + 16 * font.numTables := Nat.mod_eq_of_lt (by omega)
  have hnorm : normalizeOffsets font
      = { font with tables := (normalizeOffsetsGo
          (12 + 16 * font.numTables) font.tables) } := by
    rw [normalizeOffsets, hbase]
  obtain ⟨h1, hfind1, h1tag, h1chk, h1len, h1data⟩ :=
    findTable_normalizeOffsets hfind
  rw [hnorm] at hfind1
  have hfind1' : (normalizeOffsetsGo (12 + 16 * font.numTables)
      font.tables).find? (·.tag == kHeadTableTag) = some h1 := hfind1
  have htags1 : (normalizeOffsetsGo (12 + 16 * font.numTables)
        font.tables).map (fun t : FontTable => t.tag)
      = font.tables.map (fun t : FontTable => t.tag) :=
    normalizeOffsetsGo_map_inv (fun t : FontTable => t.tag)
      (fun _ _ => rfl) _ _
  have hnd1 : ((normalizeOffsetsGo (12 + 16 * font.numTables)
      font.tables).map (fun t : FontTable => t.tag)).Nodup := by
    rw [htags1]; exact hnd
  have hlen1 : (normalizeOffsetsGo (12 + 16 * font.numTables)
      font.tables).length = font.tables.length := by
    have h := congrArg List.length htags1
    rwa [List.length_map, List.length_map] at h
  have hr4map1 : (normalizeOffsetsGo (12 + 16 * font.numTables)
        font.tables).map (fun t => Round4 t.length)
      = font.tables.map (fun t => Round4 t.length) :=
    normalizeOffsetsGo_map_inv (fun t : FontTable => Round4 t.length)
      (fun _ _ => rfl) _ _
  have hdata1 : ∀ t ∈ normalizeOffsetsGo (12 + 16 * font.numTables)
      font.tables, t.length ≤ t.data.length := by
    intro t ht
    obtain ⟨t0, ht0, _, _, hlen0, hdata0⟩ := normalizeOffsetsGo_mem _ _ _ ht
    rw [hlen0, hdata0]
    exact hdata t0 ht0
  have hpad1 : ∀ t ∈ normalizeOffsetsGo (12 + 16 * font.numTables)
      font.tables, ∀ i, t.length ≤ i → i < Round4 t.length →
      t.data.getD i 0 = 0 := by
    intro t ht i hi1 hi2
    obtain ⟨t0, ht0, _, _, hlen0, hdata0⟩ := normalizeOffsetsGo_mem _ _ _ ht
    rw [hdata0]
    rw [hlen0] at hi1 hi2
    exact hpad t0 ht0 i hi1 hi2
  have hlay1 : layoutFrom (12 + 16 * font.numTables)
      (normalizeOffsetsGo (12 + 16 * font.numTables) font.tables) :=
    layoutFrom_normalizeOffsetsGo font.tables _ (by omega)
  have hmem1 : h1 ∈ normalizeOffsetsGo (12 + 16 * font.numTables)
      font.tables := List.mem_of_find?_eq_some hfind1'
  have huniq : ∀ t ∈ normalizeOffsetsGo (12 + 16 * font.numTables)
      font.tables, t.tag = kHeadTableTag → t = h1 :=
    find?_unique_of_nodup _ kHeadTableTag h1 hnd1 hfind1'
  have h1len12 : 12 ≤ h1.length := by rw [h1len]; exact hhlen
  have h1dlen : h1.length ≤ h1.data.length := hdata1 h1 hmem1
  have hfix := fixChecksums_spec { font with tables := (normalizeOffsetsGo
      (12 + 16 * font.numTables) font.tables) } h1 hfind1 (by omega)
  have hfix2 : fixChecksums (normalizeOffsets font) = some { font with
      tables := (normalizeOffsetsGo (12 + 16 * font.numTables)
        font.tables).map (fun t =>
        if t.tag = kHeadTableTag then
          { h1 with
            data := storeU32At (storeU32At h1.data 8 0) 8
              (sub32 0xb1b0afba
                ((((normalizeOffsetsGo (12 + 16 * font.numTables)
                    font.tables).map (fun t =>
                    if t.tag = kHeadTableTag then
                      computeChecksum (storeU32At h1.data 8 0) h1.length
                    else computeChecksum t.data t.length)).sum
                  + computeHeaderChecksum { font with
                      tables := (normalizeOffsetsGo
                        (12 + 16 * font.numTables) font.tables).map
                        (fun t => if t.tag = kHeadTableTag then
                          { h1 with
                            data := storeU32At h1.data 8 0,
                            checksum := computeChecksum
                              (storeU32At h1.data 8 0) h1.length }
                        else { t with checksum :=
                          computeChecksum t.data t.length }) })
                % 2 ^ 32)),
            checksum := computeChecksum (storeU32At h1.data 8 0)
              h1.length }
        else { t with checksum := computeChecksum t.data t.length }) } := by
    rw [hnorm]
    exact hfix
  obtain ⟨out, hwf, hval⟩ := fixed_font_checksum font
    (normalizeOffsetsGo (12 + 16 * font.numTables) font.tables) h1
    (sub32 0xb1b0afba
      ((((normalizeOffsetsGo (12 + 16 * font.numTables)
          font.tables).map (fun t =>
          if t.tag = kHeadTableTag then
            computeChecksum (storeU32At h1.data 8 0) h1.length
          else computeChecksum t.data t.length)).sum
        + computeHeaderChecksum { font with
            tables := (normalizeOffsetsGo
              (12 + 16 * font.numTables) font.tables).map
              (fun t => if t.tag = kHeadTableTag then
                { h1 with
                  data := storeU32At h1.data 8 0,
                  checksum := computeChecksum
                    (storeU32At h1.data 8 0) h1.length }
              else { t with checksum :=
                computeChecksum t.data t.length }) })
      % 2 ^ 32))
    (by rw [hlen1]; exact hnum) hnt hnd1 hfind1' h1len12 hdata1 hpad1 hlay1
    (by rw [hr4map1]; exact hM) rfl
  exact ⟨_, out, hfix2, hwf, hval⟩

/-! ### Toolkit: the decoder's reconstruction layout -/

theorem decLayout_bounds :
    ∀ (ts : List DecTable) (base : Nat), decLayoutFrom base ts →
      ∀ t ∈ ts, base ≤ t.dstOffset ∧
        t.dstOffset + Round4 t.dstLength
          ≤ base + (ts.map (fun t => Round4 t.dstLength)).sum := by
  intro ts
  induction ts with
  | nil =>
    intro base _ t ht
    simp at ht
  | cons t0 rest ih =>
    intro base hl t ht
    rw [decLayoutFrom] at hl
    obtain ⟨h1, h2⟩ := hl
    simp only [List.map_cons, List.sum_cons]
    rcases List.mem_cons.mp ht with rfl | hin
    · have hb := Round4_ge t.dstLength
      constructor
      · omega
      · omega
    · obtain ⟨ha, hb⟩ := ih (base + Round4 t0.dstLength) h2 t hin
      constructor
      · omega
      · omega

theorem decLayout_disjoint :
    ∀ (ts : List DecTable) (base : Nat), decLayoutFrom base ts →
      ∀ t1 ∈ ts, ∀ t2 ∈ ts, t1 ≠ t2 →
        t1.dstOffset + Round4 t1.dstLength ≤ t2.dstOffset ∨
        t2.dstOffset + Round4 t2.dstLength ≤ t1.dstOffset := by
  intro ts
  induction ts with
  | nil =>
    intro base _ t1 ht1
    simp at ht1
  | cons t0 rest ih =>
    intro base hl t1 ht1 t2 ht2 hne
    rw [decLayoutFrom] at hl
    obtain ⟨h1, h2⟩ := hl
    rcases List.mem_cons.mp ht1 with rfl | hin1
    · rcases List.mem_cons.mp ht2 with rfl | hin2
      · exact absurd rfl hne
      · obtain ⟨ha, _⟩ := decLayout_bounds rest _ h2 t2 hin2
        left
        omega
    · rcases List.mem_cons.mp ht2 with rfl | hin2
      · obtain ⟨ha, _⟩ := decLayout_bounds rest _ h2 t1 hin1
        right
        omega
      · exact ih _ h2 t1 hin1 t2 hin2 hne

theorem dec_sum_split (headT : DecTable)
    (hpos : 0 < Round4 headT.dstLength) :
    ∀ (ts : List DecTable) (base : Nat), decLayoutFrom base ts →
      headT ∈ ts → ∀ (a b : Nat) (c : DecTable → Nat),
      ∃ S, (ts.map (fun t => if t = headT then a else c t)).sum = S + a
        ∧ (ts.map (fun t => if t = headT then b else c t)).sum = S + b := by
  intro ts
  induction ts with
  | nil =>
    intro base _ hmem
    simp at hmem
  | cons t0 rest ih =>
    intro base hl hmem a b c
    rw [decLayoutFrom] at hl
    obtain ⟨h1, h2⟩ := hl
    by_cases h0 : t0 = headT
    · subst h0
      have hnot : t0 ∉ rest := by
        intro hin
        obtain ⟨ha, _⟩ := decLayout_bounds rest _ h2 t0 hin
        omega
      have hca : rest.map (fun t => if t = t0 then a else c t)
          = rest.map c := List.map_congr_left (fun t ht => by
            rw [if_neg (by intro he; exact hnot (he ▸ ht))])
      have hcb : rest.map (fun t => if t = t0 then b else c t)
          = rest.map c := List.map_congr_left (fun t ht => by
            rw [if_neg (by intro he; exact hnot (he ▸ ht))])
      refine ⟨(rest.map c).sum, ?_, ?_⟩
      · simp only [List.map_cons, List.sum_cons, if_true, eq_self_iff_true]
        rw [hca]
        omega
      · simp only [List.map_cons, List.sum_cons, if_true, eq_self_iff_true]
        rw [hcb]
        omega
    · have hmem2 : headT ∈ rest := by
        rcases List.mem_cons.mp hmem with he | hin
        · exact absurd he.symm h0
        · exact hin
      obtain ⟨S, hS1, hS2⟩ := ih _ h2 hmem2 a b c
      refine ⟨c t0 + S, ?_, ?_⟩
      · simp only [List.map_cons, List.sum_cons]
        rw [if_neg h0, hS1]
        omega
      · simp only [List.map_cons, List.sum_cons]
        rw [if_neg h0, hS2]
        omega

theorem take_writeAt_le {l : List Nat} {o d : Nat} {b : List Nat}
    (hd : d ≤ o) (h : o ≤ l.length) :
    (writeAt l o b).take d = l.take d := by
  have h1 : (l.take o).length = o := by rw [List.length_take]; omega
  have h2 : (l.take o ++ b).length = o + b.length := by
    rw [List.length_append, h1]
  rw [writeAt, List.take_append_eq_append_take,
    List.take_append_eq_append_take, h1, h2, List.take_take,
    show d ⊓ o = d from by omega, show d - o = 0 from by omega,
    List.take_zero, show d - (o + b.length) = 0 from by omega,
    List.take_zero, List.append_nil, List.append_nil]

theorem getD_drop (l : List Nat) (o i : Nat) :
    (l.drop o).getD i 0 = l.getD (o + i) 0 := by
  rw [List.getD_eq_getElem?_getD, List.getD_eq_getElem?_getD,
    List.getElem?_drop]

theorem computeULongSum_congr_at {X Y : List Nat} (o len : Nat)
    (h : ∀ j, j < Round4 len → X.getD (o + j) 0 = Y.getD (o + j) 0) :
    computeULongSum (X.drop o) len = computeULongSum (Y.drop o) len := by
  rw [computeULongSum, computeULongSum]
  apply computeChecksum_congr
  intro i hi
  by_cases hl : i < len
  · rw [getD_take_of_lt hl, getD_take_of_lt hl, getD_drop, getD_drop]
    exact h i hi
  · rw [List.getD_eq_default _ _ (by rw [List.length_take]; omega),
      List.getD_eq_default _ _ (by rw [List.length_take]; omega)]

theorem drop_take_storeU32At (L : List Nat) (o v len : Nat)
    (h12 : 12 ≤ len) (hlen : o + len ≤ L.length) :
    ((storeU32At L (o + 8) v).drop o).take len
      = storeU32At ((L.drop o).take len) 8 v := by
  have hsp : storeU32At L (o + 8) v
      = L.take (o + 8) ++ (storeU32Bytes v ++ L.drop (o + 12)) := by
    rw [storeU32At, writeAt, length_storeU32Bytes,
      show o + 8 + 4 = o + 12 from by omega, List.append_assoc]
  rw [hsp, List.drop_append_eq_append_drop]
  have h1 : (L.take (o + 8)).length = o + 8 := by
    rw [List.length_take]; omega
  rw [h1, show o - (o + 8) = 0 from by omega, List.drop_zero,
    List.drop_take, show o + 8 - o = 8 from by omega,
    List.take_append_eq_append_take]
  have h2 : ((L.drop o).take 8).length = 8 := by
    rw [List.length_take, List.length_drop]; omega
  rw [h2, List.take_take, show len ⊓ 8 = 8 from by omega,
    List.take_append_eq_append_take, length_storeU32Bytes,
    @List.take_of_length_le Nat (len - 8) (storeU32Bytes v)
      (by rw [length_storeU32Bytes]; omega),
    show len - 8 - 4 = len - 12 from by omega]
  rw [storeU32At, writeAt, length_storeU32Bytes,
    show (8:Nat) + 4 = 12 from rfl, List.take_take,
    show (8:Nat) ⊓ len = 8 from by omega, List.drop_take,
    List.drop_drop]
  rw [List.append_assoc]

theorem decFixChecksumsGo_spec (H : Nat) :
    ∀ (ts : List DecTable) (i : Nat) (dst : List Nat) (acc : Nat),
      acc < 2 ^ 32 →
      12 + 16 * i + 16 * ts.length ≤ H → H ≤ dst.length →
      (∀ t ∈ ts, H ≤ t.dstOffset) →
      (decFixChecksumsGo ts i dst acc).1.drop H = dst.drop H
        ∧ (decFixChecksumsGo ts i dst acc).1.length = dst.length
        ∧ (decFixChecksumsGo ts i dst acc).2
          = (acc + (ts.map (fun t =>
              computeULongSum (dst.drop t.dstOffset) t.dstLength)).sum)
            % 2 ^ 32 := by
  intro ts
  induction ts with
  | nil =>
    intro i dst acc hacc _ _ _
    rw [decFixChecksumsGo]
    refine ⟨rfl, rfl, ?_⟩
    simp only [List.map_nil, List.sum_nil, Nat.add_zero]
    omega
  | cons t rest ih =>
    intro i dst acc hacc hiH hH hoff
    rw [decFixChecksumsGo]
    rw [decComputeChecksum]
    have hwlen : 12 + 16 * i + 4 + 4 ≤ H := by
      simp only [List.length_cons] at hiH
      omega
    have hdstlen : (storeU32At dst (12 + 16 * i + 4)
        (computeULongSum (dst.drop t.dstOffset) t.dstLength)).length
        = dst.length :=
      length_storeU32At _ _ _ (by omega)
    have hdrop : ∀ d, H ≤ d → (storeU32At dst (12 + 16 * i + 4)
        (computeULongSum (dst.drop t.dstOffset) t.dstLength)).drop d
        = dst.drop d := by
      intro d hd
      rw [storeU32At]
      exact drop_writeAt (by rw [length_storeU32Bytes]; omega)
        (by rw [length_storeU32Bytes]; omega)
    obtain ⟨ih1, ih2, ih3⟩ := ih (i + 1)
      (storeU32At dst (12 + 16 * i + 4)
        (computeULongSum (dst.drop t.dstOffset) t.dstLength))
      ((acc + computeULongSum (dst.drop t.dstOffset) t.dstLength) % 2 ^ 32)
      (Nat.mod_lt _ (by norm_num))
      (by simp only [List.length_cons] at hiH; omega)
      (by rw [hdstlen]; exact hH)
      (fun t2 ht2 => hoff t2 (by simp [ht2]))
    refine ⟨?_, ?_, ?_⟩
    · rw [ih1, hdrop H (le_refl H)]
    · rw [ih2, hdstlen]
    · rw [ih3]
      have hmapeq : rest.map (fun t2 => computeULongSum
          ((storeU32At dst (12 + 16 * i + 4)
            (computeULongSum (dst.drop t.dstOffset)
              t.dstLength)).drop t2.dstOffset) t2.dstLength)
          = rest.map (fun t2 => computeULongSum (dst.drop t2.dstOffset)
            t2.dstLength) := by
        apply List.map_congr_left
        intro t2 ht2
        rw [hdrop t2.dstOffset (hoff t2 (by simp [ht2]))]
      rw [hmapeq]
      simp only [List.map_cons, List.sum_cons]
      omega

/-- Tiling of the decoder's output: the word sum of the payload area equals
the sum of the per-table checksums (mod 2^32), given zeroed padding. -/
theorem dec_regions_sum (dst : List Nat) :
    ∀ (ts : List DecTable) (base : Nat),
      decLayoutFrom base ts →
      (∀ t ∈ ts, ∀ k, t.dstLength ≤ k → k < Round4 t.dstLength →
        dst.getD (t.dstOffset + k) 0 = 0) →
      base + (ts.map (fun t => Round4 t.dstLength)).sum ≤ dst.length →
      computeChecksum (dst.drop base)
          ((ts.map (fun t => Round4 t.dstLength)).sum)
        = ((ts.map (fun t =>
            computeULongSum (dst.drop t.dstOffset) t.dstLength)).sum)
          % 2 ^ 32 := by
  intro ts
  induction ts with
  | nil =>
    intro base _ _ _
    simp only [List.map_nil, List.sum_nil]
    rw [computeChecksum_zero]
    omega
  | cons t rest ih =>
    intro base hl hpads hlen
    rw [decLayoutFrom] at hl
    obtain ⟨h1, h2⟩ := hl
    simp only [List.map_cons, List.sum_cons] at hlen ⊢
    have hsplit : dst.drop base
        = (dst.drop base).take (Round4 t.dstLength)
          ++ dst.drop (base + Round4 t.dstLength) := by
      rw [show dst.drop (base + Round4 t.dstLength)
          = (dst.drop base).drop (Round4 t.dstLength) from by
        rw [List.drop_drop]]
      rw [List.take_append_drop]
    have htake : ((dst.drop base).take (Round4 t.dstLength)).length
        = Round4 t.dstLength := by
      rw [List.length_take, List.length_drop]; omega
    rw [hsplit]
    rw [show Round4 t.dstLength
          + (rest.map (fun t => Round4 t.dstLength)).sum
        = ((dst.drop base).take (Round4 t.dstLength)).length
          + (rest.map (fun t => Round4 t.dstLength)).sum from by
      rw [htake]]
    rw [computeChecksum_append _ _ _ (by rw [htake]; exact Round4_dvd _)]
    rw [htake]
    have hblock : computeChecksum
        ((dst.drop base).take (Round4 t.dstLength)) (Round4 t.dstLength)
        = computeULongSum (dst.drop t.dstOffset) t.dstLength := by
      rw [computeULongSum, h1, computeChecksum_Round4]
      apply computeChecksum_congr
      intro i hi
      by_cases hil : i < t.dstLength
      · rw [getD_take_of_lt hil,
          getD_take_of_lt (by have := Round4_ge t.dstLength; omega)]
      · have hz := hpads t (by simp) i (by omega) hi
        rw [h1] at hz
        rw [getD_take_of_lt hi, getD_drop, hz,
          List.getD_eq_default _ _
            (show (List.take t.dstLength (dst.drop base)).length ≤ i from by
              rw [List.length_take]; omega)]
    rw [hblock, ih _ h2 (fun t2 ht2 => hpads t2 (by simp [ht2])) (by omega)]
    omega

/-- The decoder's `FixChecksums` leaves the reconstructed file summing to
the sfnt magic: per-table checksums are written into the directory before
the directory itself is summed, and the head adjustment cancels the rest. -/
theorem decoder_checksum_law (tables : List DecTable) (dst : List Nat)
    (headT : DecTable)
    (hfind : tables.find? (·.tag == kHeadTableTag) = some headT)
    (hhlen : 12 ≤ headT.dstLength)
    (hlay : decLayoutFrom (12 + 16 * tables.length) tables)
    (hpads : ∀ t ∈ tables, ∀ k, t.dstLength ≤ k → k < Round4 t.dstLength →
      dst.getD (t.dstOffset + k) 0 = 0)
    (hdst : dst.length = 12 + 16 * tables.length
      + (tables.map (fun t => Round4 t.dstLength)).sum) :
    ∃ out, decFixChecksums tables dst = some out
      ∧ out.length = dst.length
      ∧ computeChecksum out dst.length = 0xB1B0AFBA := by
  have hmem : headT ∈ tables := List.mem_of_find?_eq_some hfind
  obtain ⟨hlow, hhigh⟩ := decLayout_bounds tables _ hlay headT hmem
  have hr4h := Round4_ge headT.dstLength
  have hA4 : headT.dstOffset + 8 + 4 ≤ dst.length := by omega
  rw [decFixChecksums, hfind]
  dsimp only
  rw [if_neg (by omega)]
  set dst1 := storeU32At dst (headT.dstOffset + 8) 0 with hdst1
  have hd1len : dst1.length = dst.length := by
    rw [hdst1]; exact length_storeU32At _ _ _ hA4
  obtain ⟨hg1, hg2, hg3⟩ := decFixChecksumsGo_spec (12 + 16 * tables.length)
    tables 0 dst1 0 (by norm_num) (by omega) (by rw [hd1len]; omega)
    (fun t ht => (decLayout_bounds tables _ hlay t ht).1)
  set r1 := (decFixChecksumsGo tables 0 dst1 0).1 with hr1
  set r2 := (decFixChecksumsGo tables 0 dst1 0).2 with hr2
  set adj := sub32 0xb1b0afba
    ((r2 + computeULongSum r1 (12 + 16 * tables.length)) % 2 ^ 32) with hadj
  set out0 := storeU32At r1 (headT.dstOffset + 8) adj with hout0
  have hr1len : r1.length = dst.length := by rw [hg2, hd1len]
  have hout0len : out0.length = dst.length := by
    rw [hout0, length_storeU32At _ _ _ (by rw [hr1len]; exact hA4), hr1len]
  refine ⟨out0, rfl, hout0len, ?_⟩
  have hbyte : ∀ p, 12 + 16 * tables.length ≤ p →
      r1.getD p 0 = dst1.getD p 0 := by
    intro p hp
    have h : (r1.drop (12 + 16 * tables.length)).getD
        (p - (12 + 16 * tables.length)) 0
        = (dst1.drop (12 + 16 * tables.length)).getD
          (p - (12 + 16 * tables.length)) 0 := by rw [hg1]
    rw [getD_drop, getD_drop,
      show 12 + 16 * tables.length + (p - (12 + 16 * tables.length)) = p
        from by omega] at h
    exact h
  have hout : ∀ t ∈ tables, ∀ k, t.dstLength ≤ k → k < Round4 t.dstLength →
      (t.dstOffset + k < headT.dstOffset + 8
        ∨ headT.dstOffset + 8 + 4 ≤ t.dstOffset + k) := by
    intro t ht k hk1 hk2
    by_cases he : t = headT
    · subst he
      right; omega
    · rcases decLayout_disjoint tables _ hlay t ht headT hmem he with hd | hd
      · left; omega
      · right; omega
  have hpads1 : ∀ t ∈ tables, ∀ k, t.dstLength ≤ k → k < Round4 t.dstLength →
      dst1.getD (t.dstOffset + k) 0 = 0 := by
    intro t ht k hk1 hk2
    rw [hdst1, getD_storeU32At_outside hA4 (hout t ht k hk1 hk2)]
    exact hpads t ht k hk1 hk2
  have hpads0 : ∀ t ∈ tables, ∀ k, t.dstLength ≤ k → k < Round4 t.dstLength →
      out0.getD (t.dstOffset + k) 0 = 0 := by
    intro t ht k hk1 hk2
    have hHp : 12 + 16 * tables.length ≤ t.dstOffset + k :=
      le_trans (decLayout_bounds tables _ hlay t ht).1 (Nat.le_add_right _ _)
    rw [hout0, getD_storeU32At_outside (by rw [hr1len]; exact hA4)
      (hout t ht k hk1 hk2), hbyte _ hHp]
    exact hpads1 t ht k hk1 hk2
  have hsplitO : out0 = out0.take (12 + 16 * tables.length)
      ++ out0.drop (12 + 16 * tables.length) :=
    (List.take_append_drop _ _).symm
  have htakeO : (out0.take (12 + 16 * tables.length)).length
      = 12 + 16 * tables.length := by
    rw [List.length_take, hout0len]; omega
  have htake1 : out0.take (12 + 16 * tables.length)
      = r1.take (12 + 16 * tables.length) := by
    rw [hout0, storeU32At]
    exact take_writeAt_le (by omega) (by rw [hr1len]; omega)
  have hpiece1 : computeChecksum (out0.take (12 + 16 * tables.length))
      (12 + 16 * tables.length)
      = computeULongSum r1 (12 + 16 * tables.length) := by
    rw [htake1, computeULongSum]
  have hpiece2 := dec_regions_sum out0 tables (12 + 16 * tables.length)
    hlay hpads0 (by rw [hout0len]; omega)
  have hoffl : headT.dstOffset + headT.dstLength ≤ dst.length := by omega
  have hTd : ((dst.drop headT.dstOffset).take headT.dstLength).length
      = headT.dstLength := by
    rw [List.length_take, List.length_drop]; omega
  have hdt1 : (dst1.drop headT.dstOffset).take headT.dstLength
      = storeU32At ((dst.drop headT.dstOffset).take headT.dstLength) 8 0 := by
    rw [hdst1]
    exact drop_take_storeU32At dst headT.dstOffset 0 headT.dstLength hhlen hoffl
  have hdropeq : r1.drop headT.dstOffset = dst1.drop headT.dstOffset := by
    have h := congrArg
      (List.drop (headT.dstOffset - (12 + 16 * tables.length))) hg1
    rw [List.drop_drop, List.drop_drop,
      show 12 + 16 * tables.length
        + (headT.dstOffset - (12 + 16 * tables.length)) = headT.dstOffset
        from by omega] at h
    exact h
  have hot : (out0.drop headT.dstOffset).take headT.dstLength
      = storeU32At ((dst.drop headT.dstOffset).take headT.dstLength)
        8 adj := by
    rw [hout0,
      drop_take_storeU32At r1 headT.dstOffset adj headT.dstLength hhlen
        (by rw [hr1len]; exact hoffl),
      hdropeq, hdt1,
      storeU32At_storeU32At ((dst.drop headT.dstOffset).take headT.dstLength)
        8 0 adj (by rw [hTd]; omega)]
  have hheadpiece : computeULongSum (out0.drop headT.dstOffset)
      headT.dstLength
      = (computeULongSum (dst1.drop headT.dstOffset) headT.dstLength + adj)
        % 2 ^ 32 := by
    rw [computeULongSum, computeULongSum, hot, hdt1,
      computeChecksum_store_delta
        ((dst.drop headT.dstOffset).take headT.dstLength)
        headT.dstLength adj hhlen (le_of_eq hTd.symm)]
  have hmapO : tables.map (fun t =>
        computeULongSum (out0.drop t.dstOffset) t.dstLength)
      = tables.map (fun t => if t = headT
          then (computeULongSum (dst1.drop headT.dstOffset) headT.dstLength
            + adj) % 2 ^ 32
          else computeULongSum (dst1.drop t.dstOffset) t.dstLength) := by
    apply List.map_congr_left
    intro t ht
    by_cases he : t = headT
    · subst he
      rw [if_pos rfl]
      exact hheadpiece
    · rw [if_neg he]
      apply computeULongSum_congr_at
      intro j hj
      have hHj : 12 + 16 * tables.length ≤ t.dstOffset + j :=
        le_trans (decLayout_bounds tables _ hlay t ht).1 (Nat.le_add_right _ _)
      have hw : t.dstOffset + j < headT.dstOffset + 8
          ∨ headT.dstOffset + 8 + 4 ≤ t.dstOffset + j := by
        rcases decLayout_disjoint tables _ hlay t ht headT hmem he with hd | hd
        · left; omega
        · right; omega
      rw [hout0, getD_storeU32At_outside (by rw [hr1len]; exact hA4) hw,
        hbyte _ hHj]
  have hmapD : tables.map (fun t =>
        computeULongSum (dst1.drop t.dstOffset) t.dstLength)
      = tables.map (fun t => if t = headT
          then computeULongSum (dst1.drop headT.dstOffset) headT.dstLength
          else computeULongSum (dst1.drop t.dstOffset) t.dstLength) := by
    apply List.map_congr_left
    intro t ht
    by_cases he : t = headT
    · subst he
      rw [if_pos rfl]
    · rw [if_neg he]
  obtain ⟨S, hSa, hSb⟩ := dec_sum_split headT (by omega) tables
    (12 + 16 * tables.length) hlay hmem
    ((computeULongSum (dst1.drop headT.dstOffset) headT.dstLength + adj)
      % 2 ^ 32)
    (computeULongSum (dst1.drop headT.dstOffset) headT.dstLength)
    (fun t => computeULongSum (dst1.drop t.dstOffset) t.dstLength)
  have hSa2 : (tables.map (fun t => if t = headT
      then (computeULongSum (dst1.drop headT.dstOffset) headT.dstLength
        + adj) % 2 ^ 32
      else computeULongSum (dst1.drop t.dstOffset) t.dstLength)).sum
      = S + (computeULongSum (dst1.drop headT.dstOffset) headT.dstLength
        + adj) % 2 ^ 32 := hSa
  have hSb2 : (tables.map (fun t => if t = headT
      then computeULongSum (dst1.drop headT.dstOffset) headT.dstLength
      else computeULongSum (dst1.drop t.dstOffset) t.dstLength)).sum
      = S + computeULongSum (dst1.drop headT.dstOffset) headT.dstLength :=
    hSb
  rw [hdst, hsplitO,
    show 12 + 16 * tables.length
        + (tables.map (fun t => Round4 t.dstLength)).sum
      = (out0.take (12 + 16 * tables.length)).length
        + (tables.map (fun t => Round4 t.dstLength)).sum from by
      rw [htakeO],
    computeChecksum_append (out0.take (12 + 16 * tables.length))
      (out0.drop (12 + 16 * tables.length))
      ((tables.map (fun t => Round4 t.dstLength)).sum)
      (by rw [htakeO]; exact ⟨3 + 4 * tables.length, by ring⟩),
    htakeO, hpiece1, hpiece2, hmapO, hSa2]
  rw [hmapD, hSb2] at hg3
  rw [sub32] at hadj
  omega

/-- `Nat.log2` agrees with its structural twin when the fuel covers `n`. -/
theorem log2_eq_fuel : ∀ (f n : Nat), n ≤ f → Nat.log2 n = log2Fuel f n := by
  intro f
  induction f with
  | zero =>
    intro n hn
    have h0 : n = 0 := by omega
    subst h0
    rw [Nat.log2, log2Fuel]
    norm_num
  | succ f ih =>
    intro n hn
    rw [Nat.log2, log2Fuel]
    by_cases h : 2 ≤ n
    · rw [if_pos h, if_pos h, ih (n / 2) (by omega)]
    · rw [if_neg h, if_neg h]

theorem sfntMaxPow2_eq_fuel (fuel n : Nat) (h : n ≤ fuel) :
    sfntMaxPow2 n = sfntMaxPow2Fuel fuel n := by
  rw [sfntMaxPow2, sfntMaxPow2Fuel, log2_eq_fuel fuel n h]

theorem sfntSearchRange_eq_fuel (fuel n : Nat) (h : n ≤ fuel) :
    sfntSearchRange n = sfntSearchRangeFuel fuel n := by
  rw [sfntSearchRange, sfntSearchRangeFuel, sfntMaxPow2_eq_fuel fuel n h]

theorem sfntRangeShift_eq_fuel (fuel n : Nat) (h : n ≤ fuel) :
    sfntRangeShift n = sfntRangeShiftFuel fuel n := by
  rw [sfntRangeShift, sfntRangeShiftFuel, sfntSearchRange_eq_fuel fuel n h]

theorem computeHeaderChecksum_eq_fuel (fuel : Nat) (font : SfntFont)
    (h : font.numTables ≤ fuel) :
    computeHeaderChecksum font = computeHeaderChecksumFuel fuel font := by
  rw [computeHeaderChecksum, computeHeaderChecksumFuel,
    sfntSearchRange_eq_fuel fuel _ h, sfntMaxPow2_eq_fuel fuel _ h,
    sfntRangeShift_eq_fuel fuel _ h]

/-- `writeFont` agrees with its fuel twin when the fuel covers the table
count. -/
theorem writeFont_eq_fuel (fuel : Nat) (font : SfntFont) (dstSize : Nat)
    (h : font.numTables ≤ fuel) :
    writeFont font dstSize = writeFontFuel fuel font dstSize := by
  rw [writeFont, writeFontFuel, sfntSearchRange_eq_fuel fuel _ h,
    sfntMaxPow2_eq_fuel fuel _ h, sfntRangeShift_eq_fuel fuel _ h]

/-- `fixChecksums` agrees with its fuel twin when the fuel covers every
table length. -/
theorem fixChecksums_eq_fuel (font : SfntFont) (fuel : Nat)
    (hb : ∀ t ∈ font.tables, t.length ≤ fuel)
    (hn : font.numTables ≤ fuel) :
    fixChecksums font = fixChecksumsFuel fuel font := by
  rw [fixChecksums, fixChecksumsFuel]
  cases hfind : findTable font kHeadTableTag with
  | none => rfl
  | some head =>
    dsimp only
    by_cases hl : head.length < 12
    · rw [if_pos hl, if_pos hl]
    · rw [if_neg hl, if_neg hl]
      have hmap : (updateTable font kHeadTableTag
            { head with data := storeU32At head.data 8 0 }).tables.map
            (fun t => { t with checksum := computeChecksum t.data t.length })
          = (updateTable font kHeadTableTag
            { head with data := storeU32At head.data 8 0 }).tables.map
            (fun t => { t with checksum := computeChecksumFuel fuel t.data t.length }) := by
        apply List.map_congr_left
        intro t ht
        rw [updateTable] at ht
        simp only [List.mem_map] at ht
        obtain ⟨t0, ht0, he⟩ := ht
        have hmem2 : head ∈ font.tables := by
          rw [findTable] at hfind
          exact List.mem_of_find?_eq_some hfind
        have hlen : t.length ≤ fuel := by
          by_cases h0 : t0.tag = kHeadTableTag
          · rw [if_pos h0] at he
            rw [← he]
            exact hb head hmem2
          · rw [if_neg h0] at he
            rw [← he]
            exact hb t0 ht0
        rw [computeChecksum_eq_fuel fuel t.data t.length hlen]
      rw [hmap,
        computeHeaderChecksum_eq_fuel fuel
          { updateTable font kHeadTableTag
              { head with data := storeU32At head.data 8 0 } with
            tables := (updateTable font kHeadTableTag
              { head with data := storeU32At head.data 8 0 }).tables.map
              (fun t => { t with checksum := computeChecksumFuel fuel t.data t.length }) }
          hn]

/-- C3 (amended): the emitted-sfnt checksum law, on both sides of the
codec.  Encoder side: for a font whose table payloads are zero on the
padding bytes `[length, Round4 length)` — true of every conformant sfnt
table buffer — `FixChecksums` after `NormalizeOffsets` followed by
`WriteFont` yields a file whose mod-2^32 big-endian word sum is 0xB1B0AFBA.
(The zero-padding hypothesis is necessary: `ComputeChecksum` in
normalize.cc reads `Round4 length` bytes from the *source* buffer while
`WriteFont` zeroes the *file* padding, so garbage past `length` breaks the
law — see the counterexample.)  Decoder side: `FixChecksums` in woff2_dec.cc
on a reconstructed buffer with the decoder's consecutive zero-padded table
layout yields a file whose word sum is 0xB1B0AFBA. -/
theorem c3_checksum_law :
    (∀ (font : SfntFont) (headT : FontTable),
      font.numTables = font.tables.length →
      font.numTables < 2 ^ 16 →
      (font.tables.map (fun t : FontTable => t.tag)).Nodup →
      findTable font kHeadTableTag = some headT →
      12 ≤ headT.length →
      (∀ t ∈ font.tables, t.length ≤ t.data.length) →
      (∀ t ∈ font.tables, ∀ i, t.length ≤ i → i < Round4 t.length →
        t.data.getD i 0 = 0) →
      12 + 16 * font.numTables
        + (font.tables.map (fun t => Round4 t.length)).sum < 2 ^ 32 →
      ∃ f2 out,
        fixChecksums (normalizeOffsets font) = some f2 ∧
        writeFont f2 (fontFileSize f2) = some out ∧
        computeChecksum out (fontFileSize f2) = 0xB1B0AFBA)
    ∧ (∀ (tables : List DecTable) (dst : List Nat) (headT : DecTable),
      tables.find? (·.tag == kHeadTableTag) = some headT →
      12 ≤ headT.dstLength →
      decLayoutFrom (12 + 16 * tables.length) tables →
      (∀ t ∈ tables, ∀ k, t.dstLength ≤ k → k < Round4 t.dstLength →
        dst.getD (t.dstOffset + k) 0 = 0) →
      dst.length = 12 + 16 * tables.length
        + (tables.map (fun t => Round4 t.dstLength)).sum →
      ∃ out, decFixChecksums tables dst = some out
        ∧ out.length = dst.length
        ∧ computeChecksum out dst.length = 0xB1B0AFBA) := by
  constructor
  · intro font headT hnum hnt hnd hfind hhlen hdata hpad hM
    exact encoder_checksum_law font headT hnum hnt hnd hfind hhlen hdata
      hpad hM
  · intro tables dst headT hfind hhlen hlay hpads hdst
    exact decoder_checksum_law tables dst headT hfind hhlen hlay hpads hdst

/-- Witness for C3: a one-table font (a 12-byte all-zero `head`) on the
encoder side, and a one-table reconstructed buffer on the decoder side;
both hypothesis sets are discharged concretely. -/
theorem c3_checksum_law_witness :
    (∃ f2 out,
      fixChecksums (normalizeOffsets
        ⟨0x00010000, 1, [⟨0x68656164, 0, 0, 12, List.replicate 12 0⟩]⟩)
        = some f2
      ∧ writeFont f2 (fontFileSize f2) = some out
      ∧ computeChecksum out (fontFileSize f2) = 0xB1B0AFBA)
    ∧ (∃ out,
      decFixChecksums [⟨0x68656164, 0, 0, 0, 0, 28, 12⟩]
        (List.replicate 40 0) = some out
      ∧ out.length = (List.replicate 40 0).length
      ∧ computeChecksum out (List.replicate 40 0).length = 0xB1B0AFBA) := by
  constructor
  · exact c3_checksum_law.1
      ⟨0x00010000, 1, [⟨0x68656164, 0, 0, 12, List.replicate 12 0⟩]⟩
      ⟨0x68656164, 0, 0, 12, List.replicate 12 0⟩
      (by decide) (by decide) (by decide) rfl (by decide) (by decide)
      (by
        intro t ht i h1 h2
        have he : t = ⟨0x68656164, 0, 0, 12, List.replicate 12 0⟩ :=
          List.mem_singleton.mp ht
        rw [he] at h1 h2
        have hr : Round4 (FontTable.mk 0x68656164 0 0 12
            (List.replicate 12 0)).length = 12 := by decide
        have hl : (FontTable.mk 0x68656164 0 0 12
            (List.replicate 12 0)).length = 12 := by decide
        rw [hr] at h2
        rw [hl] at h1
        exact absurd h2 (by omega))
      (by decide)
  · exact c3_checksum_law.2
      [⟨0x68656164, 0, 0, 0, 0, 28, 12⟩] (List.replicate 40 0)
      ⟨0x68656164, 0, 0, 0, 0, 28, 12⟩
      rfl (by decide) ⟨rfl, trivial⟩
      (by
        intro t ht k hk1 hk2
        have he : t = ⟨0x68656164, 0, 0, 0, 0, 28, 12⟩ :=
          List.mem_singleton.mp ht
        rw [he] at hk1 hk2
        have hr : Round4 (DecTable.mk 0x68656164 0 0 0 0 28 12).dstLength
            = 12 := by decide
        have hl : (DecTable.mk 0x68656164 0 0 0 0 28 12).dstLength = 12 :=
          by decide
        rw [hr] at hk2
        rw [hl] at hk1
        exact absurd hk2 (by omega))
      (by decide)

set_option maxRecDepth 2000 in
/-- C3, counterexample to the claim as stated: for a source font carrying
nonzero bytes past a table's `length` (payload `[0,9,9,9]`, `length` 1),
the encoder's fixup-then-write pipeline emits a file whose whole-file
mod-2^32 word sum is not 0xB1B0AFBA: normalize.cc's `ComputeChecksum`
summed `Round4 length` source bytes (including the garbage `9`s), but
`WriteFont` zeroes the file's padding bytes, so the emitted file sums to
0xB1B0AFBA - 0x090909. -/
theorem c3_unpadded_tail_breaks_checksum :
    ∃ f2 out,
      fixChecksums (normalizeOffsets
        ⟨0x00010000, 2,
          [⟨0x41414141, 0, 0, 1, [0, 9, 9, 9]⟩,
           ⟨0x68656164, 0, 0, 12, List.replicate 12 0⟩]⟩) = some f2
      ∧ writeFont f2 (fontFileSize f2) = some out
      ∧ computeChecksum out (fontFileSize f2) ≠ 0xB1B0AFBA := by
  refine ⟨⟨65536, 2,
      [⟨1094795585, 592137, 44, 1, [0, 9, 9, 9]⟩,
       ⟨1751474532, 0, 48, 12,
        [0, 0, 0, 0, 0, 0, 0, 0, 7, 243, 250, 122]⟩]⟩,
    [0, 1, 0, 0, 0, 2, 0, 32, 0, 1, 0, 0, 65, 65, 65, 65, 0, 9, 9, 9,
     0, 0, 0, 44, 0, 0, 0, 1, 104, 101, 97, 100, 0, 0, 0, 0, 0, 0, 0, 48,
     0, 0, 0, 12, 0, 0, 0, 0, 0, 0, 0, 0, 0, 0, 0, 0, 7, 243, 250, 122],
    ?_, ?_, ?_⟩
  · rw [fixChecksums_eq_fuel _ 12 (by decide) (by decide)]
    decide
  · rw [writeFont_eq_fuel 12 _ _ (by decide)]
    decide
  · have h60 : fontFileSize (⟨65536, 2,
        [⟨1094795585, 592137, 44, 1, [0, 9, 9, 9]⟩,
         ⟨1751474532, 0, 48, 12,
          [0, 0, 0, 0, 0, 0, 0, 0, 7, 243, 250, 122]⟩]⟩ : SfntFont)
        = 60 := by decide
    rw [h60, computeChecksum_eq_fuel 60 _ _ (by omega)]
    decide

/-- Witness for C7: a one-glyph font with 16-bit head and a stored-glyph
size just past the 2^17 boundary; the 16-bit pass fails and normalization
still succeeds. -/
theorem c7_loca_16bit_retry_witness :
    writeNormalizedLoca (fun _ => some (2 ^ 17 + 1)) 0 (numGlyphs tinyFont)
      tinyFont = none ∧
    normalizeFont (fun _ => some (2 ^ 17 + 1)) tinyFont ≠ none := by
  have h := c7_loca_16bit_retry (fun _ => some (2 ^ 17 + 1))
    (fun _ => 2 ^ 17 + 1) tinyFont
    ⟨kHeadTableTag, 0, 44, 54, List.replicate 56 0⟩
    (fun i => rfl) (by decide) (by decide) (by decide) (by decide)
    (by decide) (by decide)
    ⟨1, by decide, by norm_num [glyfOffsetFrom, Round4]⟩
  exact ⟨h.1, h.2.2.2.1 (by decide)⟩

end Woff2
